import Mathlib

/-! # StepMania SM parser (`game/songparser-sm.cc`)

A shallow embedding of the SM song-file parser of Performous and a
verification of its specification.

Conventions of the embedding.

* A `std::string` / `std::vector<char>` is a `List Char` (`Str`); every byte of
  the input is one character.
* The shared line cursor (`getline`) is the list of the lines not yet read,
  kept in the parser state; each `getline` takes the head of that list.
* `double` times are exact rationals (`ℚ`).
* The counters `measure`, `div`, `note` (`unsigned`) and `holdIdx` (`int`) are
  natural numbers: they count lines of the input and are exact for every
  input of fewer than `2^31` lines.  `std::string::size_type` arithmetic that
  can wrap on a short line (`pos - 1`) is written modulo `2^64`.
* A C++ exception is the `Except.error` carrying the text of `what()`.
-/

deriving instance DecidableEq for Except

namespace SongParser

/-- A byte string. -/
abbrev Str := List Char

/-! ## `smCheck` -/

/-- The `for` loop of `smCheck`: scan the buffer for a `';'`. -/
def smCheckScan : List Char → Bool
  | [] => false
  | c :: rest => if c = ';' then true else smCheckScan rest

/-- `SongParser::smCheck`.  `data[0]` and `data[1]` are unchecked vector
accesses: the result is `none` where the source reads past the end of the
buffer (an empty buffer, or the one-byte buffer `#`). -/
def smCheck (data : List Char) : Option Bool :=
  match data with
  | [] => none
  | [c0] => if c0 ≠ '#' then some false else none
  | c0 :: c1 :: _ =>
    if c0 ≠ '#' ∨ c1 < 'A' ∨ c1 > 'Z' then some false
    else some (smCheckScan data)

/-! ## String helpers (`std::string`, `boost::trim_copy`, `toupper`) -/

/-- The value `std::string::npos`. -/
def npos : Nat := 2 ^ 64 - 1

/-- The read `s[i]`; `s[s.size()]` is the terminating NUL. -/
def charAt (s : Str) (i : Nat) : Char := s.getD i '\x00'

/-- The call `s.find(c)` (also `s.find_first_of(c)`): the index of the first
`c`, or `npos`. -/
def find (s : Str) (c : Char) : Nat :=
  if s.indexOf c < s.length then s.indexOf c else npos

/-- The call `s.find_first_not_of(set)`: the index of the first character that
is not in `set`, or `npos`. -/
def find_first_not_of (s : Str) (set : List Char) : Nat :=
  if (s.takeWhile (fun c => decide (c ∈ set))).length < s.length
  then (s.takeWhile (fun c => decide (c ∈ set))).length else npos

/-- The call `s.substr(pos, n)` for `pos <= s.size()`. -/
def substr (s : Str) (pos n : Nat) : Str := (s.drop pos).take n

/-- The `size_type` subtraction `pos - 1`, which wraps at `pos = 0`. -/
def sizeSub1 (pos : Nat) : Nat := (pos + (2 ^ 64 - 1)) % 2 ^ 64

/-- The predicate `std::isspace` in the classic locale. -/
def isSpace (c : Char) : Bool :=
  c = ' ' || c = '\t' || c = '\n' || c = '\x0b' || c = '\x0c' || c = '\r'

/-- The function `boost::trim_copy`: drop leading and trailing white space. -/
def trim_copy (s : Str) : Str :=
  ((s.dropWhile isSpace).reverse.dropWhile isSpace).reverse

/-- The helper `upper_case` (`toupper`). -/
def upper_case (c : Char) : Char := c.toUpper

/-- The helper `lower_case` (`tolower`). -/
def lower_case (c : Char) : Char := c.toLower

/-! ## Notes -/

/-- The variants of `Note::Type` that the SM parser produces. -/
inductive NoteType where
  | TAP | HOLDBEGIN | HOLDEND | ROLL | MINE | LIFT
  deriving DecidableEq, Repr

/-- The struct `Note`: times in seconds, the variant, and the lane (`note`). -/
structure Note where
  begin : ℚ
  end_ : ℚ
  type : NoteType
  note : Nat
  deriving DecidableEq

/-- The type `Notes`. -/
abbrev Notes := List Note

/-- The type `DanceChord` (`std::map<int, Note>`): the entries in ascending key
order, which is the order in which the map is iterated. -/
abbrev DanceChord := List (Nat × Note)

/-- The assignment `chord[i] = note` on the ordered map. -/
def chordSet : DanceChord → Nat → Note → DanceChord
  | [], i, n => [(i, n)]
  | (k, v) :: rest, i, n =>
    if i < k then (i, n) :: (k, v) :: rest
    else if i = k then (k, n) :: rest
    else (k, v) :: chordSet rest i n

/-- The character dispatch of the row loop: `none` where the source does
`continue` (the character `0` and every unknown character). -/
def noteTypeOf (notetype : Char) : Option NoteType :=
  if notetype = '0' then none
  else if notetype = '1' then some NoteType.TAP
  else if notetype = '2' then some NoteType.HOLDBEGIN
  else if notetype = '3' then some NoteType.HOLDEND
  else if notetype = '4' then some NoteType.ROLL
  else if notetype = 'M' then some NoteType.MINE
  else if notetype = 'L' then some NoteType.LIFT
  else if 'a' ≤ notetype ∧ notetype ≤ 'z' then some NoteType.TAP
  else if 'A' ≤ notetype ∧ notetype ≤ 'Z' then some NoteType.TAP
  else none

/-- The row loop `for (i = 0; i < line.size(); i++)`, from index `i` on. -/
def parseRowFrom : Nat → List Char → DanceChord → DanceChord
  | _, [], chord => chord
  | i, c :: rest, chord =>
    match noteTypeOf c with
    | none => parseRowFrom (i + 1) rest chord
    | some ty =>
      parseRowFrom (i + 1) rest (chordSet chord i { begin := 0, end_ := 0, type := ty, note := i })

/-- The chord of one grid row. -/
def parseRow (line : Str) : DanceChord := parseRowFrom 0 line []

/-- The map `holdMarks` (`std::map<int, int>`), read through `operator[]`: a
lane without an entry reads as `0`. -/
abbrev HoldMarks := Nat → Nat

/-- The assignment `holdMarks[lane] = v`. -/
def holdSet (holdMarks : HoldMarks) (lane v : Nat) : HoldMarks :=
  fun k => if k = lane then v else holdMarks k

/-- The assignment `notes[idx].end = t`. -/
def setEnd : Notes → Nat → ℚ → Notes
  | [], _, _ => []
  | n :: rest, 0, t => { n with end_ := t } :: rest
  | n :: rest, idx + 1, t => n :: setEnd rest idx t

/-- The text of the hold error. -/
def errHoldEnd : String := "Hold end without beginning"

/-- The body of the inner `for` loop of the flush, for one `(lane, note)`
entry of a chord at time `t`. -/
def processCell (t : ℚ) (notes : Notes) (holdMarks : HoldMarks) (lane : Nat) (n0 : Note) :
    Except String (Notes × HoldMarks) :=
  let holdIdx := holdMarks lane
  let n : Note := { n0 with begin := t, end_ := t }
  let notes1 :=
    if n.type = NoteType.TAP ∨ n.type = NoteType.MINE ∨ n.type = NoteType.LIFT
    then notes ++ [n] else notes
  if n.type = NoteType.HOLDBEGIN ∨ n.type = NoteType.ROLL then
    let notes2 := notes1 ++ [n]
    Except.ok (notes2, holdSet holdMarks lane notes2.length)
  else if n.type = NoteType.HOLDEND then
    if holdIdx = 0 then Except.error errHoldEnd
    else Except.ok (setEnd notes1 (holdIdx - 1) t, holdSet holdMarks lane 0)
  else Except.ok (notes1, holdSet holdMarks lane 0)

/-- The inner `for` loop of the flush: the entries of one chord, in key
order. -/
def processChord (t : ℚ) : DanceChord → Notes → HoldMarks → Except String (Notes × HoldMarks)
  | [], notes, holdMarks => Except.ok (notes, holdMarks)
  | (lane, n) :: rest, notes, holdMarks =>
    match processCell t notes holdMarks lane n with
    | Except.error e => Except.error e
    | Except.ok (notes1, holdMarks1) => processChord t rest notes1 holdMarks1

/-- The outer `for (note = 0; note < div; ++note)` loop of the flush, from row
`note` on; `t = begin + note * step`. -/
def processRows (begin step : ℚ) :
    Nat → List DanceChord → Notes → HoldMarks → Except String (Notes × HoldMarks)
  | _, [], notes, holdMarks => Except.ok (notes, holdMarks)
  | note, chord :: rest, notes, holdMarks =>
    match processChord (begin + note * step) chord notes holdMarks with
    | Except.error e => Except.error e
    | Except.ok (notes1, holdMarks1) => processRows begin step (note + 1) rest notes1 holdMarks1

/-- The local variables of `smParseNotes`. -/
structure NotesState where
  chords : List DanceChord
  notes : Notes
  measure : Nat
  begin : ℚ
  holdMarks : HoldMarks

/-- The locals as `smParseNotes` initialises them. -/
def NotesState.init : NotesState :=
  { chords := [], notes := [], measure := 1, begin := 0, holdMarks := fun _ => 0 }

/-- The `while (getline(line))` loop of `smParseNotes` over the lines still
unread.  Returns the notes (or the exception) and the lines left unread. -/
def smParseNotesLoop (tsTime : ℚ → ℚ) : List Str → NotesState → Except String Notes × List Str
  | [], s => (Except.ok s.notes, [])
  | line :: rest, s =>
    if line = [] ∨ line = ['\r'] then smParseNotesLoop tsTime rest s
    else if charAt line 0 = '/' ∧ charAt line 1 = '/' then smParseNotesLoop tsTime rest s
    else if charAt line 0 = '#' then (Except.ok s.notes, rest)
    else if charAt line 0 = ',' ∨ charAt line 0 = ';' then
      let end_ := tsTime ((s.measure : ℚ) * 16)
      let div := s.chords.length
      let step := (end_ - s.begin) / (div : ℚ)
      match processRows s.begin step 0 s.chords s.notes s.holdMarks with
      | Except.error e => (Except.error e, rest)
      | Except.ok (notes1, holdMarks1) =>
        smParseNotesLoop tsTime rest
          { chords := [], notes := notes1, measure := s.measure + 1, begin := end_,
            holdMarks := holdMarks1 }
    else smParseNotesLoop tsTime rest { s with chords := s.chords ++ [parseRow line] }

/-- `SongParser::smParseNotes`, reading from the unread lines `lines`. -/
def smParseNotes (tsTime : ℚ → ℚ) (lines : List Str) : Except String Notes × List Str :=
  smParseNotesLoop tsTime lines NotesState.init

/-! ## Song and parser state -/

/-- The enum `DanceDifficulty`, in declaration order. -/
inductive DanceDifficulty where
  | BEGINNER | EASY | MEDIUM | HARD | CHALLENGE | DIFFICULTYCOUNT
  deriving DecidableEq, Repr

/-- The integer value of a `DanceDifficulty`, which orders the keys of a
`DanceDifficultyMap`. -/
def DanceDifficulty.toNat : DanceDifficulty → Nat
  | BEGINNER => 0 | EASY => 1 | MEDIUM => 2 | HARD => 3 | CHALLENGE => 4 | DIFFICULTYCOUNT => 5

/-- The struct `DanceTrack`. -/
structure DanceTrack where
  description : Str
  notes : Notes
  deriving DecidableEq

/-- The call `m.find(k)` on a `std::map` held as its list of entries in key
order: the mapped value, `none` for `m.end()`. -/
def mapFind {κ β : Type} [DecidableEq κ] : List (κ × β) → κ → Option β
  | [], _ => none
  | (k1, v1) :: rest, k => if k = k1 then some v1 else mapFind rest k

/-- The place of a new key `k` in a `std::map` ordered by `lt`: before the
first entry with a larger key. -/
def mapAdd {κ β : Type} (lt : κ → κ → Bool) : List (κ × β) → κ → β → List (κ × β)
  | [], k, v => [(k, v)]
  | (k1, v1) :: rest, k, v =>
    if lt k k1 then (k, v) :: (k1, v1) :: rest
    else (k1, v1) :: mapAdd lt rest k v

/-- The call `m.insert(std::make_pair(k, v))` on a `std::map` ordered by `lt`:
a map that already has the key `k` is left as it is. -/
def mapInsert {κ β : Type} [DecidableEq κ] (lt : κ → κ → Bool) (m : List (κ × β)) (k : κ)
    (v : β) : List (κ × β) :=
  if (mapFind m k).isSome then m else mapAdd lt m k v

/-- The assignment `m[k] = v` on a `std::map` ordered by `lt`. -/
def mapAssign {κ β : Type} [DecidableEq κ] (lt : κ → κ → Bool) : List (κ × β) → κ → β → List (κ × β)
  | [], k, v => [(k, v)]
  | (k1, v1) :: rest, k, v =>
    if lt k k1 then (k, v) :: (k1, v1) :: rest
    else if k = k1 then (k1, v) :: rest
    else (k1, v1) :: mapAssign lt rest k v

/-- The order of `std::string` keys. -/
def strLt (a b : Str) : Bool := decide (a < b)

/-- The order of `DanceDifficulty` keys. -/
def difficultyLt (a b : DanceDifficulty) : Bool := decide (a.toNat < b.toNat)

/-- The type `DanceDifficultyMap` (`std::map<DanceDifficulty, DanceTrack>`). -/
abbrev DanceDifficultyMap := List (DanceDifficulty × DanceTrack)

/-- The type `DanceTracks` (`std::map<std::string, DanceDifficultyMap>`). -/
abbrev DanceTracks := List (Str × DanceDifficultyMap)

/-- The fields of `Song` that the SM parser writes. -/
structure Song where
  title : Str
  artist : Str
  cover : Str
  background : Str
  path : Str
  music : List (Str × Str)
  stops : List (ℚ × ℚ)
  danceTracks : DanceTracks
  deriving DecidableEq

/-- The members of `SongParser` that the SM parser uses: the song, the unread
lines of the input stream, the gap, the base BPM, the BPM map and the
internal stop list. -/
structure State where
  m_song : Song
  lines : List Str
  m_gap : ℚ
  m_bpm : ℚ
  m_bpms : List (ℚ × ℚ)
  m_stops : List (ℚ × ℚ)
  deriving DecidableEq

/-- The tempo data of the parser, which the tempo model reads. -/
structure Tempo where
  gap : ℚ
  bpm : ℚ
  bpms : List (ℚ × ℚ)
  stops : List (ℚ × ℚ)
  deriving DecidableEq

/-- The tempo data held in a parser state. -/
def State.tempo (st : State) : Tempo :=
  { gap := st.m_gap, bpm := st.m_bpm, bpms := st.m_bpms, stops := st.m_stops }

/-- The collaborators of the SM parser that are not part of it: the tempo
model (`tsTime`, `stopConvert`, both members reading the tempo data), the
filesystem probe `boost::filesystem::exists`, and the two library conversions
from text to `double`: `boost::lexical_cast<double>` (`none` when it throws)
and `std::istream >> double` (`none` when the extraction fails, otherwise the
value and the number of characters taken from the stream). -/
structure Env where
  tsTime : Tempo → ℚ → ℚ
  stopConvert : Tempo → ℚ × ℚ → ℚ × ℚ
  fsExists : Str → Bool
  lexicalCastDouble : Str → Option ℚ
  extractDouble : Str → Option (ℚ × Nat)

/-- Modelled from the spec: `addBPM(beat_quarter, bpm)`, declared in
`songparser.hh`, appends the tempo segment `(beat_quarter, bpm)` to the BPM
map. -/
def addBPM (st : State) (ts bpm : ℚ) : State :=
  { st with m_bpms := st.m_bpms ++ [(ts, bpm)] }

/-- The function `assign(double&, std::string)`: decimal commas become points,
then `lexical_cast`. -/
def assignDouble (env : Env) (str : Str) : Except String ℚ :=
  let str1 := str.map (fun c => if c = ',' then '.' else c)
  match env.lexicalCastDouble str1 with
  | some v => Except.ok v
  | none => Except.error ("\"" ++ String.mk str1 ++ "\" is not valid floating point value")

/-- The extraction `iss >> chr` of one `char`: skips white space, fails at the
end of the stream. -/
def extractChar (s : Str) : Option (Char × Str) :=
  match s.dropWhile isSpace with
  | [] => none
  | c :: rest => some (c, rest)

/-- The pairs read by the loop
`while (iss >> a >> chr >> b) { ...; if (!(iss >> chr)) break; }`
of the `BPMS` and `STOPS` handlers, in order.  Each round takes at least one
character from the stream, so `fuel` larger than the length of the stream is
never used up. -/
def readPairs (env : Env) : Nat → Str → List (ℚ × ℚ)
  | 0, _ => []
  | fuel + 1, s =>
    match env.extractDouble s with
    | none => []
    | some (a, n1) =>
      match extractChar (s.drop n1) with
      | none => []
      | some (_, s2) =>
        match env.extractDouble s2 with
        | none => []
        | some (b, n2) =>
          (a, b) ::
            match extractChar (s2.drop n2) with
            | none => []
            | some (_, s3) => readPairs env fuel s3

/-- The body of the `BPMS` loop for one pair `ts = bpm`. -/
def bpmsStep (st : State) (p : ℚ × ℚ) : State :=
  addBPM (if p.1 = 0 then { st with m_bpm := p.2 } else st) (p.1 * 4) p.2

/-- The body of the `STOPS` loop for one pair `beat = sec`. -/
def stopsStep (st : State) (p : ℚ × ℚ) : State :=
  { st with m_stops := st.m_stops ++ [(p.1 * 4, p.2)] }

/-! ## `smParseField` -/

/-- The texts of the exceptions thrown by the parser. -/
def errInvalidFormat : String := "Invalid format, should be #key:value"

/-- The text thrown when a chart preamble is cut short. -/
def errNoteDataMissing : String := "Required note data missing"

/-- The text thrown when no chart was read. -/
def errNoNoteData : String := "No note data in the file"

/-- The text thrown when the title or the artist is empty. -/
def errHeaderMissing : String := "Required header fields missing"

/-- The text thrown when a value is not closed by a semicolon. -/
def errSemicolon (key : Str) : String :=
  "Invalid format, semicolon missing after value of " ++ String.mk key

/-- The `std::out_of_range` that `std::string::substr(pos)` throws for
`pos > size()`; the library words the text. -/
def errOutOfRange : String := "basic_string::substr"

/-- The mapping of the upper-cased `DifficultyClass` text. -/
def difficultyOf (difficultyclass : Str) : DanceDifficulty :=
  let d0 := DanceDifficulty.DIFFICULTYCOUNT
  let d1 := if difficultyclass = "BEGINNER".toList then DanceDifficulty.BEGINNER else d0
  let d2 := if difficultyclass = "EASY".toList then DanceDifficulty.EASY else d1
  let d3 := if difficultyclass = "MEDIUM".toList then DanceDifficulty.MEDIUM else d2
  let d4 := if difficultyclass = "HARD".toList then DanceDifficulty.HARD else d3
  if difficultyclass = "CHALLENGE".toList then DanceDifficulty.CHALLENGE else d4

/-- The three statements that store a chart: create the inner map of the
style if it is missing, then `danceTracks[notestype].insert(...)`. -/
def insertTrack (tracks : DanceTracks) (notestype : Str) (danceDifficulty : DanceDifficulty)
    (danceTrack : DanceTrack) : DanceTracks :=
  let tracks1 :=
    if mapFind tracks notestype = none then mapInsert strLt tracks notestype [] else tracks
  mapAssign strLt tracks1 notestype
    (mapInsert difficultyLt ((mapFind tracks1 notestype).getD []) danceDifficulty danceTrack)

/-- The text of a preamble line up to its first colon, trimmed. -/
def preambleText (line : Str) : Str := trim_copy (substr line 0 (find line ':'))

/-- The `while (getline(line))` loop of the `NOTES` branch: one round reads
the five preamble lines and the chart body and stores the chart.  A round
reads at least one line, so `fuel` of at least the number of unread lines is
never used up. -/
def smParseCharts (env : Env) : Nat → State → Except String Unit × State
  | 0, st => (Except.ok (), st)
  | fuel + 1, st =>
    match st.lines with
    | [] => (Except.ok (), st)
    | l1 :: r1 =>
      let notestype := (preambleText l1).map lower_case
      match r1 with
      | [] => (Except.error errNoteDataMissing, { st with lines := [] })
      | l2 :: r2 =>
        let description := preambleText l2
        match r2 with
        | [] => (Except.error errNoteDataMissing, { st with lines := [] })
        | l3 :: r3 =>
          let difficultyclass := (preambleText l3).map upper_case
          let danceDifficulty := difficultyOf difficultyclass
          match r3 with
          | [] => (Except.error errNoteDataMissing, { st with lines := [] })
          | _ :: r4 =>
            match r4 with
            | [] => (Except.error errNoteDataMissing, { st with lines := [] })
            | _ :: r5 =>
              match smParseNotes (env.tsTime st.tempo) r5 with
              | (Except.error e, r6) => (Except.error e, { st with lines := r6 })
              | (Except.ok notes, r6) =>
                smParseCharts env fuel
                  { st with
                    lines := r6
                    m_song :=
                      { st.m_song with
                        danceTracks :=
                          insertTrack st.m_song.danceTracks notestype danceDifficulty
                            { description := description, notes := notes } } }

/-- The loop `while (value[value.size() - 1] != ';')` that joins the lines
of a value.  For an empty `value` the source reads `value[npos]`, a byte
outside the string; the model takes that byte to differ from `;`, so the loop
goes on to the next line. -/
def readValue (key : Str) : List Str → Str → Except String Str × List Str
  | [], value =>
    if value.getLast? = some ';' then (Except.ok value, [])
    else (Except.error (errSemicolon key), [])
  | str :: rest, value =>
    if value.getLast? = some ';' then (Except.ok value, str :: rest)
    else readValue key rest (value ++ trim_copy str)

/-- The key dispatch of `smParseField` for a non-empty `value`. -/
def applyField (env : Env) (key value : Str) (st : State) : Except String Bool × State :=
  if key = "TITLE".toList then
    if find_first_not_of value " :".toList > value.length then (Except.error errOutOfRange, st)
    else
      (Except.ok true,
        { st with m_song := { st.m_song with
            title := substr value (find_first_not_of value " :".toList) npos } })
  else if key = "ARTIST".toList then
    if find_first_not_of value " ".toList > value.length then (Except.error errOutOfRange, st)
    else
      (Except.ok true,
        { st with m_song := { st.m_song with
            artist := substr value (find_first_not_of value " ".toList) npos } })
  else if key = "BANNER".toList then
    (Except.ok true, { st with m_song := { st.m_song with cover := value } })
  else if key = "MUSIC".toList then
    (Except.ok true,
      { st with m_song := { st.m_song with
          music := mapAssign strLt st.m_song.music "background".toList (st.m_song.path ++ value) } })
  else if key = "BACKGROUND".toList then
    (Except.ok true, { st with m_song := { st.m_song with background := value } })
  else if key = "OFFSET".toList then
    match assignDouble env value with
    | Except.error e => (Except.error e, st)
    | Except.ok v => (Except.ok true, { st with m_gap := v * (-1) })
  else if key = "BPMS".toList then
    (Except.ok true, (readPairs env (value.length + 1) value).foldl bpmsStep st)
  else if key = "STOPS".toList then
    (Except.ok true, (readPairs env (value.length + 1) value).foldl stopsStep st)
  else (Except.ok true, st)

/-- `SongParser::smParseField`: the outcome (`true` to go on, `false` once the
charts were read, or the exception) and the parser state it leaves. -/
def smParseField (env : Env) (line : Str) (st : State) : Except String Bool × State :=
  if line = [] ∨ line = ['\r'] then (Except.ok true, st)
  else if charAt line 0 = '/' ∧ charAt line 1 = '/' then (Except.ok true, st)
  else if charAt line 0 = ';' then (Except.ok true, st)
  else
    let pos := find line ':'
    if pos = npos then (Except.error errInvalidFormat, st)
    else
      let key := trim_copy (substr line 1 (sizeSub1 pos))
      if key = "NOTES".toList then
        match smParseCharts env st.lines.length st with
        | (Except.error e, st1) => (Except.error e, st1)
        | (Except.ok (), st1) => (Except.ok false, st1)
      else
        let value := trim_copy (substr line (pos + 1) npos)
        match readValue key st.lines value with
        | (Except.error e, lines1) => (Except.error e, { st with lines := lines1 })
        | (Except.ok value1, lines1) =>
          let value2 := substr value1 0 (value1.length - 1)
          if value2 = [] then (Except.ok true, { st with lines := lines1 })
          else applyField env key value2 { st with lines := lines1 }

/-! ## `smParse` -/

/-- The loop `while (getline(line) && smParseField(line)) {}`.  A round reads
at least one line, so `fuel` of at least the number of unread lines is never
used up. -/
def smParseLoop (env : Env) : Nat → State → Except String Unit × State
  | 0, st => (Except.ok (), st)
  | fuel + 1, st =>
    match st.lines with
    | [] => (Except.ok (), st)
    | line :: rest =>
      match smParseField env line { st with lines := rest } with
      | (Except.error e, st1) => (Except.error e, st1)
      | (Except.ok false, st1) => (Except.ok (), st1)
      | (Except.ok true, st1) => smParseLoop env fuel st1

/-- `SongParser::smParse`: the outcome and the parser state it leaves. -/
def smParse (env : Env) (st : State) : Except String Unit × State :=
  match smParseLoop env st.lines.length st with
  | (Except.error e, st1) => (Except.error e, st1)
  | (Except.ok (), st1) =>
    if st1.m_song.danceTracks.isEmpty then (Except.error errNoNoteData, st1)
    else if st1.m_song.title.isEmpty ∨ st1.m_song.artist.isEmpty then
      (Except.error errHeaderMissing, st1)
    else
      let music := (mapFind st1.m_song.music "background".toList).getD []
      let tmp := st1.m_song.path ++ "music.ogg".toList
      let music1 := if (music.isEmpty ∨ ¬ env.fsExists music) ∧ env.fsExists tmp then tmp else music
      (Except.ok (),
        { st1 with m_song := { st1.m_song with
            music := mapAssign strLt st1.m_song.music "background".toList music1
            stops := st1.m_stops.map (env.stopConvert st1.tempo) } })

/-! ## The flushed grid

The claims about `smParseNotes` speak of the cells of the rows that are
flushed at the measure boundaries.  The definitions below name them: they
follow the reading loop of `smParseNotes` and list, in the order in which the
flush visits them, the chord entries with their position in the grid and the
time `t = begin + note * step` of their row.  `smParseNotes_eq_runCells`
proves that `smParseNotes` is the run of `processCell` over this list. -/

/-- One entry of a flushed row: the measure (counted from 1), the row in the
measure (counted from 0), the number of rows of the measure, the lane (the key
of the entry in its chord), the entry, and the time of the row. -/
structure Cell where
  measure : Nat
  row : Nat
  rows : Nat
  lane : Nat
  note : Note
  t : ℚ
  deriving DecidableEq

/-- The cells of one row. -/
def chordCells (measure row rows : Nat) (t : ℚ) (chord : DanceChord) : List Cell :=
  chord.map (fun e => { measure := measure, row := row, rows := rows, lane := e.1, note := e.2, t := t })

/-- The cells of the rows of one measure from row `note` on. -/
def rowCells (measure rows : Nat) (begin step : ℚ) : Nat → List DanceChord → List Cell
  | _, [] => []
  | note, chord :: rest =>
    chordCells measure note rows (begin + note * step) chord ++
      rowCells measure rows begin step (note + 1) rest

/-- The cells flushed while the lines `lines` are read, starting with the rows
`chords` pending in measure `measure`, which begins at `begin`. -/
def flushedCellsFrom (tsTime : ℚ → ℚ) : List Str → List DanceChord → Nat → ℚ → List Cell
  | [], _, _, _ => []
  | line :: rest, chords, measure, begin =>
    if line = [] ∨ line = ['\r'] then flushedCellsFrom tsTime rest chords measure begin
    else if charAt line 0 = '/' ∧ charAt line 1 = '/' then
      flushedCellsFrom tsTime rest chords measure begin
    else if charAt line 0 = '#' then []
    else if charAt line 0 = ',' ∨ charAt line 0 = ';' then
      rowCells measure chords.length begin
          ((tsTime ((measure : ℚ) * 16) - begin) / (chords.length : ℚ)) 0 chords ++
        flushedCellsFrom tsTime rest [] (measure + 1) (tsTime ((measure : ℚ) * 16))
    else flushedCellsFrom tsTime rest (chords ++ [parseRow line]) measure begin

/-- The cells flushed while a chart body is read. -/
def flushedCells (tsTime : ℚ → ℚ) (body : List Str) : List Cell :=
  flushedCellsFrom tsTime body [] 1 0

/-- The run of `processCell` over a list of cells. -/
def runCells : List Cell → Notes → HoldMarks → Except String (Notes × HoldMarks)
  | [], notes, holdMarks => Except.ok (notes, holdMarks)
  | c :: rest, notes, holdMarks =>
    match processCell c.t notes holdMarks c.lane c.note with
    | Except.error e => Except.error e
    | Except.ok (notes1, holdMarks1) => runCells rest notes1 holdMarks1

/-- The notes of a finished run, or its exception. -/
def runResult (r : Except String (Notes × HoldMarks)) : Except String Notes :=
  match r with
  | Except.error e => Except.error e
  | Except.ok (notes, _) => Except.ok notes

/-- The note of a cell as the flush stamps it: `n.begin = n.end = t`. -/
def Cell.stamped (c : Cell) : Note := { c.note with begin := c.t, end_ := c.t }

/-- The begin time, the type and the lane of a note. -/
def noteKey (n : Note) : ℚ × NoteType × Nat := (n.begin, n.type, n.note)

/-- The invariant of the hold marks during a flush: a mark is at most the
number of notes, and two lanes never carry the same non-zero mark. -/
def MarksOk (notes : Notes) (hm : HoldMarks) : Prop :=
  (∀ l, hm l ≤ notes.length) ∧ (∀ l l2, hm l ≠ 0 → hm l = hm l2 → l = l2)

/-- The instantaneous variants. -/
def NoteType.isInstant (ty : NoteType) : Prop :=
  ty = NoteType.TAP ∨ ty = NoteType.MINE ∨ ty = NoteType.LIFT

/-- The invariant of the notes during a flush: no note ends before it begins,
an instantaneous note ends when it begins, and a non-zero hold mark points to
a `HOLDBEGIN` or `ROLL` note. -/
def NotesOk (notes : Notes) (hm : HoldMarks) : Prop :=
  (∀ n ∈ notes, n.begin ≤ n.end_ ∧ (n.type.isInstant → n.begin = n.end_)) ∧
  (∀ l, hm l ≠ 0 → ∃ n, notes[hm l - 1]? = some n ∧
    (n.type = NoteType.HOLDBEGIN ∨ n.type = NoteType.ROLL))

/-- The cells that put a note into the output: all but the `HOLDEND` cells. -/
def emitting (cells : List Cell) : List Cell :=
  cells.filter (fun c => decide (c.note.type ≠ NoteType.HOLDEND))

/-- The time that the specification gives, at a constant tempo `bpm`, to row
`r` (from 0) of the `m`-th measure (from 1) when that measure has `n` rows. -/
def rowTime (bpm : ℚ) (m r n : Nat) : ℚ :=
  ((m : ℚ) - 1) * 4 * (60 / bpm) + (r : ℚ) * (60 / bpm) * (4 / (n : ℚ))

/-! ## Views of the parser used in the statements -/

/-- The lookup `danceTracks[style][difficulty]`, `none` where an entry is
missing. -/
def trackAt (tracks : DanceTracks) (style : Str) (difficulty : DanceDifficulty) :
    Option DanceTrack :=
  (mapFind tracks style).bind (fun m => mapFind m difficulty)

/-- The lines that `smParseField` skips: empty, a lone carriage return, a
`//` comment, or a line starting with `;`. -/
def isIgnored (line : Str) : Bool :=
  decide ((line = [] ∨ line = ['\r']) ∨ (charAt line 0 = '/' ∧ charAt line 1 = '/') ∨
    charAt line 0 = ';')

/-- The key that `smParseField` reads from a line. -/
def fieldKey (line : Str) : Str := trim_copy (substr line 1 (sizeSub1 (find line ':')))

/-- The first-line part of the value that `smParseField` reads from a line. -/
def fieldValue (line : Str) : Str := trim_copy (substr line (find line ':' + 1) npos)

/-- The lines on which `smParseField` enters the `NOTES` branch. -/
def isNotesLine (line : Str) : Bool :=
  !isIgnored line && decide (find line ':' ≠ npos) && decide (fieldKey line = "NOTES".toList)

/-- The style key of a chart: the `NotesType` line up to its colon, trimmed
and lower-cased. -/
def chartStyle (line : Str) : Str := (preambleText line).map lower_case

/-- The difficulty of a chart, from its `DifficultyClass` line. -/
def chartDifficulty (line : Str) : DanceDifficulty :=
  difficultyOf ((preambleText line).map upper_case)

/-- The chart loop gets from one parser state to another by reading whole
charts: each round finds the five preamble lines and a body that
`smParseNotes` accepts, and stores the chart. -/
inductive ChartsReach (env : Env) : State → State → Prop where
  | refl (st : State) : ChartsReach env st st
  | round (st st2 : State) (l1 l2 l3 l4 l5 : Str) (r5 r6 : List Str) (notes : Notes) :
      st.lines = l1 :: l2 :: l3 :: l4 :: l5 :: r5 →
      smParseNotes (env.tsTime st.tempo) r5 = (Except.ok notes, r6) →
      ChartsReach env
        { st with
          lines := r6
          m_song :=
            { st.m_song with
              danceTracks :=
                insertTrack st.m_song.danceTracks (chartStyle l1) (chartDifficulty l3)
                  { description := preambleText l2, notes := notes } } } st2 →
      ChartsReach env st st2

/-- The segments that a record with key `key` and value `value` adds to the
BPM map: those of a `BPMS` record, none for another key. -/
def recordSegments (env : Env) (key value : Str) : List (ℚ × ℚ) :=
  if key = "BPMS".toList then
    (readPairs env (value.length + 1) value).map (fun p => (p.1 * 4, p.2))
  else []

/-- The values that the handler of their key takes without an exception: an
empty value; for `TITLE`, a value with a character other than a space and a
colon; for `OFFSET`, a value that `lexical_cast<double>` converts. -/
def valueAccepted (env : Env) (key value : Str) : Bool :=
  decide (value = []) ||
    ((decide (key ≠ "TITLE".toList) ||
        decide (find_first_not_of value " :".toList ≤ value.length)) &&
      (decide (key ≠ "OFFSET".toList) ||
        (env.lexicalCastDouble (value.map (fun c => if c = ',' then '.' else c))).isSome))

/-- The lines on which `smParseField` reads a record other than a chart: not
ignored, with a colon, and with a key other than `NOTES`. -/
def isRecordLine (line : Str) : Bool :=
  !isIgnored line && decide (find line ':' ≠ npos) && decide (fieldKey line ≠ "NOTES".toList)

/-- The inputs made of ignored lines and of `KEY:VALUE;` records with a key
other than `NOTES` and an accepted value, with the segments their `BPMS`
records add to the BPM map.  The value of a record is closed by a `;` at the
end of its line or of a later line (`readValue` succeeds). -/
inductive HeaderOnly (env : Env) : List Str → List (ℚ × ℚ) → Prop where
  | nil : HeaderOnly env [] []
  | ignored (line : Str) (rest : List Str) (segs : List (ℚ × ℚ)) :
      isIgnored line = true → HeaderOnly env rest segs → HeaderOnly env (line :: rest) segs
  | record (line : Str) (rest : List Str) (value1 : Str) (rest1 : List Str)
      (segs : List (ℚ × ℚ)) :
      isRecordLine line = true →
      readValue (fieldKey line) rest (fieldValue line) = (Except.ok value1, rest1) →
      valueAccepted env (fieldKey line) (substr value1 0 (value1.length - 1)) = true →
      HeaderOnly env rest1 segs →
      HeaderOnly env (line :: rest)
        (recordSegments env (fieldKey line) (substr value1 0 (value1.length - 1)) ++ segs)

/-- The continuation lines of a value, each trimmed, put end to end. -/
def joinTrimmed : List Str → Str
  | [] => []
  | c :: rest => trim_copy c ++ joinTrimmed rest

/-- The parser state after a chart was stored: the cursor at `lines`, the chart
`t` inserted under `style` and `d`. -/
def State.withChart (st : State) (lines : List Str) (style : Str) (d : DanceDifficulty)
    (t : DanceTrack) : State :=
  { st with
    lines := lines
    m_song := { st.m_song with danceTracks := insertTrack st.m_song.danceTracks style d t } }

/-- The text of a line before its first colon, the whole line if it has
none. -/
def beforeColon (line : Str) : Str := line.takeWhile (fun c => decide (c ≠ ':'))

/-- The entries that the row loop adds for the characters `line`, the first
of which is at index `i`. -/
def rowEntries : Nat → List Char → DanceChord
  | _, [] => []
  | i, c :: rest =>
    match noteTypeOf c with
    | none => rowEntries (i + 1) rest
    | some ty => (i, { begin := 0, end_ := 0, type := ty, note := i }) :: rowEntries (i + 1) rest

/-- The ASCII letters. -/
def isAsciiLetter (c : Char) : Prop := ('a' ≤ c ∧ c ≤ 'z') ∨ ('A' ≤ c ∧ c ≤ 'Z')

/-- A fresh parser over the lines of an input: an empty song in directory
`path`, no tempo data. -/
def State.init (path : Str) (lines : List Str) : State :=
  { m_song := { title := [], artist := [], cover := [], background := [], path := path,
                music := [], stops := [], danceTracks := [] },
    lines := lines, m_gap := 0, m_bpm := 0, m_bpms := [], m_stops := [] }

/-- Modelled from the spec: the line source `getline`, declared in
`songparser.hh`, splits the input on line feeds (a carriage return stays in
the line); text after the last line feed is a line if it is not empty.  This
is the list of the lines it yields, `cur` being the line read so far. -/
def splitLinesFrom : List Char → Str → List Str
  | [], cur => if cur = [] then [] else [cur]
  | c :: rest, cur =>
    if c = '\n' then cur :: splitLinesFrom rest [] else splitLinesFrom rest (cur ++ [c])

/-- The lines of an input text. -/
def splitLines (data : String) : List Str := splitLinesFrom data.toList []

/-- The tempo model of a song at a constant 120 BPM: `tsTime(16) = 2`. -/
def ts120 : ℚ → ℚ := fun q => q / 4 * (60 / 120)

/-! ## A sample environment

Plain decimal readers and a constant tempo, used to run the parser on
concrete inputs.  The theorems hold for every environment. -/

/-- The value of a digit string. -/
def digitsValue (ds : List Char) : Nat := ds.foldl (fun a d => 10 * a + (d.toNat - 48)) 0

/-- A reader of a decimal number `[+-]digits[.digits]` at the head of a text:
the value, the number of characters read and the rest, if a digit was read. -/
def readDecimal (s : Str) : Option (ℚ × Nat × Str) :=
  let signed : ℚ × Nat × Str :=
    match s with
    | '-' :: r => (-1, 1, r)
    | '+' :: r => (1, 1, r)
    | _ => (1, 0, s)
  let ip := signed.2.2.takeWhile Char.isDigit
  let r1 := signed.2.2.dropWhile Char.isDigit
  let frac : List Char × Nat × Str :=
    match r1 with
    | '.' :: r => (r.takeWhile Char.isDigit, 1 + (r.takeWhile Char.isDigit).length,
                    r.dropWhile Char.isDigit)
    | _ => ([], 0, r1)
  if ip = [] ∧ frac.1 = [] then none
  else
    some (signed.1 * ((digitsValue ip : ℚ) + (digitsValue frac.1 : ℚ) / (10 : ℚ) ^ frac.1.length),
      signed.2.1 + ip.length + frac.2.1, frac.2.2)

/-- The sample environment: 120 BPM whatever the tempo data, stops converted
through the same tempo, no file exists, decimal readers. -/
def sampleEnv : Env :=
  { tsTime := fun _ => ts120
    stopConvert := fun _ p => (ts120 p.1, p.2)
    fsExists := fun _ => false
    lexicalCastDouble := fun s =>
      match readDecimal s with
      | some (v, _, []) => some v
      | _ => none
    extractDouble := fun s =>
      match readDecimal (s.dropWhile isSpace) with
      | some (v, n, _) => some (v, (s.length - (s.dropWhile isSpace).length) + n)
      | none => none }

/-! ## Sample inputs -/

/-- A single measure of four rows with a hold on lane 0 from row 0 to row 2. -/
def holdBody : List Str := ["2000".toList, "0000".toList, "3000".toList, "0000".toList, ";".toList]

/-- A single measure of two rows: a tap on lane 0, then a tap on lane 1. -/
def tapsBody : List Str := ["1000".toList, "0100".toList, ",".toList]

/-- A file with two charts of the same style and difficulty. -/
def dupInput : String :=
  "#TITLE:X;\n#ARTIST:Y;\n" ++
  "#NOTES:\n     dance-single:\n     first:\n     Easy:\n     3:\n     0,0,0,0,0:\n" ++
  "1000\n0000\n0000\n0000\n;\n" ++
  "#NOTES:\n     dance-single:\n     second:\n     Easy:\n     3:\n     0,0,0,0,0:\n" ++
  "1000\n0100\n0000\n0000\n;\n"

/-- A file with a chart and a title but no artist. -/
def noArtistInput : String :=
  "#TITLE:X;\n" ++
  "#NOTES:\n     dance-single:\n     first:\n     Easy:\n     3:\n     0,0,0,0,0:\n" ++
  "1000\n;\n"

/-- The parser state in which the first `#NOTES:` line of `dupInput` is read:
title and artist are set, the lines from that line on are unread. -/
def dupState : State :=
  { State.init [] ((splitLines dupInput).drop 2) with
    m_song := { (State.init [] []).m_song with title := "X".toList, artist := "Y".toList } }

/-- The chart of the first block of `dupInput`. -/
def dupFirst : DanceTrack :=
  { description := "first".toList,
    notes := [{ begin := 0, end_ := 0, type := NoteType.TAP, note := 0 }] }

/-- The chart of the second (last) block of `dupInput`. -/
def dupSecond : DanceTrack :=
  { description := "second".toList,
    notes := [{ begin := 0, end_ := 0, type := NoteType.TAP, note := 0 },
              { begin := 1 / 2, end_ := 1 / 2, type := NoteType.TAP, note := 1 }] }

/-- A file with two charts of the style `dance-single`, one `Easy` and one
`Hard`. -/
def twoInput : String :=
  "#TITLE:X;\n#ARTIST:Y;\n" ++
  "#NOTES:\n     dance-single:\n     first:\n     Easy:\n     3:\n     0,0,0,0,0:\n" ++
  "1000\n0000\n0000\n0000\n;\n" ++
  "#NOTES:\n     dance-single:\n     second:\n     Hard:\n     3:\n     0,0,0,0,0:\n" ++
  "1000\n0100\n0000\n0000\n;\n"

/-- The parser state in which the first `#NOTES:` line of `twoInput` is read. -/
def twoState : State :=
  { State.init [] ((splitLines twoInput).drop 2) with
    m_song := { (State.init [] []).m_song with title := "X".toList, artist := "Y".toList } }

/-- A measure with a hold on lane 0 that is never closed. -/
def openHoldBody : List Str := ["2000".toList, "0000".toList, ";".toList]

/-- A tempo model that increases strictly but is negative at the end of the
first measure: `tsTime(16) = -1`. -/
def tsLate : ℚ → ℚ := fun q => q / 16 - 2

end SongParser

namespace SongParser

/-! ## Verification of `smCheck` -/

theorem smCheckScan_iff (l : List Char) : smCheckScan l = true ↔ ';' ∈ l := by
  induction l with
  | nil => simp [smCheckScan]
  | cons c rest ih =>
    by_cases hc : c = ';'
    · simp [smCheckScan, hc]
    · have hne : ¬ (';' = c) := fun h => hc h.symm
      simp [smCheckScan, hc, hne, ih]

/-- C1: on a buffer of at least two bytes `smCheck` returns a boolean, and it
returns `true` exactly when the first byte is `#`, the second byte is an
upper-case ASCII letter and the buffer contains a `;`. -/
theorem smCheck_true_iff (data : List Char) (h : 2 ≤ data.length) :
    (smCheck data = some true ∨ smCheck data = some false) ∧
    (smCheck data = some true ↔
      data[0]? = some '#' ∧ (∃ c, data[1]? = some c ∧ 'A' ≤ c ∧ c ≤ 'Z') ∧ ';' ∈ data) := by
  match data, h with
  | c0 :: c1 :: rest, _ =>
    by_cases hg : c0 ≠ '#' ∨ c1 < 'A' ∨ c1 > 'Z'
    · refine ⟨Or.inr (by simp [smCheck, hg]), ?_⟩
      constructor
      · intro ht
        simp [smCheck, hg] at ht
      · rintro ⟨h0, ⟨c, hc, hA, hZ⟩, _⟩
        simp at h0 hc
        subst hc
        rcases hg with hg | hg | hg
        · exact absurd h0 hg
        · exact absurd hA (not_le.mpr hg)
        · exact absurd hZ (not_le.mpr hg)
    · have hg2 := hg
      simp only [not_or, not_not, not_lt, gt_iff_lt] at hg2
      obtain ⟨h0, hA, hZ⟩ := hg2
      have hs : smCheck (c0 :: c1 :: rest) = some (smCheckScan (c0 :: c1 :: rest)) := by
        simp only [smCheck, if_neg hg]
      rw [hs]
      refine ⟨?_, ?_⟩
      · cases smCheckScan (c0 :: c1 :: rest) <;> simp
      · rw [Option.some_inj, smCheckScan_iff]
        constructor
        · intro hm
          exact ⟨by simp [h0], ⟨c1, by simp, hA, hZ⟩, hm⟩
        · rintro ⟨_, _, hm⟩
          exact hm

/-- C1 at the buffer `#A;`. -/
theorem smCheck_true_iff_witness :
    2 ≤ "#A;".toList.length ∧ smCheck "#A;".toList = some true :=
  ⟨by decide, ((smCheck_true_iff "#A;".toList (by decide)).2).mpr
    ⟨by decide, ⟨'A', by decide, by decide, by decide⟩, by decide⟩⟩

end SongParser

namespace SongParser

/-! ## `smParseNotes` as a run over the flushed cells -/

theorem runCells_append (a b : List Cell) (notes : Notes) (hm : HoldMarks) :
    runCells (a ++ b) notes hm =
      match runCells a notes hm with
      | Except.error e => Except.error e
      | Except.ok (notes1, hm1) => runCells b notes1 hm1 := by
  induction a generalizing notes hm with
  | nil => simp [runCells]
  | cons c rest ih =>
    simp only [List.cons_append, runCells]
    cases hc : processCell c.t notes hm c.lane c.note with
    | error e => simp
    | ok p => obtain ⟨n1, h1⟩ := p; simp [ih]

theorem processChord_eq_runCells (measure row rows : Nat) (t : ℚ) (chord : DanceChord)
    (notes : Notes) (hm : HoldMarks) :
    processChord t chord notes hm = runCells (chordCells measure row rows t chord) notes hm := by
  induction chord generalizing notes hm with
  | nil => simp [processChord, chordCells, runCells]
  | cons e rest ih =>
    obtain ⟨lane, n⟩ := e
    simp only [processChord, chordCells, List.map_cons, runCells]
    cases hc : processCell t notes hm lane n with
    | error e => simp
    | ok p =>
      obtain ⟨n1, h1⟩ := p
      simpa [chordCells] using ih n1 h1

theorem processRows_eq_runCells (measure rows : Nat) (begin step : ℚ) (note : Nat)
    (chords : List DanceChord) (notes : Notes) (hm : HoldMarks) :
    processRows begin step note chords notes hm =
      runCells (rowCells measure rows begin step note chords) notes hm := by
  induction chords generalizing note notes hm with
  | nil => simp [processRows, rowCells, runCells]
  | cons chord rest ih =>
    simp only [processRows, rowCells, runCells_append]
    rw [processChord_eq_runCells measure note rows]
    cases hc : runCells (chordCells measure note rows (begin + note * step) chord) notes hm with
    | error e => simp
    | ok p => obtain ⟨n1, h1⟩ := p; simpa using ih (note + 1) n1 h1

theorem smParseNotesLoop_eq_runCells (tsTime : ℚ → ℚ) (lines : List Str) (s : NotesState) :
    (smParseNotesLoop tsTime lines s).1 =
      runResult (runCells (flushedCellsFrom tsTime lines s.chords s.measure s.begin)
        s.notes s.holdMarks) := by
  induction lines generalizing s with
  | nil => simp [smParseNotesLoop, flushedCellsFrom, runCells, runResult]
  | cons line rest ih =>
    unfold smParseNotesLoop flushedCellsFrom
    split_ifs with h1 h2 h3 h4
    · exact ih s
    · exact ih s
    · simp [runCells, runResult]
    · simp only [runCells_append]
      rw [processRows_eq_runCells s.measure s.chords.length]
      cases hr : runCells (rowCells s.measure s.chords.length s.begin
          ((tsTime ((s.measure : ℚ) * 16) - s.begin) / (s.chords.length : ℚ)) 0 s.chords)
          s.notes s.holdMarks with
      | error e => simp [runResult]
      | ok p =>
        obtain ⟨n1, h1⟩ := p
        simpa using ih { chords := [], notes := n1, measure := s.measure + 1,
                         begin := tsTime ((s.measure : ℚ) * 16), holdMarks := h1 }
    · simpa using ih { s with chords := s.chords ++ [parseRow line] }

/-- The function `smParseNotes` returns what the run of `processCell` over the
flushed cells of the body returns. -/
theorem smParseNotes_eq_runCells (tsTime : ℚ → ℚ) (body : List Str) :
    (smParseNotes tsTime body).1 =
      runResult (runCells (flushedCells tsTime body) [] (fun _ => 0)) := by
  simpa [smParseNotes, flushedCells, NotesState.init] using
    smParseNotesLoop_eq_runCells tsTime body NotesState.init

end SongParser

namespace SongParser

/-! ## One step of the flush -/

theorem setEnd_length (notes : Notes) (i : Nat) (t : ℚ) :
    (setEnd notes i t).length = notes.length := by
  induction notes generalizing i with
  | nil => simp [setEnd]
  | cons n rest ih => cases i <;> simp [setEnd, ih]

theorem setEnd_getElem?_ne (notes : Notes) (i k : Nat) (t : ℚ) (h : i ≠ k) :
    (setEnd notes i t)[k]? = notes[k]? := by
  induction notes generalizing i k with
  | nil => simp [setEnd]
  | cons n rest ih =>
    cases i with
    | zero =>
      cases k with
      | zero => exact absurd rfl h
      | succ k => simp [setEnd]
    | succ i =>
      cases k with
      | zero => simp [setEnd]
      | succ k => simpa [setEnd] using ih i k (fun e => h (by rw [e]))

theorem setEnd_getElem?_eq (notes : Notes) (k : Nat) (t : ℚ) (n : Note)
    (h : notes[k]? = some n) : (setEnd notes k t)[k]? = some { n with end_ := t } := by
  induction notes generalizing k with
  | nil => simp at h
  | cons m rest ih =>
    cases k with
    | zero =>
      simp at h
      simp [setEnd, h]
    | succ k =>
      simp at h
      simpa [setEnd] using ih k h

theorem setEnd_map (notes : Notes) (i : Nat) (t : ℚ) {β : Type} (f : Note → β)
    (hf : ∀ (n : Note) (u : ℚ), f { n with end_ := u } = f n) :
    (setEnd notes i t).map f = notes.map f := by
  induction notes generalizing i with
  | nil => simp [setEnd]
  | cons n rest ih => cases i <;> simp [setEnd, ih, hf]

/-- A cell other than a `HOLDEND` appends its stamped note and marks the lane:
with the new length for a `HOLDBEGIN` or `ROLL`, with `0` otherwise. -/
theorem processCell_emit (t : ℚ) (notes : Notes) (hm : HoldMarks) (lane : Nat) (n0 : Note)
    (h : n0.type ≠ NoteType.HOLDEND) :
    processCell t notes hm lane n0 =
      Except.ok (notes ++ [{ n0 with begin := t, end_ := t }],
        holdSet hm lane
          (if n0.type = NoteType.HOLDBEGIN ∨ n0.type = NoteType.ROLL then notes.length + 1
           else 0)) := by
  cases hty : n0.type <;> simp_all [processCell]

/-- A `HOLDEND` on a lane without an open hold throws. -/
theorem processCell_holdend_zero (t : ℚ) (notes : Notes) (hm : HoldMarks) (lane : Nat) (n0 : Note)
    (h : n0.type = NoteType.HOLDEND) (h0 : hm lane = 0) :
    processCell t notes hm lane n0 = Except.error errHoldEnd := by
  simp [processCell, h, h0]

/-- A `HOLDEND` on a lane with an open hold closes it and appends nothing. -/
theorem processCell_holdend_open (t : ℚ) (notes : Notes) (hm : HoldMarks) (lane : Nat) (n0 : Note)
    (h : n0.type = NoteType.HOLDEND) (h0 : hm lane ≠ 0) :
    processCell t notes hm lane n0 =
      Except.ok (setEnd notes (hm lane - 1) t, holdSet hm lane 0) := by
  simp [processCell, h, h0]

/-- The only exception of a step is the hold error. -/
theorem processCell_error (t : ℚ) (notes : Notes) (hm : HoldMarks) (lane : Nat) (n0 : Note)
    (e : String) (h : processCell t notes hm lane n0 = Except.error e) :
    e = errHoldEnd ∧ n0.type = NoteType.HOLDEND ∧ hm lane = 0 := by
  by_cases hty : n0.type = NoteType.HOLDEND
  · by_cases h0 : hm lane = 0
    · rw [processCell_holdend_zero t notes hm lane n0 hty h0] at h
      exact ⟨(Except.error.inj h).symm, hty, h0⟩
    · rw [processCell_holdend_open t notes hm lane n0 hty h0] at h
      cases h
  · rw [processCell_emit t notes hm lane n0 hty] at h
    cases h

theorem runCells_cons_ok (c : Cell) (rest : List Cell) (notes : Notes) (hm : HoldMarks)
    (r : Notes × HoldMarks) (h : runCells (c :: rest) notes hm = Except.ok r) :
    ∃ n1 h1, processCell c.t notes hm c.lane c.note = Except.ok (n1, h1) ∧
      runCells rest n1 h1 = Except.ok r := by
  simp only [runCells] at h
  cases hc : processCell c.t notes hm c.lane c.note with
  | error e => rw [hc] at h; cases h
  | ok p =>
    obtain ⟨n1, h1⟩ := p
    rw [hc] at h
    exact ⟨n1, h1, rfl, h⟩

theorem runCells_append_ok (a b : List Cell) (notes : Notes) (hm : HoldMarks)
    (r : Notes × HoldMarks) (h : runCells (a ++ b) notes hm = Except.ok r) :
    ∃ n1 h1, runCells a notes hm = Except.ok (n1, h1) ∧ runCells b n1 h1 = Except.ok r := by
  rw [runCells_append] at h
  cases ha : runCells a notes hm with
  | error e => rw [ha] at h; cases h
  | ok p =>
    obtain ⟨n1, h1⟩ := p
    rw [ha] at h
    exact ⟨n1, h1, rfl, h⟩

/-- The notes of a successful run are, up to their end times, the stamped
notes of the emitting cells, in order, after the notes present before. -/
theorem runCells_noteKey (cells : List Cell) (notes0 : Notes) (hm0 : HoldMarks)
    (notes : Notes) (hm : HoldMarks) (h : runCells cells notes0 hm0 = Except.ok (notes, hm)) :
    notes.map noteKey = notes0.map noteKey ++ (emitting cells).map (fun c => noteKey c.stamped) := by
  induction cells generalizing notes0 hm0 with
  | nil =>
    simp only [runCells] at h
    cases h
    simp [emitting]
  | cons c rest ih =>
    obtain ⟨n1, h1, hc, hr⟩ := runCells_cons_ok c rest notes0 hm0 (notes, hm) h
    have ih1 := ih n1 h1 hr
    by_cases hty : c.note.type = NoteType.HOLDEND
    · by_cases h0 : hm0 c.lane = 0
      · rw [processCell_holdend_zero c.t notes0 hm0 c.lane c.note hty h0] at hc
        cases hc
      · rw [processCell_holdend_open c.t notes0 hm0 c.lane c.note hty h0] at hc
        cases hc
        rw [ih1, setEnd_map _ _ _ noteKey (fun _ _ => rfl)]
        simp [emitting, hty]
    · rw [processCell_emit c.t notes0 hm0 c.lane c.note hty] at hc
      cases hc
      rw [ih1]
      simp [emitting, hty, Cell.stamped]

end SongParser

namespace SongParser

/-! ## The hold marks -/

theorem marksOk_init : MarksOk [] (fun _ => 0) := by
  constructor
  · intro l; simp
  · intro l l2 h; exact absurd rfl h

theorem marksOk_step (t : ℚ) (notes : Notes) (hm : HoldMarks) (lane : Nat) (n0 : Note)
    (notes1 : Notes) (hm1 : HoldMarks) (hinv : MarksOk notes hm)
    (h : processCell t notes hm lane n0 = Except.ok (notes1, hm1)) : MarksOk notes1 hm1 := by
  obtain ⟨hle, hinj⟩ := hinv
  by_cases hty : n0.type = NoteType.HOLDEND
  · by_cases h0 : hm lane = 0
    · rw [processCell_holdend_zero t notes hm lane n0 hty h0] at h
      cases h
    · rw [processCell_holdend_open t notes hm lane n0 hty h0] at h
      cases h
      constructor
      · intro l
        rw [setEnd_length]
        by_cases hl : l = lane
        · simp [holdSet, hl]
        · simpa [holdSet, hl] using hle l
      · intro l l2 hne heq
        by_cases hl : l = lane
        · simp [holdSet, hl] at hne
        · by_cases hl2 : l2 = lane
          · simp [holdSet, hl, hl2] at hne heq
            exact absurd heq hne
          · simp only [holdSet, hl, hl2, if_false] at hne heq
            exact hinj l l2 hne heq
  · rw [processCell_emit t notes hm lane n0 hty] at h
    cases h
    constructor
    · intro l
      by_cases hl : l = lane
      · simp only [holdSet, hl, if_true, List.length_append, List.length_singleton]
        split_ifs <;> omega
      · have := hle l
        simp only [holdSet, hl, if_false, List.length_append, List.length_singleton]
        omega
    · intro l l2 hne heq
      by_cases hl : l = lane
      · by_cases hl2 : l2 = lane
        · rw [hl, hl2]
        · exfalso
          simp only [holdSet, hl, hl2, if_true, if_false] at hne heq
          have := hle l2
          split_ifs at hne heq <;> omega
      · by_cases hl2 : l2 = lane
        · exfalso
          simp only [holdSet, hl, hl2, if_true, if_false] at hne heq
          have := hle l
          split_ifs at heq <;> omega
        · simp only [holdSet, hl, hl2, if_false] at hne heq
          exact hinj l l2 hne heq

theorem marksOk_run (cells : List Cell) (notes : Notes) (hm : HoldMarks)
    (notes1 : Notes) (hm1 : HoldMarks) (hinv : MarksOk notes hm)
    (h : runCells cells notes hm = Except.ok (notes1, hm1)) : MarksOk notes1 hm1 := by
  induction cells generalizing notes hm with
  | nil =>
    simp only [runCells] at h
    cases h
    exact hinv
  | cons c rest ih =>
    obtain ⟨n1, h1, hc, hr⟩ := runCells_cons_ok c rest notes hm (notes1, hm1) h
    exact ih n1 h1 (marksOk_step c.t notes hm c.lane c.note n1 h1 hinv hc) hr

/-- A note that no lane marks is never written again. -/
theorem unmarked_step (t : ℚ) (notes : Notes) (hm : HoldMarks) (lane : Nat) (n0 : Note)
    (notes1 : Notes) (hm1 : HoldMarks) (k : Nat) (hk : k < notes.length)
    (hno : ∀ l, hm l ≠ k + 1)
    (h : processCell t notes hm lane n0 = Except.ok (notes1, hm1)) :
    notes1[k]? = notes[k]? ∧ k < notes1.length ∧ ∀ l, hm1 l ≠ k + 1 := by
  by_cases hty : n0.type = NoteType.HOLDEND
  · by_cases h0 : hm lane = 0
    · rw [processCell_holdend_zero t notes hm lane n0 hty h0] at h
      cases h
    · rw [processCell_holdend_open t notes hm lane n0 hty h0] at h
      cases h
      refine ⟨?_, ?_, ?_⟩
      · apply setEnd_getElem?_ne
        have := hno lane
        omega
      · rw [setEnd_length]; exact hk
      · intro l
        by_cases hl : l = lane
        · simp [holdSet, hl]
        · simpa [holdSet, hl] using hno l
  · rw [processCell_emit t notes hm lane n0 hty] at h
    cases h
    refine ⟨?_, ?_, ?_⟩
    · rw [List.getElem?_append_left hk]
    · simp only [List.length_append, List.length_singleton]; omega
    · intro l
      by_cases hl : l = lane
      · simp only [holdSet, hl, if_true]
        split_ifs <;> omega
      · simpa [holdSet, hl] using hno l

theorem unmarked_run (cells : List Cell) (notes : Notes) (hm : HoldMarks)
    (notes1 : Notes) (hm1 : HoldMarks) (k : Nat) (hk : k < notes.length)
    (hno : ∀ l, hm l ≠ k + 1)
    (h : runCells cells notes hm = Except.ok (notes1, hm1)) :
    notes1[k]? = notes[k]? := by
  induction cells generalizing notes hm with
  | nil =>
    simp only [runCells] at h
    cases h
    rfl
  | cons c rest ih =>
    obtain ⟨n1, h1, hc, hr⟩ := runCells_cons_ok c rest notes hm (notes1, hm1) h
    obtain ⟨hget, hk1, hno1⟩ := unmarked_step c.t notes hm c.lane c.note n1 h1 k hk hno hc
    rw [ih n1 h1 hk1 hno1 hr, hget]

/-- A note marked by lane `l` is kept, and stays marked, over a cell of
another lane. -/
theorem marked_step (t : ℚ) (notes : Notes) (hm : HoldMarks) (lane : Nat) (n0 : Note)
    (notes1 : Notes) (hm1 : HoldMarks) (k l : Nat) (hinv : MarksOk notes hm)
    (hl : hm l = k + 1) (hlane : lane ≠ l)
    (h : processCell t notes hm lane n0 = Except.ok (notes1, hm1)) :
    notes1[k]? = notes[k]? ∧ hm1 l = k + 1 := by
  have hk : k < notes.length := by have := hinv.1 l; omega
  have hll : ¬ (l = lane) := fun e => hlane e.symm
  by_cases hty : n0.type = NoteType.HOLDEND
  · by_cases h0 : hm lane = 0
    · rw [processCell_holdend_zero t notes hm lane n0 hty h0] at h
      cases h
    · rw [processCell_holdend_open t notes hm lane n0 hty h0] at h
      cases h
      refine ⟨?_, ?_⟩
      · apply setEnd_getElem?_ne
        intro e
        have : hm lane = hm l := by omega
        exact hlane (hinv.2 lane l h0 this)
      · simp [holdSet, hll, hl]
  · rw [processCell_emit t notes hm lane n0 hty] at h
    cases h
    refine ⟨?_, ?_⟩
    · rw [List.getElem?_append_left hk]
    · simp [holdSet, hll, hl]

theorem marked_run (cells : List Cell) (notes : Notes) (hm : HoldMarks)
    (notes1 : Notes) (hm1 : HoldMarks) (k l : Nat) (hinv : MarksOk notes hm)
    (hl : hm l = k + 1) (hlane : ∀ c ∈ cells, c.lane ≠ l)
    (h : runCells cells notes hm = Except.ok (notes1, hm1)) :
    notes1[k]? = notes[k]? ∧ hm1 l = k + 1 := by
  induction cells generalizing notes hm with
  | nil =>
    simp only [runCells] at h
    cases h
    exact ⟨rfl, hl⟩
  | cons c rest ih =>
    obtain ⟨n1, h1, hc, hr⟩ := runCells_cons_ok c rest notes hm (notes1, hm1) h
    obtain ⟨hget, hl1⟩ := marked_step c.t notes hm c.lane c.note n1 h1 k l hinv hl
      (hlane c (List.mem_cons_self _ _)) hc
    obtain ⟨hget2, hl2⟩ := ih n1 h1 (marksOk_step c.t notes hm c.lane c.note n1 h1 hinv hc) hl1
      (fun d hd => hlane d (List.mem_cons_of_mem _ hd)) hr
    exact ⟨by rw [hget2, hget], hl2⟩

end SongParser

namespace SongParser

/-! ## The lanes of the flushed cells -/

theorem chordSet_mem (chord : DanceChord) (i : Nat) (n : Note) (e : Nat × Note)
    (h : e ∈ chordSet chord i n) : e ∈ chord ∨ e = (i, n) := by
  induction chord with
  | nil => simp [chordSet] at h; exact Or.inr h
  | cons kv rest ih =>
    obtain ⟨k, v⟩ := kv
    simp only [chordSet] at h
    split_ifs at h with h1 h2
    · rcases List.mem_cons.mp h with h | h
      · exact Or.inr h
      · exact Or.inl h
    · rcases List.mem_cons.mp h with h | h
      · exact Or.inr (by rw [h, h2])
      · exact Or.inl (List.mem_cons_of_mem _ h)
    · rcases List.mem_cons.mp h with h | h
      · exact Or.inl (by rw [h]; exact List.mem_cons_self _ _)
      · rcases ih h with h | h
        · exact Or.inl (List.mem_cons_of_mem _ h)
        · exact Or.inr h

theorem parseRowFrom_lane (i : Nat) (line : List Char) (chord : DanceChord)
    (h : ∀ e ∈ chord, e.2.note = e.1) : ∀ e ∈ parseRowFrom i line chord, e.2.note = e.1 := by
  induction line generalizing i chord with
  | nil => simpa [parseRowFrom] using h
  | cons c rest ih =>
    simp only [parseRowFrom]
    cases noteTypeOf c with
    | none => exact ih (i + 1) chord h
    | some ty =>
      apply ih (i + 1)
      intro e he
      rcases chordSet_mem chord i _ e he with he | he
      · exact h e he
      · rw [he]

theorem parseRow_lane (line : Str) : ∀ e ∈ parseRow line, e.2.note = e.1 :=
  parseRowFrom_lane 0 line [] (by simp)

theorem rowCells_mem (measure rows : Nat) (begin step : ℚ) (note : Nat)
    (chords : List DanceChord) (c : Cell) (h : c ∈ rowCells measure rows begin step note chords) :
    ∃ ch ∈ chords, ∃ e ∈ ch, c.lane = e.1 ∧ c.note = e.2 := by
  induction chords generalizing note with
  | nil => simp [rowCells] at h
  | cons chord rest ih =>
    simp only [rowCells, List.mem_append] at h
    rcases h with h | h
    · simp only [chordCells, List.mem_map] at h
      obtain ⟨e, he, hc⟩ := h
      exact ⟨chord, List.mem_cons_self _ _, e, he, by rw [← hc], by rw [← hc]⟩
    · obtain ⟨ch, hch, e, he, h1, h2⟩ := ih (note + 1) h
      exact ⟨ch, List.mem_cons_of_mem _ hch, e, he, h1, h2⟩

theorem flushedCellsFrom_lane (tsTime : ℚ → ℚ) (lines : List Str) (chords : List DanceChord)
    (measure : Nat) (begin : ℚ) (h : ∀ ch ∈ chords, ∀ e ∈ ch, e.2.note = e.1) :
    ∀ c ∈ flushedCellsFrom tsTime lines chords measure begin, c.note.note = c.lane := by
  induction lines generalizing chords measure begin with
  | nil => simp [flushedCellsFrom]
  | cons line rest ih =>
    unfold flushedCellsFrom
    split_ifs with h1 h2 h3 h4
    · exact ih chords measure begin h
    · exact ih chords measure begin h
    · simp
    · intro c hc
      rcases List.mem_append.mp hc with hc | hc
      · obtain ⟨ch, hch, e, he, hl, hn⟩ := rowCells_mem _ _ _ _ _ _ c hc
        rw [hl, hn]
        exact h ch hch e he
      · exact ih [] (measure + 1) _ (by simp) c hc
    · apply ih
      intro ch hch
      rcases List.mem_append.mp hch with hch | hch
      · exact h ch hch
      · rw [List.mem_singleton.mp hch]
        exact parseRow_lane line

/-- The lane written into the note of a flushed cell is the lane of the
cell. -/
theorem flushedCells_lane (tsTime : ℚ → ℚ) (body : List Str) :
    ∀ c ∈ flushedCells tsTime body, c.note.note = c.lane :=
  flushedCellsFrom_lane tsTime body [] 1 0 (by simp)

/-! ## Hold pairs (C2) -/

theorem emitting_append (a b : List Cell) : emitting (a ++ b) = emitting a ++ emitting b := by
  simp [emitting]

theorem emitting_cons_emit (c : Cell) (rest : List Cell) (h : c.note.type ≠ NoteType.HOLDEND) :
    emitting (c :: rest) = c :: emitting rest := by
  simp [emitting, h]

theorem emitting_cons_holdend (c : Cell) (rest : List Cell) (h : c.note.type = NoteType.HOLDEND) :
    emitting (c :: rest) = emitting rest := by
  simp [emitting, h]

/-- The run over a hold pair: the opening cell `c1`, cells `mid` of other
lanes, the closing `HOLDEND` `c2` on the lane of `c1`, and then any cells.
The note of `c1` sits right after the notes of the cells before it and carries
the time of `c2` as its end. -/
theorem runCells_holdPair (pre mid post : List Cell) (c1 c2 : Cell) (notes : Notes)
    (hm : HoldMarks)
    (hrun : runCells (pre ++ c1 :: (mid ++ c2 :: post)) [] (fun _ => 0) = Except.ok (notes, hm))
    (h1 : c1.note.type = NoteType.HOLDBEGIN ∨ c1.note.type = NoteType.ROLL)
    (h2 : c2.note.type = NoteType.HOLDEND) (hl : c2.lane = c1.lane)
    (hmid : ∀ c ∈ mid, c.lane ≠ c1.lane) :
    notes[(emitting pre).length]? = some { c1.note with begin := c1.t, end_ := c2.t } := by
  obtain ⟨nP, hP, hpre, hrest⟩ := runCells_append_ok pre _ [] (fun _ => 0) (notes, hm) hrun
  have hinvP := marksOk_run pre [] (fun _ => 0) nP hP marksOk_init hpre
  have hlenP : nP.length = (emitting pre).length := by
    have := congrArg List.length (runCells_noteKey pre [] (fun _ => 0) nP hP hpre)
    simpa using this
  obtain ⟨n1, hm1, hc1, hrest1⟩ := runCells_cons_ok c1 _ nP hP (notes, hm) hrest
  have hne1 : c1.note.type ≠ NoteType.HOLDEND := by
    rcases h1 with h | h <;> rw [h] <;> decide
  have hinv1 := marksOk_step c1.t nP hP c1.lane c1.note n1 hm1 hinvP hc1
  rw [processCell_emit c1.t nP hP c1.lane c1.note hne1] at hc1
  cases hc1
  have hmark1 : holdSet hP c1.lane
      (if c1.note.type = NoteType.HOLDBEGIN ∨ c1.note.type = NoteType.ROLL then nP.length + 1
       else 0) c1.lane = nP.length + 1 := by
    simp [holdSet, h1]
  have hget1 : (nP ++ [{ c1.note with begin := c1.t, end_ := c1.t }])[nP.length]? =
      some { c1.note with begin := c1.t, end_ := c1.t } := by
    simp
  obtain ⟨n2, hm2, hmidrun, hrest2⟩ := runCells_append_ok mid _ _ _ (notes, hm) hrest1
  obtain ⟨hget2, hmark2⟩ := marked_run mid _ _ n2 hm2 nP.length c1.lane hinv1 hmark1 hmid hmidrun
  have hinv2 := marksOk_run mid _ _ n2 hm2 hinv1 hmidrun
  obtain ⟨n3, hm3, hc2, hpost⟩ := runCells_cons_ok c2 post n2 hm2 (notes, hm) hrest2
  have hopen : hm2 c2.lane ≠ 0 := by rw [hl, hmark2]; omega
  rw [processCell_holdend_open c2.t n2 hm2 c2.lane c2.note h2 hopen] at hc2
  cases hc2
  have hidx : hm2 c2.lane - 1 = nP.length := by rw [hl, hmark2]; omega
  have hget3 : (setEnd n2 (hm2 c2.lane - 1) c2.t)[nP.length]? =
      some { c1.note with begin := c1.t, end_ := c2.t } := by
    rw [hidx]
    have := setEnd_getElem?_eq n2 nP.length c2.t _ (hget2.trans hget1)
    simpa using this
  have hk : nP.length < (setEnd n2 (hm2 c2.lane - 1) c2.t).length := by
    rw [setEnd_length]
    have := hinv2.1 c1.lane
    omega
  have hno : ∀ l, holdSet hm2 c2.lane 0 l ≠ nP.length + 1 := by
    intro l
    by_cases hll : l = c2.lane
    · simp [holdSet, hll]
    · simp only [holdSet, hll, if_false]
      intro e
      have h0 : hm2 l ≠ 0 := by omega
      have : l = c1.lane := hinv2.2 l c1.lane h0 (by rw [e, hmark2])
      exact hll (by rw [this, hl])
  rw [← hlenP, unmarked_run post _ _ notes hm nP.length hk hno hpost, hget3]

end SongParser

namespace SongParser

theorem smParseNotes_ok_run (tsTime : ℚ → ℚ) (body : List Str) (notes : Notes) (rest : List Str)
    (hacc : smParseNotes tsTime body = (Except.ok notes, rest)) :
    ∃ hm, runCells (flushedCells tsTime body) [] (fun _ => 0) = Except.ok (notes, hm) := by
  have h := smParseNotes_eq_runCells tsTime body
  rw [hacc] at h
  cases hr : runCells (flushedCells tsTime body) [] (fun _ => 0) with
  | error e => rw [hr] at h; simp [runResult] at h
  | ok p =>
    obtain ⟨n1, hm⟩ := p
    rw [hr] at h
    simp only [runResult] at h
    cases h
    exact ⟨hm, rfl⟩

/-- C2: in a chart body that `smParseNotes` accepts, let `c1` be a flushed
`HOLDBEGIN` or `ROLL` cell on lane `l`, stamped `c1.t`, and let the next
flushed cell on lane `l` be the `HOLDEND` cell `c2`, stamped `c2.t` (the cells
`mid` between them are on other lanes).  Then the returned list is
`N1 ++ n :: N2`, where `n` has the type of `c1`, lane `l`, `begin = c1.t` and
`end = c2.t`, the notes `N1` are those of the non-`HOLDEND` cells before `c1`,
and the notes `N2` those of the non-`HOLDEND` cells of `mid` and of the cells
after `c2`: the pair gives exactly one note and `c2` adds none. -/
theorem smParseNotes_holdPair (tsTime : ℚ → ℚ) (body : List Str) (notes : Notes)
    (rest : List Str) (hacc : smParseNotes tsTime body = (Except.ok notes, rest))
    (pre mid post : List Cell) (c1 c2 : Cell)
    (hcells : flushedCells tsTime body = pre ++ c1 :: (mid ++ c2 :: post))
    (h1 : c1.note.type = NoteType.HOLDBEGIN ∨ c1.note.type = NoteType.ROLL)
    (h2 : c2.note.type = NoteType.HOLDEND) (hl : c2.lane = c1.lane)
    (hmid : ∀ c ∈ mid, c.lane ≠ c1.lane) :
    ∃ N1 N2 : Notes,
      notes = N1 ++ { begin := c1.t, end_ := c2.t, type := c1.note.type, note := c1.lane } :: N2 ∧
      N1.map noteKey = (emitting pre).map (fun c => noteKey c.stamped) ∧
      N2.map noteKey = (emitting (mid ++ post)).map (fun c => noteKey c.stamped) := by
  obtain ⟨hm, hrun⟩ := smParseNotes_ok_run tsTime body notes rest hacc
  have hkey := runCells_noteKey _ _ _ notes hm hrun
  rw [hcells] at hrun hkey
  have hget := runCells_holdPair pre mid post c1 c2 notes hm hrun h1 h2 hl hmid
  have hne1 : c1.note.type ≠ NoteType.HOLDEND := by
    rcases h1 with h | h <;> rw [h] <;> decide
  have hlane : c1.note.note = c1.lane :=
    flushedCells_lane tsTime body c1 (by rw [hcells]; simp)
  have hem : emitting (pre ++ c1 :: (mid ++ c2 :: post)) =
      emitting pre ++ c1 :: emitting (mid ++ post) := by
    rw [emitting_append, emitting_cons_emit c1 _ hne1, emitting_append,
      emitting_cons_holdend c2 _ h2, emitting_append]
  rw [hem] at hkey
  simp only [List.map_nil, List.nil_append, List.map_append, List.map_cons] at hkey
  obtain ⟨N1, N2c, hsplit, hN1, hN2c⟩ := List.map_eq_append_iff.mp hkey
  obtain ⟨n, N2, hcons, hn, hN2⟩ := List.map_eq_cons_iff.mp hN2c
  have hlen : N1.length = (emitting pre).length := by
    have := congrArg List.length hN1
    simpa using this
  refine ⟨N1, N2, ?_, hN1, by simpa using hN2⟩
  rw [hsplit, hcons]
  rw [hsplit, hcons, ← hlen] at hget
  have hget2 : (N1 ++ n :: N2)[N1.length]? = some n := by
    rw [List.getElem?_append_right (le_refl _)]
    simp
  rw [hget2] at hget
  rw [Option.some.inj hget]
  simp only [hlane]

/-- C2 at the measure `2000`, `0000`, `3000`, `0000` at 120 BPM: the only note
is a `HOLDBEGIN` on lane 0 from 0 to 1 second. -/
theorem smParseNotes_holdPair_witness :
    smParseNotes ts120 holdBody =
      (Except.ok [{ begin := 0, end_ := 1, type := NoteType.HOLDBEGIN, note := 0 }], []) ∧
    ∃ N1 N2 : Notes,
      [({ begin := 0, end_ := 1, type := NoteType.HOLDBEGIN, note := 0 } : Note)] =
        N1 ++ { begin := 0, end_ := 1, type := NoteType.HOLDBEGIN, note := 0 } :: N2 ∧
      N1.map noteKey = [] ∧ N2.map noteKey = [] :=
  ⟨by decide!,
   smParseNotes_holdPair ts120 holdBody
    [{ begin := 0, end_ := 1, type := NoteType.HOLDBEGIN, note := 0 }] []
    (by decide!) [] [] []
    { measure := 1, row := 0, rows := 4, lane := 0,
      note := { begin := 0, end_ := 0, type := NoteType.HOLDBEGIN, note := 0 }, t := 0 }
    { measure := 1, row := 2, rows := 4, lane := 0,
      note := { begin := 0, end_ := 0, type := NoteType.HOLDEND, note := 0 }, t := 1 }
    (by decide!) (by decide) (by decide) (by decide) (by simp)⟩

end SongParser

namespace SongParser

/-! ## The times of the flushed cells (C3) -/

theorem rowCells_pos (measure rows : Nat) (begin step : ℚ) (note : Nat)
    (chords : List DanceChord) (c : Cell) (h : c ∈ rowCells measure rows begin step note chords) :
    c.measure = measure ∧ c.rows = rows ∧ note ≤ c.row ∧ c.row < note + chords.length ∧
      c.t = begin + (c.row : ℚ) * step := by
  induction chords generalizing note with
  | nil => simp [rowCells] at h
  | cons chord rest ih =>
    simp only [rowCells, List.mem_append] at h
    rcases h with h | h
    · simp only [chordCells, List.mem_map] at h
      obtain ⟨e, _, hc⟩ := h
      subst hc
      simp
    · obtain ⟨h1, h2, h3, h4, h5⟩ := ih (note + 1) h
      refine ⟨h1, h2, by omega, ?_, h5⟩
      simp only [List.length_cons]
      omega

theorem rowCells_sorted (measure rows : Nat) (begin step : ℚ) (hstep : 0 ≤ step) (note : Nat)
    (chords : List DanceChord) :
    List.Pairwise (fun c d : Cell => c.t ≤ d.t) (rowCells measure rows begin step note chords) := by
  induction chords generalizing note with
  | nil => simp [rowCells]
  | cons chord rest ih =>
    simp only [rowCells]
    rw [List.pairwise_append]
    refine ⟨?_, ih (note + 1), ?_⟩
    · simp only [chordCells, List.pairwise_map]
      exact List.pairwise_of_forall (fun _ _ => le_refl _)
    · intro c hc d hd
      simp only [chordCells, List.mem_map] at hc
      obtain ⟨e, _, hce⟩ := hc
      obtain ⟨_, _, h3, _, h5⟩ := rowCells_pos measure rows begin step (note + 1) rest d hd
      rw [h5, ← hce]
      have hcast : (note : ℚ) ≤ (d.row : ℚ) := by exact_mod_cast (by omega : note ≤ d.row)
      have := mul_le_mul_of_nonneg_right hcast hstep
      simpa using this

theorem flushedCellsFrom_sorted (tsTime : ℚ → ℚ)
    (hmono : ∀ k : ℕ, 1 ≤ k → tsTime ((k : ℚ) * 16) ≤ tsTime (((k + 1 : ℕ) : ℚ) * 16))
    (lines : List Str) (chords : List DanceChord) (measure : Nat) (begin : ℚ)
    (hm : 1 ≤ measure) (hb : begin ≤ tsTime ((measure : ℚ) * 16)) :
    List.Pairwise (fun c d : Cell => c.t ≤ d.t)
        (flushedCellsFrom tsTime lines chords measure begin) ∧
      ∀ c ∈ flushedCellsFrom tsTime lines chords measure begin, begin ≤ c.t := by
  induction lines generalizing chords measure begin with
  | nil => simp [flushedCellsFrom]
  | cons line rest ih =>
    unfold flushedCellsFrom
    split_ifs with h1 h2 h3 h4
    · exact ih chords measure begin hm hb
    · exact ih chords measure begin hm hb
    · simp
    · have hstep : 0 ≤ (tsTime ((measure : ℚ) * 16) - begin) / (chords.length : ℚ) :=
        div_nonneg (sub_nonneg.mpr hb) (Nat.cast_nonneg _)
      obtain ⟨ihs, ihb⟩ := ih [] (measure + 1) (tsTime ((measure : ℚ) * 16)) (by omega)
        (hmono measure hm)
      have hrow : ∀ c ∈ rowCells measure chords.length begin
          ((tsTime ((measure : ℚ) * 16) - begin) / (chords.length : ℚ)) 0 chords,
          begin ≤ c.t ∧ c.t ≤ tsTime ((measure : ℚ) * 16) := by
        intro c hc
        obtain ⟨_, _, _, h4, h5⟩ := rowCells_pos _ _ _ _ _ _ c hc
        have hn : (0 : ℚ) < (chords.length : ℚ) := by exact_mod_cast (by omega : 0 < chords.length)
        have hr : (c.row : ℚ) ≤ (chords.length : ℚ) := by
          exact_mod_cast (by omega : c.row ≤ chords.length)
        have h0 : (0 : ℚ) ≤ (c.row : ℚ) := Nat.cast_nonneg _
        have hle := mul_le_mul_of_nonneg_right hr hstep
        have hfull : (chords.length : ℚ) *
            ((tsTime ((measure : ℚ) * 16) - begin) / (chords.length : ℚ)) =
            tsTime ((measure : ℚ) * 16) - begin := by
          field_simp
        rw [hfull] at hle
        have hge := mul_nonneg h0 hstep
        rw [h5]
        constructor <;> linarith
      refine ⟨?_, ?_⟩
      · rw [List.pairwise_append]
        refine ⟨rowCells_sorted _ _ _ _ hstep _ _, ihs, ?_⟩
        intro c hc d hd
        exact le_trans (hrow c hc).2 (ihb d hd)
      · intro c hc
        rcases List.mem_append.mp hc with hc | hc
        · exact (hrow c hc).1
        · exact le_trans hb (ihb c hc)
    · exact ih (chords ++ [parseRow line]) measure begin hm hb

/-- C3: if `tsTime` is non-decreasing on the measure ends 16, 32, 48, ... and
`tsTime(16) >= 0`, the notes that `smParseNotes` returns for a body it accepts
are in non-decreasing `begin` order. -/
theorem smParseNotes_sorted (tsTime : ℚ → ℚ)
    (hmono : ∀ j k : ℕ, 1 ≤ j → j ≤ k → tsTime ((j : ℚ) * 16) ≤ tsTime ((k : ℚ) * 16))
    (h16 : 0 ≤ tsTime 16) (body : List Str) (notes : Notes) (rest : List Str)
    (hacc : smParseNotes tsTime body = (Except.ok notes, rest)) :
    ∀ (i j : Nat) (a b : Note), i < j → notes[i]? = some a → notes[j]? = some b →
      a.begin ≤ b.begin := by
  obtain ⟨hm, hrun⟩ := smParseNotes_ok_run tsTime body notes rest hacc
  have hkey := runCells_noteKey _ _ _ notes hm hrun
  have hsorted := (flushedCellsFrom_sorted tsTime (fun k hk => hmono k (k + 1) hk (by omega))
    body [] 1 0 (le_refl 1) (by simpa using h16)).1
  have hem : List.Pairwise (fun c d : Cell => c.t ≤ d.t) (emitting (flushedCells tsTime body)) :=
    List.Pairwise.sublist (List.filter_sublist _) hsorted
  have hmap : List.Pairwise (fun x y : ℚ × NoteType × Nat => x.1 ≤ y.1)
      ((emitting (flushedCells tsTime body)).map (fun c => noteKey c.stamped)) := by
    rw [List.pairwise_map]
    exact hem
  simp only [List.map_nil, List.nil_append] at hkey
  rw [← hkey, List.pairwise_map] at hmap
  intro i j a b hij ha hb
  obtain ⟨hi, hai⟩ := List.getElem?_eq_some.mp ha
  obtain ⟨hj, hbj⟩ := List.getElem?_eq_some.mp hb
  have := List.pairwise_iff_getElem.mp hmap i j hi hj hij
  rw [hai, hbj] at this
  exact this

/-- C3 at a measure of two taps at 120 BPM: the notes begin at 0 and at 1
second. -/
theorem smParseNotes_sorted_witness :
    smParseNotes ts120 tapsBody =
      (Except.ok [{ begin := 0, end_ := 0, type := NoteType.TAP, note := 0 },
                  { begin := 1, end_ := 1, type := NoteType.TAP, note := 1 }], []) ∧
    (0 : ℚ) ≤ 1 :=
  ⟨by decide!,
   smParseNotes_sorted ts120
    (by
      intro j k _ hjk
      have h : (j : ℚ) ≤ (k : ℚ) := by exact_mod_cast hjk
      simp only [ts120]
      linarith)
    (by simp only [ts120]; norm_num) tapsBody
    [{ begin := 0, end_ := 0, type := NoteType.TAP, note := 0 },
     { begin := 1, end_ := 1, type := NoteType.TAP, note := 1 }] [] (by decide!)
    0 1 { begin := 0, end_ := 0, type := NoteType.TAP, note := 0 }
    { begin := 1, end_ := 1, type := NoteType.TAP, note := 1 } (by decide) rfl rfl⟩

end SongParser

namespace SongParser

/-! ## The hold error (C4) -/

/-- The marks after a successful step: only the lane of the cell changes, and
its mark is zero unless the cell is a `HOLDBEGIN` or a `ROLL`. -/
theorem processCell_marks (t : ℚ) (notes : Notes) (hm : HoldMarks) (lane : Nat) (n0 : Note)
    (n1 : Notes) (h1 : HoldMarks) (h : processCell t notes hm lane n0 = Except.ok (n1, h1)) :
    (∀ l, l ≠ lane → h1 l = hm l) ∧
    (h1 lane = 0 ↔ (n0.type ≠ NoteType.HOLDBEGIN ∧ n0.type ≠ NoteType.ROLL)) ∧
    ¬ (n0.type = NoteType.HOLDEND ∧ hm lane = 0) := by
  by_cases hty : n0.type = NoteType.HOLDEND
  · by_cases h0 : hm lane = 0
    · rw [processCell_holdend_zero t notes hm lane n0 hty h0] at h
      cases h
    · rw [processCell_holdend_open t notes hm lane n0 hty h0] at h
      cases h
      refine ⟨fun l hl => by simp [holdSet, hl], ?_, fun hc => h0 hc.2⟩
      simp [holdSet, hty]
  · rw [processCell_emit t notes hm lane n0 hty] at h
    cases h
    refine ⟨fun l hl => by simp [holdSet, hl], ?_, fun hc => hty hc.1⟩
    by_cases hb : n0.type = NoteType.HOLDBEGIN ∨ n0.type = NoteType.ROLL
    · simp only [holdSet, if_true, if_pos hb]
      constructor
      · intro hz; omega
      · rintro ⟨ha, hr⟩
        rcases hb with hb | hb
        · exact absurd hb ha
        · exact absurd hb hr
    · simp only [holdSet, if_true, if_neg hb]
      simp only [not_or] at hb
      exact ⟨fun _ => hb, fun _ => trivial⟩

theorem runCells_error_msg (cells : List Cell) (notes : Notes) (hm : HoldMarks) (e : String)
    (h : runCells cells notes hm = Except.error e) : e = errHoldEnd := by
  induction cells generalizing notes hm with
  | nil => simp [runCells] at h
  | cons c rest ih =>
    simp only [runCells] at h
    cases hc : processCell c.t notes hm c.lane c.note with
    | error e1 =>
      rw [hc] at h
      cases h
      exact (processCell_error _ _ _ _ _ _ hc).1
    | ok p =>
      obtain ⟨n1, h1⟩ := p
      rw [hc] at h
      exact ih n1 h1 h

/-- A run throws exactly when some `HOLDEND` cell finds its lane closed: no
earlier cell of the run is on its lane and the lane was closed at the start,
or the nearest earlier cell on its lane is neither a `HOLDBEGIN` nor a
`ROLL`. -/
theorem runCells_error_iff (cells : List Cell) (notes : Notes) (hm : HoldMarks) :
    (∃ e, runCells cells notes hm = Except.error e) ↔
      ∃ pre c post, cells = pre ++ c :: post ∧ c.note.type = NoteType.HOLDEND ∧
        (((∀ d ∈ pre, d.lane ≠ c.lane) ∧ hm c.lane = 0) ∨
          ∃ pre1 d mid, pre = pre1 ++ d :: mid ∧ d.lane = c.lane ∧
            (∀ m ∈ mid, m.lane ≠ c.lane) ∧
            d.note.type ≠ NoteType.HOLDBEGIN ∧ d.note.type ≠ NoteType.ROLL) := by
  induction cells generalizing notes hm with
  | nil =>
    constructor
    · rintro ⟨e, he⟩
      simp [runCells] at he
    · rintro ⟨pre, c, post, h, _⟩
      simp at h
  | cons c0 rest ih =>
    cases hc : processCell c0.t notes hm c0.lane c0.note with
    | error e1 =>
      obtain ⟨_, hty, h0⟩ := processCell_error _ _ _ _ _ _ hc
      constructor
      · intro _
        exact ⟨[], c0, rest, rfl, hty, Or.inl ⟨by simp, h0⟩⟩
      · intro _
        exact ⟨e1, by simp [runCells, hc]⟩
    | ok p =>
      obtain ⟨n1, h1⟩ := p
      obtain ⟨hother, hself, hnot⟩ := processCell_marks _ _ _ _ _ _ _ hc
      have hrun : runCells (c0 :: rest) notes hm = runCells rest n1 h1 := by
        simp [runCells, hc]
      rw [hrun, ih n1 h1]
      constructor
      · rintro ⟨pre, c, post, hsplit, hty, hcase⟩
        refine ⟨c0 :: pre, c, post, by rw [hsplit]; rfl, hty, ?_⟩
        rcases hcase with ⟨hnone, hz⟩ | ⟨pre1, d, mid, hp, hd, hmid, hb, hr⟩
        · by_cases hl : c.lane = c0.lane
          · rw [hl] at hz
            obtain ⟨hb, hr⟩ := hself.mp hz
            exact Or.inr ⟨[], c0, pre, rfl, hl.symm, hnone, hb, hr⟩
          · refine Or.inl ⟨?_, ?_⟩
            · intro d hd
              rcases List.mem_cons.mp hd with hd | hd
              · rw [hd]; exact fun e => hl e.symm
              · exact hnone d hd
            · rw [← hother c.lane hl]; exact hz
        · exact Or.inr ⟨c0 :: pre1, d, mid, by rw [hp]; rfl, hd, hmid, hb, hr⟩
      · rintro ⟨pre2, c, post, hsplit, hty, hcase⟩
        cases pre2 with
        | nil =>
          simp only [List.nil_append, List.cons.injEq] at hsplit
          obtain ⟨hc0, _⟩ := hsplit
          subst hc0
          rcases hcase with ⟨_, hz⟩ | ⟨pre1, d, mid, hp, _⟩
          · exact absurd ⟨hty, hz⟩ hnot
          · simp at hp
        | cons x pre =>
          simp only [List.cons_append, List.cons.injEq] at hsplit
          obtain ⟨hx, hrest⟩ := hsplit
          subst hx
          refine ⟨pre, c, post, hrest, hty, ?_⟩
          rcases hcase with ⟨hnone, hz⟩ | ⟨pre1, d, mid, hp, hd, hmid, hb, hr⟩
          · have hl : c.lane ≠ c0.lane := fun e => hnone c0 (List.mem_cons_self _ _) e.symm
            refine Or.inl ⟨fun d hd => hnone d (List.mem_cons_of_mem _ hd), ?_⟩
            rw [hother c.lane hl]; exact hz
          · cases pre1 with
            | nil =>
              simp only [List.nil_append, List.cons.injEq] at hp
              obtain ⟨hd0, hmid0⟩ := hp
              subst hd0
              subst hmid0
              refine Or.inl ⟨hmid, ?_⟩
              rw [← hd]
              exact hself.mpr ⟨hb, hr⟩
            | cons y pre1b =>
              simp only [List.cons_append, List.cons.injEq] at hp
              obtain ⟨_, hp2⟩ := hp
              exact Or.inr ⟨pre1b, d, mid, hp2, hd, hmid, hb, hr⟩

/-- C4: `smParseNotes` throws "Hold end without beginning" exactly when, among
the flushed cells taken in order, some `HOLDEND` cell has no earlier cell on
its lane, or the nearest earlier cell on its lane is neither a `HOLDBEGIN` nor
a `ROLL`; and `smParseNotes` throws nothing else. -/
theorem smParseNotes_holdError_iff (tsTime : ℚ → ℚ) (body : List Str) :
    ((smParseNotes tsTime body).1 = Except.error "Hold end without beginning" ↔
      ∃ pre c post, flushedCells tsTime body = pre ++ c :: post ∧
        c.note.type = NoteType.HOLDEND ∧
        ((∀ d ∈ pre, d.lane ≠ c.lane) ∨
          ∃ pre1 d mid, pre = pre1 ++ d :: mid ∧ d.lane = c.lane ∧
            (∀ m ∈ mid, m.lane ≠ c.lane) ∧
            d.note.type ≠ NoteType.HOLDBEGIN ∧ d.note.type ≠ NoteType.ROLL)) ∧
    (∀ e, (smParseNotes tsTime body).1 = Except.error e → e = "Hold end without beginning") := by
  have href := smParseNotes_eq_runCells tsTime body
  have hiff := runCells_error_iff (flushedCells tsTime body) [] (fun _ => 0)
  have hmsg : ∀ e, (smParseNotes tsTime body).1 = Except.error e → e = errHoldEnd := by
    intro e he
    rw [href] at he
    cases hr : runCells (flushedCells tsTime body) [] (fun _ => 0) with
    | error e1 =>
      rw [hr] at he
      simp only [runResult] at he
      cases he
      exact runCells_error_msg _ _ _ _ hr
    | ok p =>
      rw [hr] at he
      simp [runResult] at he
  refine ⟨?_, hmsg⟩
  constructor
  · intro herr
    rw [href] at herr
    have hex : ∃ e, runCells (flushedCells tsTime body) [] (fun _ => 0) = Except.error e := by
      cases hr : runCells (flushedCells tsTime body) [] (fun _ => 0) with
      | error e1 => exact ⟨e1, rfl⟩
      | ok p => rw [hr] at herr; simp [runResult] at herr
    obtain ⟨pre, c, post, hsplit, hty, hcase⟩ := hiff.mp hex
    refine ⟨pre, c, post, hsplit, hty, ?_⟩
    rcases hcase with ⟨hnone, _⟩ | h
    · exact Or.inl hnone
    · exact Or.inr h
  · rintro ⟨pre, c, post, hsplit, hty, hcase⟩
    have hex : ∃ e, runCells (flushedCells tsTime body) [] (fun _ => 0) = Except.error e := by
      apply hiff.mpr
      refine ⟨pre, c, post, hsplit, hty, ?_⟩
      rcases hcase with hnone | h
      · exact Or.inl ⟨hnone, rfl⟩
      · exact Or.inr h
    obtain ⟨e, he⟩ := hex
    have he2 : (smParseNotes tsTime body).1 = Except.error e := by
      rw [href, he]; rfl
    rw [he2, hmsg e he2]
    rfl

end SongParser

namespace SongParser

/-! ## Row times at a constant tempo (C5) -/

theorem flushedCellsFrom_rowTime (bpm : ℚ) (tsTime : ℚ → ℚ)
    (hts : ∀ q, tsTime q = q / 4 * (60 / bpm)) (lines : List Str) (chords : List DanceChord)
    (measure : Nat) (begin : ℚ) (hb : begin = ((measure : ℚ) - 1) * 4 * (60 / bpm)) :
    ∀ c ∈ flushedCellsFrom tsTime lines chords measure begin,
      measure ≤ c.measure ∧ c.row < c.rows ∧ c.t = rowTime bpm c.measure c.row c.rows := by
  induction lines generalizing chords measure begin with
  | nil => simp [flushedCellsFrom]
  | cons line rest ih =>
    unfold flushedCellsFrom
    split_ifs with h1 h2 h3 h4
    · exact ih chords measure begin hb
    · exact ih chords measure begin hb
    · simp
    · intro c hc
      rcases List.mem_append.mp hc with hc | hc
      · obtain ⟨hm, hn, _, hr, ht⟩ := rowCells_pos _ _ _ _ _ _ c hc
        have hrow : c.row < c.rows := by rw [hn]; omega
        refine ⟨by omega, hrow, ?_⟩
        rw [ht, hts, hb, rowTime, hm, hn]
        ring
      · have hb2 : tsTime ((measure : ℚ) * 16) = (((measure + 1 : ℕ) : ℚ) - 1) * 4 * (60 / bpm) := by
          rw [hts]
          push_cast
          ring
        obtain ⟨hm, hrow, ht⟩ := ih [] (measure + 1) _ hb2 c hc
        exact ⟨by omega, hrow, ht⟩
    · exact ih (chords ++ [parseRow line]) measure begin hb

/-- C5: at a constant tempo (`tsTime(q) = (q/4) * 60/bpm`, `bpm > 0`) every
flushed cell in row `r` of the `m`-th measure, which has `n` rows, is stamped
`(m-1) * 4 * (60/bpm) + r * (60/bpm) * (4/n)`, with `m >= 1` and `r < n`; the
`begin` times of the notes of an accepted body are these times of the cells
that emit them, in order.  Hence two rows `r1`, `r2` of one measure are
`(r2 - r1) * (60/bpm) * (4/n)` apart and row 0 of the first measure is at 0. -/
theorem smParseNotes_rowTime (bpm : ℚ) (_hbpm : 0 < bpm) (tsTime : ℚ → ℚ)
    (hts : ∀ q, tsTime q = q / 4 * (60 / bpm)) (body : List Str) :
    (∀ c ∈ flushedCells tsTime body,
      1 ≤ c.measure ∧ c.row < c.rows ∧ c.t = rowTime bpm c.measure c.row c.rows) ∧
    (∀ notes rest, smParseNotes tsTime body = (Except.ok notes, rest) →
      notes.map (fun n => n.begin) =
        (emitting (flushedCells tsTime body)).map (fun c => rowTime bpm c.measure c.row c.rows)) ∧
    (∀ m n r1 r2 : Nat, 0 < n →
      rowTime bpm m r2 n - rowTime bpm m r1 n = ((r2 : ℚ) - (r1 : ℚ)) * (60 / bpm) * (4 / (n : ℚ))) ∧
    (∀ n : Nat, rowTime bpm 1 0 n = 0) := by
  have hcells := flushedCellsFrom_rowTime bpm tsTime hts body [] 1 0 (by simp)
  refine ⟨hcells, ?_, ?_, ?_⟩
  · intro notes rest hacc
    obtain ⟨hm, hrun⟩ := smParseNotes_ok_run tsTime body notes rest hacc
    have hkey := runCells_noteKey _ _ _ notes hm hrun
    simp only [List.map_nil, List.nil_append] at hkey
    have h1 := congrArg (List.map (fun k : ℚ × NoteType × Nat => k.1)) hkey
    simp only [List.map_map] at h1
    have hl : (List.map ((fun k : ℚ × NoteType × Nat => k.1) ∘ noteKey) notes) =
        notes.map (fun n => n.begin) := by
      apply List.map_congr_left
      intro n _
      rfl
    rw [hl] at h1
    rw [h1]
    apply List.map_congr_left
    intro c hc
    have hmem : c ∈ flushedCells tsTime body := List.mem_of_mem_filter hc
    simp only [Function.comp, noteKey, Cell.stamped]
    exact (hcells c hmem).2.2
  · intro m n r1 r2 _
    simp only [rowTime]
    ring
  · intro n
    simp [rowTime]

/-- C5 at the measure of two taps at 120 BPM: the taps begin at the times of
rows 0 and 1 of a first measure of two rows, 0 and 1 second. -/
theorem smParseNotes_rowTime_witness :
    (0 : ℚ) < 120 ∧
    smParseNotes ts120 tapsBody =
      (Except.ok [{ begin := 0, end_ := 0, type := NoteType.TAP, note := 0 },
                  { begin := 1, end_ := 1, type := NoteType.TAP, note := 1 }], []) ∧
    [(0 : ℚ), 1] = [rowTime 120 1 0 2, rowTime 120 1 1 2] :=
  ⟨by norm_num, by decide!,
   ((smParseNotes_rowTime 120 (by norm_num) ts120 (fun _ => rfl) tapsBody).2.1
      [{ begin := 0, end_ := 0, type := NoteType.TAP, note := 0 },
       { begin := 1, end_ := 1, type := NoteType.TAP, note := 1 }] [] (by decide!)).trans
     (by decide!)⟩

end SongParser

namespace SongParser

/-! ## The maps -/

theorem mapFind_mapAdd_self {κ β : Type} [DecidableEq κ] (lt : κ → κ → Bool)
    (m : List (κ × β)) (k : κ) (v : β) (h : mapFind m k = none) :
    mapFind (mapAdd lt m k v) k = some v := by
  induction m with
  | nil => simp [mapAdd, mapFind]
  | cons e rest ih =>
    obtain ⟨k1, v1⟩ := e
    simp only [mapFind] at h
    split_ifs at h with hk
    simp only [mapAdd]
    split_ifs with hlt
    · simp [mapFind]
    · simp only [mapFind, if_neg hk]
      exact ih h

theorem mapFind_mapAdd_other {κ β : Type} [DecidableEq κ] (lt : κ → κ → Bool)
    (m : List (κ × β)) (k k2 : κ) (v : β) (h : k2 ≠ k) :
    mapFind (mapAdd lt m k v) k2 = mapFind m k2 := by
  induction m with
  | nil => simp [mapAdd, mapFind, h]
  | cons e rest ih =>
    obtain ⟨k1, v1⟩ := e
    simp only [mapAdd]
    split_ifs with hlt
    · simp [mapFind, h]
    · simp only [mapFind, ih]

/-- After `insert`, the key holds its old value if it had one, else the new
one. -/
theorem mapFind_mapInsert_self {κ β : Type} [DecidableEq κ] (lt : κ → κ → Bool)
    (m : List (κ × β)) (k : κ) (v : β) :
    mapFind (mapInsert lt m k v) k = some ((mapFind m k).getD v) := by
  unfold mapInsert
  cases h : mapFind m k with
  | none => simpa using mapFind_mapAdd_self lt m k v h
  | some w => simp [h]

theorem mapFind_mapInsert_other {κ β : Type} [DecidableEq κ] (lt : κ → κ → Bool)
    (m : List (κ × β)) (k k2 : κ) (v : β) (h : k2 ≠ k) :
    mapFind (mapInsert lt m k v) k2 = mapFind m k2 := by
  unfold mapInsert
  split_ifs
  · rfl
  · exact mapFind_mapAdd_other lt m k k2 v h

theorem mapFind_mapAssign_self {κ β : Type} [DecidableEq κ] (lt : κ → κ → Bool)
    (m : List (κ × β)) (k : κ) (v : β) : mapFind (mapAssign lt m k v) k = some v := by
  induction m with
  | nil => simp [mapAssign, mapFind]
  | cons e rest ih =>
    obtain ⟨k1, v1⟩ := e
    simp only [mapAssign]
    split_ifs with hlt hk
    · simp [mapFind]
    · simp [mapFind, hk]
    · simp only [mapFind, if_neg hk]
      exact ih

theorem mapFind_mapAssign_other {κ β : Type} [DecidableEq κ] (lt : κ → κ → Bool)
    (m : List (κ × β)) (k k2 : κ) (v : β) (h : k2 ≠ k) :
    mapFind (mapAssign lt m k v) k2 = mapFind m k2 := by
  induction m with
  | nil => simp [mapAssign, mapFind, h]
  | cons e rest ih =>
    obtain ⟨k1, v1⟩ := e
    simp only [mapAssign]
    split_ifs with hlt hk
    · simp [mapFind, h]
    · have : ¬ (k2 = k1) := fun e => h (e.trans hk.symm)
      simp [mapFind, this]
    · simp only [mapFind, ih]

/-- Storing a chart keeps the chart already stored under its style and
difficulty, if there is one, and stores the new chart otherwise. -/
theorem trackAt_insertTrack_self (tracks : DanceTracks) (style : Str) (d : DanceDifficulty)
    (t : DanceTrack) :
    trackAt (insertTrack tracks style d t) style d = some ((trackAt tracks style d).getD t) := by
  unfold trackAt insertTrack
  simp only [mapFind_mapAssign_self, Option.some_bind, mapFind_mapInsert_self]
  cases h : mapFind tracks style with
  | none =>
    simp only [if_true, mapFind_mapInsert_self, h, Option.getD_none, Option.getD_some,
      Option.none_bind]
    simp [mapFind]
  | some m =>
    simp [h]

/-- Storing a chart leaves every other style and difficulty as it was. -/
theorem trackAt_insertTrack_other (tracks : DanceTracks) (style style2 : Str)
    (d d2 : DanceDifficulty) (t : DanceTrack) (h : style2 ≠ style ∨ d2 ≠ d) :
    trackAt (insertTrack tracks style d t) style2 d2 = trackAt tracks style2 d2 := by
  unfold trackAt insertTrack
  by_cases hs : style2 = style
  · subst hs
    have hd : d2 ≠ d := by
      rcases h with h | h
      · exact absurd rfl h
      · exact h
    simp only [mapFind_mapAssign_self, Option.some_bind, mapFind_mapInsert_other _ _ _ _ _ hd]
    cases hm : mapFind tracks style2 with
    | none =>
      simp only [if_true, mapFind_mapInsert_self, hm, Option.getD_none, Option.getD_some,
        Option.none_bind]
      simp [mapFind]
    | some m => simp [hm]
  · rw [mapFind_mapAssign_other _ _ _ _ _ hs]
    split_ifs with hnone
    · rw [mapFind_mapInsert_other _ _ _ _ _ hs]
    · rfl

end SongParser

namespace SongParser

/-! ## The line cursor and the fuel of the loops -/

theorem smParseNotesLoop_lines_le (tsTime : ℚ → ℚ) (lines : List Str) (s : NotesState) :
    (smParseNotesLoop tsTime lines s).2.length ≤ lines.length := by
  induction lines generalizing s with
  | nil => simp [smParseNotesLoop]
  | cons line rest ih =>
    unfold smParseNotesLoop
    split_ifs with h1 h2 h3 h4
    · exact Nat.le_succ_of_le (ih s)
    · exact Nat.le_succ_of_le (ih s)
    · simp
    · simp only
      split
      · simp
      · exact Nat.le_succ_of_le (ih _)
    · exact Nat.le_succ_of_le (ih _)

theorem smParseNotes_lines_le (tsTime : ℚ → ℚ) (lines : List Str) :
    (smParseNotes tsTime lines).2.length ≤ lines.length :=
  smParseNotesLoop_lines_le tsTime lines NotesState.init

/-- One round of the chart loop on a complete preamble whose body is
accepted. -/
theorem smParseCharts_round (env : Env) (fuel : Nat) (st : State) (l1 l2 l3 l4 l5 : Str)
    (r5 r6 : List Str) (notes : Notes) (hl : st.lines = l1 :: l2 :: l3 :: l4 :: l5 :: r5)
    (hn : smParseNotes (env.tsTime st.tempo) r5 = (Except.ok notes, r6)) :
    smParseCharts env (fuel + 1) st =
      smParseCharts env fuel
        { st with
          lines := r6
          m_song :=
            { st.m_song with
              danceTracks :=
                insertTrack st.m_song.danceTracks (chartStyle l1) (chartDifficulty l3)
                  { description := preambleText l2, notes := notes } } } := by
  rw [smParseCharts]
  simp only [hl, hn]
  rfl

/-- One round of the chart loop on a complete preamble whose body throws. -/
theorem smParseCharts_round_error (env : Env) (fuel : Nat) (st : State) (l1 l2 l3 l4 l5 : Str)
    (r5 r6 : List Str) (e : String) (hl : st.lines = l1 :: l2 :: l3 :: l4 :: l5 :: r5)
    (hn : smParseNotes (env.tsTime st.tempo) r5 = (Except.error e, r6)) :
    smParseCharts env (fuel + 1) st = (Except.error e, { st with lines := r6 }) := by
  rw [smParseCharts]
  simp only [hl, hn]

/-- The chart loop at the end of the input. -/
theorem smParseCharts_nil (env : Env) (fuel : Nat) (st : State) (hl : st.lines = []) :
    smParseCharts env fuel st = (Except.ok (), st) := by
  cases fuel with
  | zero => rfl
  | succ f =>
    rw [smParseCharts]
    simp only [hl]

/-- The chart loop on a preamble cut short: one to four lines are left. -/
theorem smParseCharts_short (env : Env) (fuel : Nat) (st : State)
    (h1 : 1 ≤ st.lines.length) (h4 : st.lines.length ≤ 4) :
    smParseCharts env (fuel + 1) st = (Except.error errNoteDataMissing, { st with lines := [] }) := by
  rw [smParseCharts]
  rcases hl : st.lines with _ | ⟨l1, _ | ⟨l2, _ | ⟨l3, _ | ⟨l4, _ | ⟨l5, r5⟩⟩⟩⟩⟩
  · rw [hl] at h1; simp at h1
  · rfl
  · rfl
  · rfl
  · rfl
  · rw [hl] at h4; simp at h4

/-- The chart loop does not depend on its fuel once the fuel covers the
unread lines. -/
theorem smParseCharts_fuel (env : Env) (f g : Nat) (st : State)
    (hf : st.lines.length ≤ f) (hg : st.lines.length ≤ g) :
    smParseCharts env f st = smParseCharts env g st := by
  induction f generalizing g st with
  | zero =>
    have hl : st.lines = [] := List.length_eq_zero.mp (by omega)
    rw [smParseCharts_nil env 0 st hl, smParseCharts_nil env g st hl]
  | succ f ih =>
    cases g with
    | zero =>
      have hl : st.lines = [] := List.length_eq_zero.mp (by omega)
      rw [smParseCharts_nil env (f + 1) st hl, smParseCharts_nil env 0 st hl]
    | succ g =>
      rcases hl : st.lines with _ | ⟨l1, _ | ⟨l2, _ | ⟨l3, _ | ⟨l4, _ | ⟨l5, r5⟩⟩⟩⟩⟩
      · rw [smParseCharts_nil env (f + 1) st hl, smParseCharts_nil env (g + 1) st hl]
      · rw [smParseCharts_short env f st (by simp [hl]) (by simp [hl]),
          smParseCharts_short env g st (by simp [hl]) (by simp [hl])]
      · rw [smParseCharts_short env f st (by simp [hl]) (by simp [hl]),
          smParseCharts_short env g st (by simp [hl]) (by simp [hl])]
      · rw [smParseCharts_short env f st (by simp [hl]) (by simp [hl]),
          smParseCharts_short env g st (by simp [hl]) (by simp [hl])]
      · rw [smParseCharts_short env f st (by simp [hl]) (by simp [hl]),
          smParseCharts_short env g st (by simp [hl]) (by simp [hl])]
      · have hle := smParseNotes_lines_le (env.tsTime st.tempo) r5
        rw [hl] at hf hg
        simp only [List.length_cons] at hf hg
        rcases hn : smParseNotes (env.tsTime st.tempo) r5 with ⟨res, r6⟩
        rw [hn] at hle
        simp only at hle
        cases res with
        | error e =>
          rw [smParseCharts_round_error env f st _ _ _ _ _ _ _ e hl hn,
            smParseCharts_round_error env g st _ _ _ _ _ _ _ e hl hn]
        | ok notes =>
          rw [smParseCharts_round env f st _ _ _ _ _ _ _ notes hl hn,
            smParseCharts_round env g st _ _ _ _ _ _ _ notes hl hn]
          apply ih
          · simp only; omega
          · simp only; omega

/-- A chart stored under a style and difficulty stays there through the chart
loop, whatever follows. -/
theorem smParseCharts_keeps (env : Env) (fuel : Nat) (st : State) (style : Str)
    (d : DanceDifficulty) (t : DanceTrack) (h : trackAt st.m_song.danceTracks style d = some t) :
    trackAt (smParseCharts env fuel st).2.m_song.danceTracks style d = some t := by
  induction fuel generalizing st with
  | zero => simpa [smParseCharts] using h
  | succ f ih =>
    rcases hl : st.lines with _ | ⟨l1, _ | ⟨l2, _ | ⟨l3, _ | ⟨l4, _ | ⟨l5, r5⟩⟩⟩⟩⟩
    · rw [smParseCharts_nil env (f + 1) st hl]; exact h
    · rw [smParseCharts_short env f st (by simp [hl]) (by simp [hl])]; exact h
    · rw [smParseCharts_short env f st (by simp [hl]) (by simp [hl])]; exact h
    · rw [smParseCharts_short env f st (by simp [hl]) (by simp [hl])]; exact h
    · rw [smParseCharts_short env f st (by simp [hl]) (by simp [hl])]; exact h
    · rcases hn : smParseNotes (env.tsTime st.tempo) r5 with ⟨res, r6⟩
      cases res with
      | error e =>
        rw [smParseCharts_round_error env f st _ _ _ _ _ _ _ e hl hn]; exact h
      | ok notes =>
        rw [smParseCharts_round env f st _ _ _ _ _ _ _ notes hl hn]
        apply ih
        simp only
        by_cases hk : style = chartStyle l1 ∧ d = chartDifficulty l3
        · obtain ⟨hs, hd⟩ := hk
          subst hs
          subst hd
          rw [trackAt_insertTrack_self, h]
          rfl
        · rw [trackAt_insertTrack_other _ _ _ _ _ _ (by tauto)]
          exact h

end SongParser

namespace SongParser

/-! ## `smParseField` and `smParse` by cases -/

theorem smParseField_ignored (env : Env) (line : Str) (st : State) (h : isIgnored line = true) :
    smParseField env line st = (Except.ok true, st) := by
  simp only [isIgnored, decide_eq_true_eq] at h
  unfold smParseField
  rcases h with h | h | h
  · rw [if_pos h]
  · split_ifs <;> rfl
  · split_ifs <;> rfl

theorem smParseField_notes (env : Env) (line : Str) (st : State) (h : isNotesLine line = true) :
    smParseField env line st =
      match smParseCharts env st.lines.length st with
      | (Except.error e, st1) => (Except.error e, st1)
      | (Except.ok (), st1) => (Except.ok false, st1) := by
  simp only [isNotesLine, isIgnored, Bool.and_eq_true, Bool.not_eq_true', decide_eq_false_iff_not,
    decide_eq_true_eq] at h
  obtain ⟨⟨h0, h4⟩, h5⟩ := h
  have h1 : ¬ (line = [] ∨ line = ['\r']) := fun x => h0 (Or.inl x)
  have h2 : ¬ (charAt line 0 = '/' ∧ charAt line 1 = '/') := fun x => h0 (Or.inr (Or.inl x))
  have h3 : ¬ (charAt line 0 = ';') := fun x => h0 (Or.inr (Or.inr x))
  simp only [fieldKey] at h5
  unfold smParseField
  rw [if_neg h1, if_neg h2, if_neg h3]
  simp only [if_neg h4]
  rw [if_pos h5]

theorem smParseField_record (env : Env) (line : Str) (st : State) (h1 : isIgnored line = false)
    (h2 : find line ':' ≠ npos) (h3 : fieldKey line ≠ "NOTES".toList) :
    smParseField env line st =
      match readValue (fieldKey line) st.lines (fieldValue line) with
      | (Except.error e, lines1) => (Except.error e, { st with lines := lines1 })
      | (Except.ok value1, lines1) =>
        if substr value1 0 (value1.length - 1) = [] then (Except.ok true, { st with lines := lines1 })
        else applyField env (fieldKey line) (substr value1 0 (value1.length - 1))
          { st with lines := lines1 } := by
  simp only [isIgnored, decide_eq_false_iff_not] at h1
  have h11 : ¬ (line = [] ∨ line = ['\r']) := fun x => h1 (Or.inl x)
  have h12 : ¬ (charAt line 0 = '/' ∧ charAt line 1 = '/') := fun x => h1 (Or.inr (Or.inl x))
  have h13 : ¬ (charAt line 0 = ';') := fun x => h1 (Or.inr (Or.inr x))
  simp only [fieldKey] at h3
  unfold smParseField
  rw [if_neg h11, if_neg h12, if_neg h13]
  simp only [if_neg h2]
  rw [if_neg h3]
  rfl

theorem smParseLoop_nil (env : Env) (fuel : Nat) (st : State) (hl : st.lines = []) :
    smParseLoop env fuel st = (Except.ok (), st) := by
  cases fuel with
  | zero => rfl
  | succ f =>
    rw [smParseLoop]
    simp only [hl]

theorem smParseLoop_cons (env : Env) (fuel : Nat) (st : State) (line : Str) (rest : List Str)
    (hl : st.lines = line :: rest) :
    smParseLoop env (fuel + 1) st =
      match smParseField env line { st with lines := rest } with
      | (Except.error e, st1) => (Except.error e, st1)
      | (Except.ok false, st1) => (Except.ok (), st1)
      | (Except.ok true, st1) => smParseLoop env fuel st1 := by
  rw [smParseLoop]
  simp only [hl]

/-- The chart loop along a chain of whole charts. -/
theorem smParseCharts_reach (env : Env) (st st2 : State) (h : ChartsReach env st st2)
    (fuel : Nat) (hf : st.lines.length ≤ fuel) :
    smParseCharts env fuel st = smParseCharts env st2.lines.length st2 := by
  induction h generalizing fuel with
  | refl st => exact smParseCharts_fuel env fuel st.lines.length st hf (le_refl _)
  | round st st2 l1 l2 l3 l4 l5 r5 r6 notes hl hn _ ih =>
    have hle := smParseNotes_lines_le (env.tsTime st.tempo) r5
    rw [hn] at hle
    simp only at hle
    rw [hl] at hf
    simp only [List.length_cons] at hf
    obtain ⟨f, rfl⟩ : ∃ f, fuel = f + 1 := ⟨fuel - 1, by omega⟩
    rw [smParseCharts_round env f st _ _ _ _ _ _ _ notes hl hn]
    apply ih
    simp only
    omega

/-- The outcome of `smParse` on a `NOTES` line, from the outcome of the chart
loop on the lines after it. -/
theorem smParse_notes (env : Env) (st : State) (line : Str) (rest : List Str)
    (hl : st.lines = line :: rest) (hn : isNotesLine line = true) :
    smParseLoop env st.lines.length st =
      smParseCharts env rest.length { st with lines := rest } := by
  have hlen : st.lines.length = rest.length + 1 := by rw [hl]; rfl
  rw [hlen, smParseLoop_cons env rest.length st line rest hl, smParseField_notes env line _ hn]
  simp only
  rcases smParseCharts env rest.length { st with lines := rest } with ⟨res, st1⟩
  cases res with
  | error e => rfl
  | ok u => cases u; rfl

end SongParser

namespace SongParser

/-! ## The end of `smParse` (C7, C6, C10) -/

theorem smParse_of_loop_error (env : Env) (st st1 : State) (e : String)
    (h : smParseLoop env st.lines.length st = (Except.error e, st1)) :
    smParse env st = (Except.error e, st1) := by
  unfold smParse
  rw [h]

theorem smParse_danceTracks (env : Env) (st : State) :
    (smParse env st).2.m_song.danceTracks =
      (smParseLoop env st.lines.length st).2.m_song.danceTracks := by
  unfold smParse
  rcases smParseLoop env st.lines.length st with ⟨res, st1⟩
  cases res with
  | error e => rfl
  | ok u =>
    cases u
    simp only
    split_ifs <;> rfl

/-- C7 (amended): on a `NOTES` line, after any number of whole charts, if the
input ends after at least one and at most four lines of the next preamble,
`smParse` fails with "Required note data missing"; if it ends with no line of
a next preamble read and no chart was stored, `smParse` fails with "No note
data in the file". -/
theorem smParse_preamble_cut (env : Env) (st st2 : State) (line : Str) (rest : List Str)
    (hl : st.lines = line :: rest) (hn : isNotesLine line = true)
    (hreach : ChartsReach env { st with lines := rest } st2) (h4 : st2.lines.length ≤ 4) :
    (1 ≤ st2.lines.length → (smParse env st).1 = Except.error "Required note data missing") ∧
    (st2.lines = [] → st2.m_song.danceTracks = [] →
      (smParse env st).1 = Except.error "No note data in the file") := by
  have hloop : smParseLoop env st.lines.length st = smParseCharts env st2.lines.length st2 := by
    rw [smParse_notes env st line rest hl hn]
    exact smParseCharts_reach env _ st2 hreach rest.length (le_refl _)
  constructor
  · intro h1
    obtain ⟨f, hf⟩ : ∃ f, st2.lines.length = f + 1 := ⟨st2.lines.length - 1, by omega⟩
    rw [hf, smParseCharts_short env f st2 h1 h4] at hloop
    rw [smParse_of_loop_error env st _ _ hloop]
    rfl
  · intro hnil hempty
    rw [smParseCharts_nil env _ st2 hnil] at hloop
    unfold smParse
    rw [hloop]
    simp [hempty, errNoNoteData]

/-- C7 (amended) at `#NOTES:` followed by the `NotesType` line alone. -/
theorem smParse_preamble_cut_witness :
    (smParse sampleEnv (State.init [] (splitLines "#NOTES:\n     dance-single:\n"))).1 =
      Except.error "Required note data missing" :=
  (smParse_preamble_cut sampleEnv (State.init [] (splitLines "#NOTES:\n     dance-single:\n"))
    { State.init [] (splitLines "#NOTES:\n     dance-single:\n") with
      lines := ["     dance-single:".toList] }
    "#NOTES:".toList ["     dance-single:".toList] (by decide!) (by decide!)
    (ChartsReach.refl _) (by decide)).1 (by decide)

/-- C7 fails as stated: on `#NOTES:` followed by the end of the input the
parse fails with "No note data in the file", not with "Required note data
missing". -/
theorem smParse_notes_eof_counterexample :
    (smParse sampleEnv (State.init [] (splitLines "#NOTES:\n"))).1 =
        Except.error "No note data in the file" ∧
    (smParse sampleEnv (State.init [] (splitLines "#NOTES:\n"))).1 ≠
        Except.error "Required note data missing" := by
  decide!

/-- C6 (amended): when the chart loop reaches a chart block (five preamble
lines and a body that `smParseNotes` accepts), the entry
`danceTracks[style][difficulty]` at the end of `smParse` is the chart that was
stored under that key before the block, if there was one, and the chart of the
block otherwise: the first chart of a key is kept, later ones are dropped. -/
theorem smParse_first_chart_kept (env : Env) (st st2 : State) (line : Str) (rest : List Str)
    (l1 l2 l3 l4 l5 : Str) (r5 r6 : List Str) (notes : Notes)
    (hl : st.lines = line :: rest) (hn : isNotesLine line = true)
    (hreach : ChartsReach env { st with lines := rest } st2)
    (hl2 : st2.lines = l1 :: l2 :: l3 :: l4 :: l5 :: r5)
    (hnotes : smParseNotes (env.tsTime st2.tempo) r5 = (Except.ok notes, r6)) :
    trackAt (smParse env st).2.m_song.danceTracks (chartStyle l1) (chartDifficulty l3) =
      some ((trackAt st2.m_song.danceTracks (chartStyle l1) (chartDifficulty l3)).getD
        { description := preambleText l2, notes := notes }) := by
  have hloop : smParseLoop env st.lines.length st = smParseCharts env st2.lines.length st2 := by
    rw [smParse_notes env st line rest hl hn]
    exact smParseCharts_reach env _ st2 hreach rest.length (le_refl _)
  rw [smParse_danceTracks, hloop]
  obtain ⟨f, hf⟩ : ∃ f, st2.lines.length = f + 1 := ⟨st2.lines.length - 1, by rw [hl2]; simp⟩
  rw [hf, smParseCharts_round env f st2 _ _ _ _ _ _ _ notes hl2 hnotes]
  apply smParseCharts_keeps
  simp only
  exact trackAt_insertTrack_self _ _ _ _

end SongParser

namespace SongParser

/-- C6 (amended) at the first block of `dupInput`: at the end of the parse the
key holds the chart of the first block, although a second block with the same
key follows. -/
theorem smParse_first_chart_kept_witness :
    trackAt (smParse sampleEnv dupState).2.m_song.danceTracks
      (chartStyle "     dance-single:".toList) (chartDifficulty "     Easy:".toList) =
      some dupFirst :=
  (smParse_first_chart_kept sampleEnv dupState
    { dupState with lines := (splitLines dupInput).drop 3 }
    "#NOTES:".toList ((splitLines dupInput).drop 3)
    "     dance-single:".toList "     first:".toList "     Easy:".toList "     3:".toList
    "     0,0,0,0,0:".toList ((splitLines dupInput).drop 8) ((splitLines dupInput).drop 14)
    dupFirst.notes (by decide!) (by decide!) (ChartsReach.refl _) (by decide!) (by decide!)).trans
    (by decide!)

/-- C6 fails as stated: for `dupInput`, whose two charts have the same style
and difficulty, the parse succeeds and leaves the chart of the first block
under the key, not the chart of the last block. -/
theorem smParse_duplicate_counterexample :
    (smParse sampleEnv (State.init [] (splitLines dupInput))).1 = Except.ok () ∧
    smParseNotes ts120 ((splitLines dupInput).drop 19) = (Except.ok dupSecond.notes, []) ∧
    trackAt (smParse sampleEnv (State.init [] (splitLines dupInput))).2.m_song.danceTracks
      "dance-single".toList DanceDifficulty.EASY = some dupFirst ∧
    trackAt (smParse sampleEnv (State.init [] (splitLines dupInput))).2.m_song.danceTracks
      "dance-single".toList DanceDifficulty.EASY ≠ some dupSecond := by
  decide!

/-- C10: if the line loop ends without an exception, with at least one dance
track but an empty title or artist, `smParse` fails with "Required header
fields missing"; and after a successful `smParse` the title and the artist are
non-empty and there is at least one dance track. -/
theorem smParse_header_check (env : Env) (st : State) :
    ((smParseLoop env st.lines.length st).1 = Except.ok () →
      (smParseLoop env st.lines.length st).2.m_song.danceTracks ≠ [] →
      ((smParseLoop env st.lines.length st).2.m_song.title = [] ∨
        (smParseLoop env st.lines.length st).2.m_song.artist = []) →
      (smParse env st).1 = Except.error "Required header fields missing") ∧
    ((smParse env st).1 = Except.ok () →
      (smParse env st).2.m_song.title ≠ [] ∧ (smParse env st).2.m_song.artist ≠ [] ∧
        (smParse env st).2.m_song.danceTracks ≠ []) := by
  unfold smParse
  rcases smParseLoop env st.lines.length st with ⟨res, st1⟩
  cases res with
  | error e =>
    constructor
    · intro h; cases h
    · intro h; cases h
  | ok u =>
    cases u
    simp only
    constructor
    · intro _ htracks hempty
      have h1 : st1.m_song.danceTracks.isEmpty = false := by
        cases hd : st1.m_song.danceTracks with
        | nil => exact absurd hd htracks
        | cons a b => rfl
      have h2 : st1.m_song.title.isEmpty = true ∨ st1.m_song.artist.isEmpty = true := by
        rcases hempty with h | h
        · exact Or.inl (by rw [h]; rfl)
        · exact Or.inr (by rw [h]; rfl)
      simp only [h1, Bool.false_eq_true, if_false, if_pos h2]
      rfl
    · intro hok
      by_cases h1 : st1.m_song.danceTracks.isEmpty = true
      · simp only [h1, if_true] at hok
        cases hok
      · by_cases h2 : st1.m_song.title.isEmpty = true ∨ st1.m_song.artist.isEmpty = true
        · simp only [h1, if_false, if_pos h2] at hok
          cases hok
        · rw [if_neg h1, if_neg h2]
          simp only [not_or] at h2
          refine ⟨?_, ?_, ?_⟩
          · show st1.m_song.title ≠ []
            intro h; exact h2.1 (by rw [h]; rfl)
          · show st1.m_song.artist ≠ []
            intro h; exact h2.2 (by rw [h]; rfl)
          · show st1.m_song.danceTracks ≠ []
            intro h; exact h1 (by rw [h]; rfl)

/-- C10 at `noArtistInput`: a chart and a title but no artist. -/
theorem smParse_header_check_witness :
    (smParse sampleEnv (State.init [] (splitLines noArtistInput))).1 =
      Except.error "Required header fields missing" :=
  (smParse_header_check sampleEnv (State.init [] (splitLines noArtistInput))).1
    (by decide!) (by decide!) (Or.inr (by decide!))

end SongParser

namespace SongParser

/-! ## Two charts (C8) -/

theorem hash_not_skipped (h : Str) (hh : charAt h 0 = '#') :
    ¬ (h = [] ∨ h = ['\r']) ∧ ¬ (charAt h 0 = '/' ∧ charAt h 1 = '/') := by
  constructor
  · rintro (e | e)
    · rw [e] at hh; revert hh; decide
    · rw [e] at hh; revert hh; decide
  · rintro ⟨e, _⟩
    rw [hh] at e
    revert e
    decide

/-- A body without `#` lines, followed by a `#` line: `smParseNotes` returns
at that line what it returns at the end of the body alone, and leaves the
lines after it unread. -/
theorem smParseNotesLoop_append_hash (tsTime : ℚ → ℚ) (body : List Str) (s : NotesState)
    (h : Str) (tail : List Str) (notes : Notes) (hb : ∀ l ∈ body, charAt l 0 ≠ '#')
    (hh : charAt h 0 = '#') (hok : (smParseNotesLoop tsTime body s).1 = Except.ok notes) :
    smParseNotesLoop tsTime (body ++ h :: tail) s = (Except.ok notes, tail) := by
  induction body generalizing s with
  | nil =>
    simp only [smParseNotesLoop] at hok
    obtain ⟨h1, h2⟩ := hash_not_skipped h hh
    simp only [List.nil_append]
    unfold smParseNotesLoop
    rw [if_neg h1, if_neg h2, if_pos hh, Except.ok.inj hok]
  | cons l rest ih =>
    have hl : ¬ (charAt l 0 = '#') := hb l (List.mem_cons_self _ _)
    have hrest : ∀ x ∈ rest, charAt x 0 ≠ '#' := fun x hx => hb x (List.mem_cons_of_mem _ hx)
    simp only [List.cons_append]
    unfold smParseNotesLoop at hok ⊢
    split_ifs at hok ⊢ with h1 h2 h4
    · exact ih s hrest hok
    · exact ih s hrest hok
    · simp only at hok ⊢
      cases hr : processRows s.begin
          ((tsTime ((s.measure : ℚ) * 16) - s.begin) / (s.chords.length : ℚ)) 0 s.chords
          s.notes s.holdMarks with
      | error e => rw [hr] at hok; simp at hok
      | ok p =>
        obtain ⟨n1, hm1⟩ := p
        rw [hr] at hok
        simp only at hok ⊢
        exact ih _ hrest hok
    · exact ih _ hrest hok

/-- A body without `#` lines is read to the end. -/
theorem smParseNotesLoop_no_hash (tsTime : ℚ → ℚ) (body : List Str) (s : NotesState)
    (notes : Notes) (hb : ∀ l ∈ body, charAt l 0 ≠ '#')
    (hok : (smParseNotesLoop tsTime body s).1 = Except.ok notes) :
    smParseNotesLoop tsTime body s = (Except.ok notes, []) := by
  induction body generalizing s with
  | nil =>
    simp only [smParseNotesLoop] at hok ⊢
    rw [Except.ok.inj hok]
  | cons l rest ih =>
    have hl : ¬ (charAt l 0 = '#') := hb l (List.mem_cons_self _ _)
    have hrest : ∀ x ∈ rest, charAt x 0 ≠ '#' := fun x hx => hb x (List.mem_cons_of_mem _ hx)
    unfold smParseNotesLoop at hok ⊢
    split_ifs at hok ⊢ with h1 h2 h4
    · exact ih s hrest hok
    · exact ih s hrest hok
    · simp only at hok ⊢
      cases hr : processRows s.begin
          ((tsTime ((s.measure : ℚ) * 16) - s.begin) / (s.chords.length : ℚ)) 0 s.chords
          s.notes s.holdMarks with
      | error e => rw [hr] at hok; simp at hok
      | ok p =>
        obtain ⟨n1, hm1⟩ := p
        rw [hr] at hok
        simp only at hok ⊢
        exact ih _ hrest hok
    · exact ih _ hrest hok

end SongParser

namespace SongParser

theorem strLt_irrefl (s : Str) : strLt s s = false := by
  simp [strLt]

theorem insertTrack_two (s : Str) (d1 d2 : DanceDifficulty) (t1 t2 : DanceTrack) (h : d2 ≠ d1) :
    insertTrack (insertTrack [] s d1 t1) s d2 t2 =
      [(s, if difficultyLt d2 d1 = true then [(d2, t2), (d1, t1)] else [(d1, t1), (d2, t2)])] := by
  simp [insertTrack, mapFind, mapInsert, mapAdd, mapAssign, strLt_irrefl, h]

/-- C8: in a parser state with a title and an artist and no chart yet, let the
unread lines be two chart blocks of style `dance-single`, one `EASY` and one
`HARD` in either order: a `NOTES` line, five preamble lines and a body without
`#` lines that `smParseNotes` accepts, then the `#` line that opens the second
block (its `#NOTES:` line), its preamble and its body to the end of the input.  Then `smParse`
succeeds and `danceTracks` has the single key `dance-single`, whose map has
exactly the entries `EASY` and `HARD`, each with the description and the notes
of its own block. -/
theorem smParse_two_charts (env : Env) (st : State) (line1 a1 a2 a3 a4 a5 : Str)
    (body1 : List Str) (line2 b1 b2 b3 b4 b5 : Str) (body2 : List Str)
    (notes1 notes2 : Notes) (rest1 rest2 : List Str)
    (htitle : st.m_song.title ≠ []) (hartist : st.m_song.artist ≠ [])
    (hempty : st.m_song.danceTracks = [])
    (hl : st.lines =
      line1 :: a1 :: a2 :: a3 :: a4 :: a5 :: (body1 ++ line2 :: b1 :: b2 :: b3 :: b4 :: b5 :: body2))
    (hn1 : isNotesLine line1 = true) (hhash : charAt line2 0 = '#')
    (hs1 : chartStyle a1 = "dance-single".toList) (hs2 : chartStyle b1 = "dance-single".toList)
    (hd : (chartDifficulty a3 = DanceDifficulty.EASY ∧ chartDifficulty b3 = DanceDifficulty.HARD) ∨
      (chartDifficulty a3 = DanceDifficulty.HARD ∧ chartDifficulty b3 = DanceDifficulty.EASY))
    (hb1 : ∀ l ∈ body1, charAt l 0 ≠ '#') (hb2 : ∀ l ∈ body2, charAt l 0 ≠ '#')
    (hacc1 : smParseNotes (env.tsTime st.tempo) body1 = (Except.ok notes1, rest1))
    (hacc2 : smParseNotes (env.tsTime st.tempo) body2 = (Except.ok notes2, rest2)) :
    (smParse env st).1 = Except.ok () ∧
    (smParse env st).2.m_song.danceTracks =
      [("dance-single".toList,
        if chartDifficulty a3 = DanceDifficulty.EASY then
          [(DanceDifficulty.EASY, { description := preambleText a2, notes := notes1 }),
           (DanceDifficulty.HARD, { description := preambleText b2, notes := notes2 })]
        else
          [(DanceDifficulty.EASY, { description := preambleText b2, notes := notes2 }),
           (DanceDifficulty.HARD, { description := preambleText a2, notes := notes1 })])] := by
  have hok1 : smParseNotes (env.tsTime st.tempo)
      (body1 ++ line2 :: b1 :: b2 :: b3 :: b4 :: b5 :: body2) =
      (Except.ok notes1, b1 :: b2 :: b3 :: b4 :: b5 :: body2) :=
    smParseNotesLoop_append_hash _ body1 NotesState.init line2 _ notes1 hb1 hhash
      (by
        have := congrArg Prod.fst hacc1
        exact this)
  have hok2 : smParseNotes (env.tsTime st.tempo) body2 = (Except.ok notes2, []) :=
    smParseNotesLoop_no_hash _ body2 NotesState.init notes2 hb2
      (by
        have := congrArg Prod.fst hacc2
        exact this)
  have hreach : ChartsReach env
      { st with lines := a1 :: a2 :: a3 :: a4 :: a5 ::
          (body1 ++ line2 :: b1 :: b2 :: b3 :: b4 :: b5 :: body2) }
      { st with
        lines := []
        m_song := { st.m_song with
          danceTracks :=
            insertTrack
              (insertTrack st.m_song.danceTracks (chartStyle a1) (chartDifficulty a3)
                { description := preambleText a2, notes := notes1 })
              (chartStyle b1) (chartDifficulty b3)
              { description := preambleText b2, notes := notes2 } } } :=
    ChartsReach.round _ _ a1 a2 a3 a4 a5 _ _ notes1 rfl hok1
      (ChartsReach.round _ _ b1 b2 b3 b4 b5 _ _ notes2 rfl hok2 (ChartsReach.refl _))
  have hloop := smParse_notes env st line1 _ hl hn1
  rw [smParseCharts_reach env _ _ hreach _ (le_refl _), smParseCharts_nil env _ _ rfl] at hloop
  have hne : chartDifficulty b3 ≠ chartDifficulty a3 := by
    rcases hd with ⟨h1, h2⟩ | ⟨h1, h2⟩ <;> rw [h1, h2] <;> decide
  have htracks : insertTrack
      (insertTrack st.m_song.danceTracks (chartStyle a1) (chartDifficulty a3)
        { description := preambleText a2, notes := notes1 })
      (chartStyle b1) (chartDifficulty b3) { description := preambleText b2, notes := notes2 } =
      [("dance-single".toList,
        if chartDifficulty a3 = DanceDifficulty.EASY then
          [(DanceDifficulty.EASY, { description := preambleText a2, notes := notes1 }),
           (DanceDifficulty.HARD, { description := preambleText b2, notes := notes2 })]
        else
          [(DanceDifficulty.EASY, { description := preambleText b2, notes := notes2 }),
           (DanceDifficulty.HARD, { description := preambleText a2, notes := notes1 })])] := by
    rw [hempty, hs1, hs2, insertTrack_two _ _ _ _ _ hne]
    rcases hd with ⟨h1, h2⟩ | ⟨h1, h2⟩ <;> rw [h1, h2] <;> rfl
  have ht : st.m_song.title.isEmpty = false := by
    cases h : st.m_song.title with
    | nil => exact absurd h htitle
    | cons a b => rfl
  have ha : st.m_song.artist.isEmpty = false := by
    cases h : st.m_song.artist with
    | nil => exact absurd h hartist
    | cons a b => rfl
  unfold smParse
  rw [hloop]
  simp only [htracks, ht, ha]
  constructor <;> rfl

/-- C8 at `twoInput`, from the state in which its first `#NOTES:` line is
read. -/
theorem smParse_two_charts_witness :
    (smParse sampleEnv twoState).1 = Except.ok () ∧
    (smParse sampleEnv twoState).2.m_song.danceTracks =
      [("dance-single".toList,
        [(DanceDifficulty.EASY, dupFirst),
         (DanceDifficulty.HARD, { dupSecond with description := "second".toList })])] := by
  have h := smParse_two_charts sampleEnv twoState "#NOTES:".toList
    "     dance-single:".toList "     first:".toList "     Easy:".toList "     3:".toList
    "     0,0,0,0,0:".toList ((splitLines twoInput).drop 8 |>.take 5)
    "#NOTES:".toList
    "     dance-single:".toList "     second:".toList "     Hard:".toList "     3:".toList
    "     0,0,0,0,0:".toList ((splitLines twoInput).drop 19)
    dupFirst.notes dupSecond.notes [] []
    (by decide) (by decide) (by decide!) (by decide!) (by decide!) (by decide!)
    (by decide!) (by decide!) (Or.inl (by decide!)) (by decide!) (by decide!)
    (by decide!) (by decide!)
  exact ⟨h.1, h.2.trans (by decide!)⟩

end SongParser

namespace SongParser

/-! ## Files without charts (C9) -/

theorem dropWhile_append_last (p : Char → Bool) (l : List Char) (a : Char) (ha : p a = false) :
    ∃ w, (l ++ [a]).dropWhile p = w ++ [a] := by
  induction l with
  | nil => exact ⟨[], by simp [List.dropWhile, ha]⟩
  | cons x rest ih =>
    by_cases hx : p x = true
    · obtain ⟨w, hw⟩ := ih
      exact ⟨w, by simp [List.dropWhile, hx, hw]⟩
    · exact ⟨x :: rest, by simp [List.dropWhile, hx]⟩

/-- A trimmed text does not start with white space. -/
theorem trim_copy_head (s : Str) (c : Char) (rest : Str) (h : trim_copy s = c :: rest) :
    isSpace c = false := by
  unfold trim_copy at h
  cases hu : s.dropWhile isSpace with
  | nil => rw [hu] at h; simp at h
  | cons a u =>
    have ha : isSpace a = false := by
      have := List.head_dropWhile_not isSpace s (by rw [hu]; simp)
      simpa [hu] using this
    rw [hu] at h
    simp only [List.reverse_cons] at h
    obtain ⟨w, hw⟩ := dropWhile_append_last isSpace u.reverse a ha
    rw [hw] at h
    simp at h
    rw [← h.1]
    exact ha

theorem readValue_lines_le (key : Str) (lines : List Str) (value : Str) :
    (readValue key lines value).2.length ≤ lines.length := by
  induction lines generalizing value with
  | nil => unfold readValue; split_ifs <;> simp
  | cons str rest ih =>
    unfold readValue
    split_ifs
    · simp
    · exact Nat.le_succ_of_le (ih _)

/-- A value joined from trimmed lines does not start with white space. -/
theorem readValue_head (key : Str) (lines : List Str) (value value1 : Str) (rest1 : List Str)
    (hv : ∀ c r, value = c :: r → isSpace c = false)
    (h : readValue key lines value = (Except.ok value1, rest1)) :
    ∀ c r, value1 = c :: r → isSpace c = false := by
  induction lines generalizing value with
  | nil =>
    unfold readValue at h
    split_ifs at h
    · cases h; exact hv
    · cases h
  | cons str rest ih =>
    unfold readValue at h
    split_ifs at h
    · cases h; exact hv
    · apply ih (value ++ trim_copy str) _ h
      intro c r hc
      cases value with
      | nil =>
        simp only [List.nil_append] at hc
        exact trim_copy_head str c r hc
      | cons a v =>
        simp only [List.cons_append, List.cons.injEq] at hc
        rw [← hc.1]
        exact hv a v rfl

theorem foldl_bpmsStep (pairs : List (ℚ × ℚ)) (st : State) :
    (pairs.foldl bpmsStep st).lines = st.lines ∧
    (pairs.foldl bpmsStep st).m_song = st.m_song ∧
    (pairs.foldl bpmsStep st).m_bpms = st.m_bpms ++ pairs.map (fun p => (p.1 * 4, p.2)) := by
  induction pairs generalizing st with
  | nil => simp
  | cons p rest ih =>
    obtain ⟨h1, h2, h3⟩ := ih (bpmsStep st p)
    simp only [List.foldl_cons, List.map_cons]
    refine ⟨?_, ?_, ?_⟩
    · rw [h1]; unfold bpmsStep addBPM; split_ifs <;> rfl
    · rw [h2]; unfold bpmsStep addBPM; split_ifs <;> rfl
    · rw [h3]; unfold bpmsStep addBPM; split_ifs <;> simp

theorem foldl_stopsStep (pairs : List (ℚ × ℚ)) (st : State) :
    (pairs.foldl stopsStep st).lines = st.lines ∧
    (pairs.foldl stopsStep st).m_song = st.m_song ∧
    (pairs.foldl stopsStep st).m_bpms = st.m_bpms := by
  induction pairs generalizing st with
  | nil => simp
  | cons p rest ih =>
    obtain ⟨h1, h2, h3⟩ := ih (stopsStep st p)
    simp only [List.foldl_cons]
    exact ⟨by rw [h1]; rfl, by rw [h2]; rfl, by rw [h3]; rfl⟩

end SongParser

namespace SongParser

theorem recordSegments_of_ne (env : Env) (key value : Str) (h : key ≠ "BPMS".toList) :
    recordSegments env key value = [] := by
  unfold recordSegments
  rw [if_neg h]

/-- The handlers of the keys on an accepted, non-empty value that does not
start with white space: no exception, the cursor and the dance tracks are left
alone, and the BPM map grows by the segments of the record. -/
theorem applyField_header (env : Env) (key value : Str) (st : State) (hne : value ≠ [])
    (hacc : valueAccepted env key value = true)
    (hhead : ∀ c r, value = c :: r → isSpace c = false) :
    (applyField env key value st).1 = Except.ok true ∧
    (applyField env key value st).2.lines = st.lines ∧
    (applyField env key value st).2.m_song.danceTracks = st.m_song.danceTracks ∧
    (applyField env key value st).2.m_bpms = st.m_bpms ++ recordSegments env key value := by
  simp only [valueAccepted, hne, decide_False, Bool.false_or, Bool.and_eq_true, Bool.or_eq_true,
    decide_eq_true_eq] at hacc
  obtain ⟨hT, hO⟩ := hacc
  unfold applyField
  by_cases k1 : key = "TITLE".toList
  · have hle : ¬ (find_first_not_of value " :".toList > value.length) := by
      rcases hT with h | h
      · exact absurd k1 h
      · omega
    rw [if_pos k1, if_neg hle, recordSegments_of_ne env key value (by rw [k1]; decide)]
    simp
  rw [if_neg k1]
  by_cases k2 : key = "ARTIST".toList
  · have hle : ¬ (find_first_not_of value " ".toList > value.length) := by
      cases hv : value with
      | nil => exact absurd hv hne
      | cons c r =>
        have hc := hhead c r hv
        have hc2 : c ≠ ' ' := by
          intro e
          rw [e] at hc
          revert hc
          decide
        have : find_first_not_of (c :: r) " ".toList = 0 := by
          simp [find_first_not_of, List.takeWhile, hc2]
        rw [this]
        omega
    rw [if_pos k2, if_neg hle, recordSegments_of_ne env key value (by rw [k2]; decide)]
    simp
  rw [if_neg k2]
  by_cases k3 : key = "BANNER".toList
  · rw [if_pos k3, recordSegments_of_ne env key value (by rw [k3]; decide)]
    simp
  rw [if_neg k3]
  by_cases k4 : key = "MUSIC".toList
  · rw [if_pos k4, recordSegments_of_ne env key value (by rw [k4]; decide)]
    simp
  rw [if_neg k4]
  by_cases k5 : key = "BACKGROUND".toList
  · rw [if_pos k5, recordSegments_of_ne env key value (by rw [k5]; decide)]
    simp
  rw [if_neg k5]
  by_cases k6 : key = "OFFSET".toList
  · have hsome : (env.lexicalCastDouble
        (value.map (fun c => if c = ',' then '.' else c))).isSome = true := by
      rcases hO with h | h
      · exact absurd k6 h
      · exact h
    obtain ⟨v, hv⟩ := Option.isSome_iff_exists.mp hsome
    rw [if_pos k6, recordSegments_of_ne env key value (by rw [k6]; decide)]
    simp [assignDouble, hv]
  rw [if_neg k6]
  by_cases k7 : key = "BPMS".toList
  · rw [if_pos k7]
    obtain ⟨h1, h2, h3⟩ := foldl_bpmsStep (readPairs env (value.length + 1) value) st
    refine ⟨rfl, h1, by rw [h2], ?_⟩
    simp only [h3, recordSegments, if_pos k7]
  rw [if_neg k7, recordSegments_of_ne env key value k7]
  by_cases k8 : key = "STOPS".toList
  · rw [if_pos k8]
    obtain ⟨h1, h2, h3⟩ := foldl_stopsStep (readPairs env (value.length + 1) value) st
    exact ⟨rfl, h1, by rw [h2], by simp [h3]⟩
  rw [if_neg k8]
  simp

/-- The line loop over a header-only input ends without an exception, with
the dance tracks as they were and the BPM map grown by the segments of the
`BPMS` records. -/
theorem smParseLoop_headerOnly (env : Env) (lines : List Str) (segs : List (ℚ × ℚ))
    (hh : HeaderOnly env lines segs) (st : State) (hl : st.lines = lines) (fuel : Nat)
    (hf : lines.length ≤ fuel) :
    (smParseLoop env fuel st).1 = Except.ok () ∧
    (smParseLoop env fuel st).2.m_song.danceTracks = st.m_song.danceTracks ∧
    (smParseLoop env fuel st).2.m_bpms = st.m_bpms ++ segs := by
  induction hh generalizing st fuel with
  | nil =>
    rw [smParseLoop_nil env fuel st hl]
    simp
  | ignored line rest segs hig _ ih =>
    simp only [List.length_cons] at hf
    obtain ⟨f, rfl⟩ : ∃ f, fuel = f + 1 := ⟨fuel - 1, by omega⟩
    rw [smParseLoop_cons env f st line rest hl, smParseField_ignored env line _ hig]
    exact ih { st with lines := rest } rfl f (by omega)
  | record line rest value1 rest1 segs hrec hread hacc _ ih =>
    simp only [List.length_cons] at hf
    obtain ⟨f, rfl⟩ : ∃ f, fuel = f + 1 := ⟨fuel - 1, by omega⟩
    simp only [isRecordLine, Bool.and_eq_true, Bool.not_eq_true', decide_eq_true_eq] at hrec
    obtain ⟨⟨hig, hcolon⟩, hkey⟩ := hrec
    have hle := readValue_lines_le (fieldKey line) rest (fieldValue line)
    rw [hread] at hle
    simp only at hle
    rw [smParseLoop_cons env f st line rest hl, smParseField_record env line _ hig hcolon hkey]
    simp only [hread]
    by_cases hv : substr value1 0 (value1.length - 1) = []
    · rw [if_pos hv]
      obtain ⟨h1, h2, h3⟩ := ih { st with lines := rest1 } rfl f (by omega)
      refine ⟨h1, h2, ?_⟩
      rw [h3, hv]
      have : recordSegments env (fieldKey line) [] = [] := by
        unfold recordSegments
        split_ifs
        · simp only [List.length_nil, readPairs]
          cases env.extractDouble [] with
          | none => rfl
          | some p => simp [extractChar]
        · rfl
      rw [this]
      rfl
    · rw [if_neg hv]
      have hhead1 := readValue_head (fieldKey line) rest (fieldValue line) value1 rest1
        (fun c r hc => trim_copy_head _ c r hc) hread
      have hhead : ∀ c r, substr value1 0 (value1.length - 1) = c :: r → isSpace c = false := by
        intro c r hc
        cases hv1 : value1 with
        | nil => rw [hv1] at hc; simp [substr] at hc
        | cons a v =>
          rw [hv1] at hc
          cases hlen : (a :: v).length - 1 with
          | zero => rw [hlen] at hc; simp [substr] at hc
          | succ n =>
            rw [hlen] at hc
            simp only [substr, List.drop_zero, List.take_succ_cons, List.cons.injEq] at hc
            rw [← hc.1]
            exact hhead1 a v hv1
      obtain ⟨a1, a2, a3, a4⟩ := applyField_header env (fieldKey line)
        (substr value1 0 (value1.length - 1)) { st with lines := rest1 } hv hacc hhead
      rcases hap : applyField env (fieldKey line) (substr value1 0 (value1.length - 1))
        { st with lines := rest1 } with ⟨res, st1⟩
      rw [hap] at a1 a2 a3 a4
      simp only at a1 a2 a3 a4
      subst a1
      simp only
      obtain ⟨h1, h2, h3⟩ := ih st1 a2 f (by omega)
      refine ⟨h1, by rw [h2, a3], ?_⟩
      rw [h3, a4, List.append_assoc]

/-- C9 (amended): for every input made only of ignored lines and of
`KEY:VALUE;` records with a key other than `NOTES` and a value that the handler
of the key accepts (any value but an `OFFSET` that is not a number and a
`TITLE` made only of spaces and colons), read by a parser without charts,
`smParse` fails with "No note data in the file", whatever title and artist
are, and the BPM map then holds, after the segments it had, the segments of
the `BPMS` records in order. -/
theorem smParse_headerOnly (env : Env) (st : State) (segs : List (ℚ × ℚ))
    (hh : HeaderOnly env st.lines segs) (hempty : st.m_song.danceTracks = []) :
    (smParse env st).1 = Except.error "No note data in the file" ∧
    (smParse env st).2.m_bpms = st.m_bpms ++ segs := by
  obtain ⟨h1, h2, h3⟩ := smParseLoop_headerOnly env st.lines segs hh st rfl st.lines.length
    (le_refl _)
  unfold smParse
  rcases hloop : smParseLoop env st.lines.length st with ⟨res, st1⟩
  rw [hloop] at h1 h2 h3
  simp only at h1 h2 h3
  subst h1
  simp only
  have he : st1.m_song.danceTracks.isEmpty = true := by rw [h2, hempty]; rfl
  rw [if_pos he]
  exact ⟨rfl, h3⟩

end SongParser

namespace SongParser

/-- C9 (amended) at `#BPMS:0=120,0.5=240;` and at the header-only file
`#TITLE:X;`, `#ARTIST:Y;`: both parses fail with "No note data in the file";
the first has recorded the two segments, at quarter-beats 0 and 2. -/
theorem smParse_headerOnly_witness :
    ((smParse sampleEnv (State.init [] (splitLines "#BPMS:0=120,0.5=240;"))).1 =
        Except.error "No note data in the file" ∧
      (smParse sampleEnv (State.init [] (splitLines "#BPMS:0=120,0.5=240;"))).2.m_bpms =
        [(0, 120), (2, 240)]) ∧
    (smParse sampleEnv (State.init [] (splitLines "#TITLE:X;\n#ARTIST:Y;\n"))).1 =
        Except.error "No note data in the file" := by
  have h1 := smParse_headerOnly sampleEnv (State.init [] (splitLines "#BPMS:0=120,0.5=240;"))
    (recordSegments sampleEnv "BPMS".toList "0=120,0.5=240".toList ++ [])
    (HeaderOnly.record "#BPMS:0=120,0.5=240;".toList [] "0=120,0.5=240;".toList [] []
      (by decide!) (by decide!) (by decide!) HeaderOnly.nil)
    rfl
  have h2 := smParse_headerOnly sampleEnv (State.init [] (splitLines "#TITLE:X;\n#ARTIST:Y;\n"))
    (recordSegments sampleEnv "TITLE".toList "X".toList ++
      (recordSegments sampleEnv "ARTIST".toList "Y".toList ++ []))
    (HeaderOnly.record "#TITLE:X;".toList ["#ARTIST:Y;".toList] "X;".toList
      ["#ARTIST:Y;".toList] _ (by decide!) (by decide!) (by decide!)
      (HeaderOnly.record "#ARTIST:Y;".toList [] "Y;".toList [] [] (by decide!) (by decide!)
        (by decide!) HeaderOnly.nil))
    rfl
  exact ⟨⟨h1.1, h1.2.trans (by decide!)⟩, h2.1⟩

/-- C9 fails as stated: the record `#OFFSET:x;` makes the parse fail with the
exception of `assign`, and the record `#TITLE::;` with the `std::out_of_range`
of `substr`; neither parse fails with "No note data in the file". -/
theorem smParse_headerOnly_counterexample :
    (smParse sampleEnv (State.init [] (splitLines "#OFFSET:x;"))).1 =
        Except.error "\"x\" is not valid floating point value" ∧
    (smParse sampleEnv (State.init [] (splitLines "#OFFSET:x;"))).1 ≠
        Except.error "No note data in the file" ∧
    (smParse sampleEnv (State.init [] (splitLines "#TITLE::;"))).1 ≠
        Except.error "No note data in the file" := by
  decide!

end SongParser

namespace SongParser

/-! ## The fuel of the loops is never used up -/

theorem smParseCharts_lines_le (env : Env) (fuel : Nat) (st : State) :
    (smParseCharts env fuel st).2.lines.length ≤ st.lines.length := by
  induction fuel generalizing st with
  | zero => simp [smParseCharts]
  | succ f ih =>
    rcases hl : st.lines with _ | ⟨l1, _ | ⟨l2, _ | ⟨l3, _ | ⟨l4, _ | ⟨l5, r5⟩⟩⟩⟩⟩
    · rw [smParseCharts_nil env (f + 1) st hl, hl]
    · rw [smParseCharts_short env f st (by simp [hl]) (by simp [hl])]; simp
    · rw [smParseCharts_short env f st (by simp [hl]) (by simp [hl])]; simp
    · rw [smParseCharts_short env f st (by simp [hl]) (by simp [hl])]; simp
    · rw [smParseCharts_short env f st (by simp [hl]) (by simp [hl])]; simp
    · have hle := smParseNotes_lines_le (env.tsTime st.tempo) r5
      rcases hn : smParseNotes (env.tsTime st.tempo) r5 with ⟨res, r6⟩
      rw [hn] at hle
      simp only at hle
      cases res with
      | error e =>
        rw [smParseCharts_round_error env f st _ _ _ _ _ _ _ e hl hn]
        simp only [List.length_cons]
        omega
      | ok notes =>
        rw [smParseCharts_round env f st _ _ _ _ _ _ _ notes hl hn]
        refine le_trans (ih _) ?_
        simp only [List.length_cons]
        omega

theorem applyField_lines (env : Env) (key value : Str) (st : State) :
    (applyField env key value st).2.lines = st.lines := by
  unfold applyField
  split_ifs
  any_goals rfl
  · cases assignDouble env value <;> rfl
  · exact (foldl_bpmsStep _ st).1
  · exact (foldl_stopsStep _ st).1

/-- A call of `smParseField` moves the line cursor forward only. -/
theorem smParseField_lines_le (env : Env) (line : Str) (st : State) :
    (smParseField env line st).2.lines.length ≤ st.lines.length := by
  by_cases hig : isIgnored line = true
  · rw [smParseField_ignored env line st hig]
  · have hig2 : isIgnored line = false := by simpa using hig
    by_cases hc : find line ':' = npos
    · have h0 := hig2
      simp only [isIgnored, decide_eq_false_iff_not] at h0
      have h11 : ¬ (line = [] ∨ line = ['\r']) := fun x => h0 (Or.inl x)
      have h12 : ¬ (charAt line 0 = '/' ∧ charAt line 1 = '/') := fun x => h0 (Or.inr (Or.inl x))
      have h13 : ¬ (charAt line 0 = ';') := fun x => h0 (Or.inr (Or.inr x))
      unfold smParseField
      rw [if_neg h11, if_neg h12, if_neg h13]
      simp only [if_pos hc]
      exact le_refl _
    · by_cases hk : fieldKey line = "NOTES".toList
      · have hn : isNotesLine line = true := by
          simp [isNotesLine, hig2, hc, hk]
        rw [smParseField_notes env line st hn]
        have := smParseCharts_lines_le env st.lines.length st
        rcases hsc : smParseCharts env st.lines.length st with ⟨res, st1⟩
        rw [hsc] at this
        cases res with
        | error e => exact this
        | ok u => exact this
      · rw [smParseField_record env line st hig2 hc hk]
        have hle := readValue_lines_le (fieldKey line) st.lines (fieldValue line)
        rcases hrv : readValue (fieldKey line) st.lines (fieldValue line) with ⟨res, lines1⟩
        rw [hrv] at hle
        cases res with
        | error e => exact hle
        | ok value1 =>
          show (if substr value1 0 (value1.length - 1) = [] then
              ((Except.ok true : Except String Bool), { st with lines := lines1 })
            else applyField env (fieldKey line) (substr value1 0 (value1.length - 1))
              { st with lines := lines1 }).2.lines.length ≤ st.lines.length
          by_cases hv : substr value1 0 (value1.length - 1) = []
          · rw [if_pos hv]; exact hle
          · rw [if_neg hv, applyField_lines]; exact hle

/-- The line loop does not depend on its fuel once the fuel covers the unread
lines: the `fuel = 0` case of `smParseLoop` is reached only at the end of the
input. -/
theorem smParseLoop_fuel (env : Env) (f g : Nat) (st : State)
    (hf : st.lines.length ≤ f) (hg : st.lines.length ≤ g) :
    smParseLoop env f st = smParseLoop env g st := by
  induction f generalizing g st with
  | zero =>
    have hl : st.lines = [] := List.length_eq_zero.mp (by omega)
    rw [smParseLoop_nil env 0 st hl, smParseLoop_nil env g st hl]
  | succ f ih =>
    cases g with
    | zero =>
      have hl : st.lines = [] := List.length_eq_zero.mp (by omega)
      rw [smParseLoop_nil env (f + 1) st hl, smParseLoop_nil env 0 st hl]
    | succ g =>
      cases hl : st.lines with
      | nil => rw [smParseLoop_nil env (f + 1) st hl, smParseLoop_nil env (g + 1) st hl]
      | cons line rest =>
        rw [smParseLoop_cons env f st line rest hl, smParseLoop_cons env g st line rest hl]
        have hle := smParseField_lines_le env line { st with lines := rest }
        rw [hl] at hf hg
        simp only [List.length_cons] at hf hg
        rcases hsf : smParseField env line { st with lines := rest } with ⟨res, st1⟩
        rw [hsf] at hle
        simp only at hle
        cases res with
        | error e => rfl
        | ok b =>
          cases b with
          | false => rfl
          | true => exact ih g st1 (by omega) (by omega)

theorem extractChar_length (s : Str) (c : Char) (r : Str) (h : extractChar s = some (c, r)) :
    r.length < s.length := by
  unfold extractChar at h
  have hle : (s.dropWhile isSpace).length ≤ s.length :=
    (List.dropWhile_sublist isSpace).length_le
  cases hd : s.dropWhile isSpace with
  | nil => rw [hd] at h; cases h
  | cons a b =>
    rw [hd] at h hle
    simp only [Option.some.injEq, Prod.mk.injEq] at h
    rw [← h.2]
    simp only [List.length_cons] at hle
    omega

/-- The pair loop of `BPMS` and `STOPS` does not depend on its fuel once the
fuel exceeds the length of the value. -/
theorem readPairs_fuel (env : Env) (f g : Nat) (s : Str) (hf : s.length < f)
    (hg : s.length < g) : readPairs env f s = readPairs env g s := by
  induction f generalizing g s with
  | zero => omega
  | succ f ih =>
    cases g with
    | zero => omega
    | succ g =>
      simp only [readPairs]
      cases h1 : env.extractDouble s with
      | none => rfl
      | some p1 =>
        obtain ⟨a, n1⟩ := p1
        simp only
        cases h2 : extractChar (s.drop n1) with
        | none => rfl
        | some p2 =>
          obtain ⟨c2, s2⟩ := p2
          have hs2 := extractChar_length _ _ _ h2
          have hd1 : (s.drop n1).length ≤ s.length := by simp
          simp only
          cases h3 : env.extractDouble s2 with
          | none => rfl
          | some p3 =>
            obtain ⟨b, n2⟩ := p3
            simp only
            cases h4 : extractChar (s2.drop n2) with
            | none => rfl
            | some p4 =>
              obtain ⟨c4, s3⟩ := p4
              have hs3 := extractChar_length _ _ _ h4
              have hd2 : (s2.drop n2).length ≤ s2.length := by simp
              simp only
              rw [ih g s3 (by omega) (by omega)]

end SongParser

namespace SongParser

/-! ## Lines without a colon and unknown keys (C11, C15) -/

theorem find_eq_npos_of_not_mem (line : Str) (c : Char) (h : c ∉ line) : find line c = npos := by
  unfold find
  have : ¬ (List.indexOf c line < line.length) := by
    rw [List.indexOf_lt_length]
    exact h
  rw [if_neg this]

theorem mem_of_find_ne_npos (line : Str) (c : Char) (h : find line c ≠ npos) : c ∈ line := by
  by_contra hc
  exact h (find_eq_npos_of_not_mem line c hc)

theorem smParseField_no_colon (env : Env) (line : Str) (st : State) (hig : isIgnored line = false)
    (hc : find line ':' = npos) :
    smParseField env line st = (Except.error errInvalidFormat, st) := by
  have h0 := hig
  simp only [isIgnored, decide_eq_false_iff_not] at h0
  have h11 : ¬ (line = [] ∨ line = ['\r']) := fun x => h0 (Or.inl x)
  have h12 : ¬ (charAt line 0 = '/' ∧ charAt line 1 = '/') := fun x => h0 (Or.inr (Or.inl x))
  have h13 : ¬ (charAt line 0 = ';') := fun x => h0 (Or.inr (Or.inr x))
  unfold smParseField
  rw [if_neg h11, if_neg h12, if_neg h13]
  simp only [if_pos hc]

/-- C11 (amended): a line that is not ignored and contains no `:` is rejected
with "Invalid format, should be #key:value", the parser state left as it was;
so `smParseField` accepts a line that is not ignored only if it contains a
`:`.  The first character of the line is not looked at. -/
theorem smParseField_colon_required (env : Env) (line : Str) (st : State)
    (hig : isIgnored line = false) :
    (':' ∉ line →
      smParseField env line st = (Except.error "Invalid format, should be #key:value", st)) ∧
    (∀ b st1, smParseField env line st = (Except.ok b, st1) → ':' ∈ line) := by
  have h1 : ':' ∉ line →
      smParseField env line st = (Except.error "Invalid format, should be #key:value", st) :=
    fun hc => smParseField_no_colon env line st hig (find_eq_npos_of_not_mem line ':' hc)
  refine ⟨h1, ?_⟩
  intro b st1 hok
  by_contra hc
  rw [h1 hc] at hok
  cases hok

/-- C11 (amended) at the line `#TITLE`, which has no colon. -/
theorem smParseField_colon_required_witness :
    smParseField sampleEnv "#TITLE".toList (State.init [] []) =
      (Except.error "Invalid format, should be #key:value", State.init [] []) :=
  (smParseField_colon_required sampleEnv "#TITLE".toList (State.init [] []) (by decide!)).1
    (by decide)

/-- C11 fails as stated: the line `xTITLE:Foo;` is not ignored and does not
start with `#`, yet `smParseField` accepts it and sets the title to `Foo`. -/
theorem smParseField_no_hash_counterexample :
    isIgnored "xTITLE:Foo;".toList = false ∧ charAt "xTITLE:Foo;".toList 0 ≠ '#' ∧
    (smParseField sampleEnv "xTITLE:Foo;".toList (State.init [] [])).1 = Except.ok true ∧
    (smParseField sampleEnv "xTITLE:Foo;".toList (State.init [] [])).2.m_song.title =
      "Foo".toList := by
  decide!

theorem readValue_closed (key : Str) (lines : List Str) (value : Str)
    (h : value.getLast? = some ';') : readValue key lines value = (Except.ok value, lines) := by
  cases lines with
  | nil => unfold readValue; rw [if_pos h]
  | cons str rest => unfold readValue; rw [if_pos h]

/-- The key dispatch on a key that is none of the eight handled keys. -/
theorem applyField_unknown (env : Env) (key value : Str) (st : State)
    (h1 : key ≠ "TITLE".toList) (h2 : key ≠ "ARTIST".toList) (h3 : key ≠ "BANNER".toList)
    (h4 : key ≠ "MUSIC".toList) (h5 : key ≠ "BACKGROUND".toList) (h6 : key ≠ "OFFSET".toList)
    (h7 : key ≠ "BPMS".toList) (h8 : key ≠ "STOPS".toList) :
    applyField env key value st = (Except.ok true, st) := by
  unfold applyField
  rw [if_neg h1, if_neg h2, if_neg h3, if_neg h4, if_neg h5, if_neg h6, if_neg h7, if_neg h8]

/-- C15: a line that is not ignored, has a colon, whose text after the first
colon ends (trimmed) with `;`, and whose trimmed key is none of `TITLE`,
`ARTIST`, `BANNER`, `MUSIC`, `BACKGROUND`, `OFFSET`, `BPMS`, `STOPS`, `NOTES`
(compared case-sensitively) makes `smParseField` return `true` and leaves the
whole parser state, the line cursor included, as it was. -/
theorem smParseField_unknown_key (env : Env) (line : Str) (st : State)
    (hig : isIgnored line = false) (hc : find line ':' ≠ npos)
    (hsemi : (fieldValue line).getLast? = some ';')
    (hkey : fieldKey line ∉ ["TITLE".toList, "ARTIST".toList, "BANNER".toList, "MUSIC".toList,
      "BACKGROUND".toList, "OFFSET".toList, "BPMS".toList, "STOPS".toList, "NOTES".toList]) :
    smParseField env line st = (Except.ok true, st) := by
  simp only [List.mem_cons, List.mem_singleton, not_or, List.not_mem_nil, not_false_eq_true,
    and_true] at hkey
  obtain ⟨h1, h2, h3, h4, h5, h6, h7, h8, h9⟩ := hkey
  rw [smParseField_record env line st hig hc h9, readValue_closed _ _ _ hsemi]
  show (if substr (fieldValue line) 0 ((fieldValue line).length - 1) = [] then
      ((Except.ok true : Except String Bool), { st with lines := st.lines })
    else applyField env (fieldKey line) (substr (fieldValue line) 0 ((fieldValue line).length - 1))
      { st with lines := st.lines }) = (Except.ok true, st)
  by_cases hv : substr (fieldValue line) 0 ((fieldValue line).length - 1) = []
  · rw [if_pos hv]
  · rw [if_neg hv, applyField_unknown env _ _ _ h1 h2 h3 h4 h5 h6 h7 h8]

/-- C15 at the record `#title:Foo;`, whose key is spelled in lower case. -/
theorem smParseField_unknown_key_witness :
    smParseField sampleEnv "#title:Foo;".toList (State.init [] ["#ARTIST:Y;".toList]) =
      (Except.ok true, State.init [] ["#ARTIST:Y;".toList]) :=
  smParseField_unknown_key sampleEnv "#title:Foo;".toList (State.init [] ["#ARTIST:Y;".toList])
    (by decide!) (by decide!) (by decide!) (by decide!)

end SongParser

namespace SongParser

/-! ## Values that wrap over several lines (C12) -/

theorem readValue_join (key : Str) (conts rest : List Str) (value : Str)
    (hopen : ∀ j, j < conts.length → (value ++ joinTrimmed (conts.take j)).getLast? ≠ some ';')
    (hclosed : (value ++ joinTrimmed conts).getLast? = some ';') :
    readValue key (conts ++ rest) value = (Except.ok (value ++ joinTrimmed conts), rest) := by
  induction conts generalizing value with
  | nil =>
    simp only [joinTrimmed, List.append_nil] at hclosed
    simpa [joinTrimmed] using readValue_closed key rest value hclosed
  | cons c cs ih =>
    have h0 : ¬ (value.getLast? = some ';') := by
      have := hopen 0 (by simp)
      simpa [joinTrimmed] using this
    simp only [List.cons_append]
    unfold readValue
    rw [if_neg h0]
    have := ih (value ++ trim_copy c)
      (by
        intro j hj
        have := hopen (j + 1) (by simp only [List.length_cons]; omega)
        simpa [joinTrimmed, List.append_assoc] using this)
      (by simpa [joinTrimmed, List.append_assoc] using hclosed)
    rw [this]
    simp [joinTrimmed, List.append_assoc]

theorem readValue_exhausted (key : Str) (lines : List Str) (value : Str)
    (hopen : ∀ j, j ≤ lines.length → (value ++ joinTrimmed (lines.take j)).getLast? ≠ some ';') :
    readValue key lines value = (Except.error (errSemicolon key), []) := by
  induction lines generalizing value with
  | nil =>
    have h0 : ¬ (value.getLast? = some ';') := by
      have := hopen 0 (by simp)
      simpa [joinTrimmed] using this
    unfold readValue
    rw [if_neg h0]
  | cons c cs ih =>
    have h0 : ¬ (value.getLast? = some ';') := by
      have := hopen 0 (by simp)
      simpa [joinTrimmed] using this
    unfold readValue
    rw [if_neg h0]
    apply ih
    intro j hj
    have := hopen (j + 1) (by simp only [List.length_cons]; omega)
    simpa [joinTrimmed, List.append_assoc] using this

theorem substr_dropLast (v : Str) : substr v 0 (v.length - 1) = v.dropLast := by
  simp [substr, List.dropLast_eq_take]

/-- C12: let a record line (not ignored, with a colon, key other than `NOTES`)
have a non-blank text after its first colon, and let its value wrap over the
`k >= 1` following lines `conts`: the trimmed first-line text joined with the
trimmed lines ends with `;` and no shorter join does.  Then `smParseField`
hands to the handler of the key that join without its last character, with
the cursor after the `k` lines.  If instead no join of the trimmed first-line
text with any number of the unread lines ends with `;`, `smParseField` fails
with "Invalid format, semicolon missing after value of " followed by the
key. -/
theorem smParseField_wrapped_value (env : Env) (line : Str) (st : State)
    (hrec : isRecordLine line = true) :
    (∀ conts rest, st.lines = conts ++ rest → 1 ≤ conts.length → fieldValue line ≠ [] →
      (∀ j, j < conts.length →
        (fieldValue line ++ joinTrimmed (conts.take j)).getLast? ≠ some ';') →
      (fieldValue line ++ joinTrimmed conts).getLast? = some ';' →
      smParseField env line st =
        applyField env (fieldKey line) (fieldValue line ++ joinTrimmed conts).dropLast
          { st with lines := rest }) ∧
    ((∀ j, j ≤ st.lines.length →
        (fieldValue line ++ joinTrimmed (st.lines.take j)).getLast? ≠ some ';') →
      smParseField env line st =
        (Except.error
          ("Invalid format, semicolon missing after value of " ++ String.mk (fieldKey line)),
          { st with lines := [] })) := by
  simp only [isRecordLine, Bool.and_eq_true, Bool.not_eq_true', decide_eq_true_eq] at hrec
  obtain ⟨⟨hig, hcolon⟩, hkey⟩ := hrec
  constructor
  · intro conts rest hl hk hnb hopen hclosed
    rw [smParseField_record env line st hig hcolon hkey, hl,
      readValue_join (fieldKey line) conts rest (fieldValue line) hopen hclosed]
    have hne : (fieldValue line ++ joinTrimmed conts).dropLast ≠ [] := by
      have h0 : (fieldValue line).getLast? ≠ some ';' := by
        have := hopen 0 (by omega)
        simpa [joinTrimmed] using this
      intro hd
      cases hv : fieldValue line with
      | nil => exact hnb hv
      | cons a v =>
        rw [hv] at hd hclosed h0
        cases hj : v ++ joinTrimmed conts with
        | nil =>
          have hv2 : v = [] := (List.append_eq_nil.mp hj).1
          have hj2 : joinTrimmed conts = [] := (List.append_eq_nil.mp hj).2
          rw [hj2, hv2] at hclosed
          rw [hv2] at h0
          simp at hclosed h0
          exact h0 hclosed
        | cons b w =>
          simp only [List.cons_append, hj, List.dropLast_cons₂] at hd
          cases hd
    show (if substr (fieldValue line ++ joinTrimmed conts) 0
          ((fieldValue line ++ joinTrimmed conts).length - 1) = [] then
        ((Except.ok true : Except String Bool), { st with lines := rest })
      else applyField env (fieldKey line)
        (substr (fieldValue line ++ joinTrimmed conts) 0
          ((fieldValue line ++ joinTrimmed conts).length - 1))
        { st with lines := rest }) = _
    rw [substr_dropLast, if_neg hne]
  · intro hopen
    rw [smParseField_record env line st hig hcolon hkey,
      readValue_exhausted (fieldKey line) st.lines (fieldValue line) hopen]
    rfl

/-- C12 at the record `#TITLE:Foo`, ` Bar;`: the handler of `TITLE` gets
`FooBar` and the line after the record stays unread. -/
theorem smParseField_wrapped_value_witness :
    smParseField sampleEnv "#TITLE:Foo".toList
        (State.init [] [" Bar;".toList, "#ARTIST:Y;".toList]) =
      applyField sampleEnv "TITLE".toList "FooBar".toList (State.init [] ["#ARTIST:Y;".toList]) :=
  (smParseField_wrapped_value sampleEnv "#TITLE:Foo".toList
    (State.init [] [" Bar;".toList, "#ARTIST:Y;".toList]) (by decide!)).1
    [" Bar;".toList] ["#ARTIST:Y;".toList] rfl (by decide) (by decide!)
    (by intro j hj; have h0 : j = 0 := by simpa using hj
        subst h0; decide!)
    (by decide!)

end SongParser

namespace SongParser

/-! ## The keys of a chart (C14) -/

theorem take_indexOf (c : Char) (line : Str) :
    line.take (List.indexOf c line) = line.takeWhile (fun x => decide (x ≠ c)) := by
  induction line with
  | nil => simp
  | cons x xs ih =>
    by_cases hx : x = c
    · rw [List.indexOf_cons_eq xs hx]
      simp [List.takeWhile, hx]
    · rw [List.indexOf_cons_ne xs hx]
      simp [List.takeWhile, hx, ih]

theorem substr_find (line : Str) (c : Char) (hlen : line.length < 2 ^ 64) :
    substr line 0 (find line c) = line.takeWhile (fun x => decide (x ≠ c)) := by
  unfold substr find
  rw [← take_indexOf]
  simp only [List.drop_zero]
  split_ifs with h
  · rfl
  · have hle : List.indexOf c line ≤ line.length := List.indexOf_le_length
    have heq : List.indexOf c line = line.length := by omega
    rw [heq, List.take_length]
    apply List.take_of_length_le
    unfold npos
    omega

theorem preambleText_eq (line : Str) (hlen : line.length < 2 ^ 64) :
    preambleText line = trim_copy (beforeColon line) := by
  unfold preambleText beforeColon
  rw [substr_find line ':' hlen]

theorem difficultyOf_spec (s : Str) :
    (difficultyOf s = DanceDifficulty.BEGINNER ↔ s = "BEGINNER".toList) ∧
    (difficultyOf s = DanceDifficulty.EASY ↔ s = "EASY".toList) ∧
    (difficultyOf s = DanceDifficulty.MEDIUM ↔ s = "MEDIUM".toList) ∧
    (difficultyOf s = DanceDifficulty.HARD ↔ s = "HARD".toList) ∧
    (difficultyOf s = DanceDifficulty.CHALLENGE ↔ s = "CHALLENGE".toList) ∧
    (difficultyOf s = DanceDifficulty.DIFFICULTYCOUNT ↔
      s ∉ ["BEGINNER".toList, "EASY".toList, "MEDIUM".toList, "HARD".toList,
        "CHALLENGE".toList]) := by
  by_cases h5 : s = "CHALLENGE".toList
  · subst h5; decide
  by_cases h4 : s = "HARD".toList
  · subst h4; decide
  by_cases h3 : s = "MEDIUM".toList
  · subst h3; decide
  by_cases h2 : s = "EASY".toList
  · subst h2; decide
  by_cases h1 : s = "BEGINNER".toList
  · subst h1; decide
  have hd : difficultyOf s = DanceDifficulty.DIFFICULTYCOUNT := by
    unfold difficultyOf
    simp only [if_neg h1, if_neg h2, if_neg h3, if_neg h4, if_neg h5]
  rw [hd]
  refine ⟨⟨(fun h => nomatch h), fun h => absurd h h1⟩, ⟨(fun h => nomatch h), fun h => absurd h h2⟩,
    ⟨(fun h => nomatch h), fun h => absurd h h3⟩, ⟨(fun h => nomatch h), fun h => absurd h h4⟩,
    ⟨(fun h => nomatch h), fun h => absurd h h5⟩, ⟨fun _ => ?_, fun _ => rfl⟩⟩
  intro hm
  simp only [List.mem_cons, List.mem_singleton, List.not_mem_nil, or_false] at hm
  rcases hm with h | h | h | h | h
  · exact h1 h
  · exact h2 h
  · exact h3 h
  · exact h4 h
  · exact h5 h

/-- C14: a round of the chart loop on a complete preamble with an accepted
body raises no error and stores the chart under a style and a difficulty read
as follows (lines shorter than `2^64` bytes).  The style is the text of the
`NotesType` line before its first colon (the whole line if it has none),
trimmed and lower-cased.  The difficulty comes from the text of the
`DifficultyClass` line before its first colon, trimmed and upper-cased: it is
`BEGINNER`, `EASY`, `MEDIUM`, `HARD` or `CHALLENGE` exactly when that text is
the name, and `DIFFICULTYCOUNT` exactly when it is none of the five.

The result of the loop is stated in full: the loop goes on from the state in
which the chart is stored; when the body ends the input, the loop returns
without an exception in exactly that state; and whatever follows the body,
also an exception of a later chart, the state the loop ends in holds under
that style and that difficulty the chart that was there before the round, or
else this chart, and under the style every difficulty other than that one is
as the rest of the loop alone leaves it. -/
theorem smParseCharts_chart_keys (env : Env) (fuel : Nat) (st : State) (l1 l2 l3 l4 l5 : Str)
    (r5 r6 : List Str) (notes : Notes) (hl : st.lines = l1 :: l2 :: l3 :: l4 :: l5 :: r5)
    (hn : smParseNotes (env.tsTime st.tempo) r5 = (Except.ok notes, r6))
    (hlen1 : l1.length < 2 ^ 64) (hlen3 : l3.length < 2 ^ 64) :
    smParseCharts env (fuel + 1) st =
      smParseCharts env fuel
        (st.withChart r6 (chartStyle l1) (chartDifficulty l3)
          { description := preambleText l2, notes := notes }) ∧
    (r6 = [] →
      smParseCharts env (fuel + 1) st =
        (Except.ok (),
          { st with
            lines := []
            m_song :=
              { st.m_song with
                danceTracks :=
                  insertTrack st.m_song.danceTracks
                    ((trim_copy (beforeColon l1)).map Char.toLower) (chartDifficulty l3)
                    { description := preambleText l2, notes := notes } } })) ∧
    trackAt (smParseCharts env (fuel + 1) st).2.m_song.danceTracks
        ((trim_copy (beforeColon l1)).map Char.toLower) (chartDifficulty l3) =
      some ((trackAt st.m_song.danceTracks ((trim_copy (beforeColon l1)).map Char.toLower)
        (chartDifficulty l3)).getD { description := preambleText l2, notes := notes }) ∧
    (r6 = [] → ∀ (style : Str) (d : DanceDifficulty),
      style ≠ (trim_copy (beforeColon l1)).map Char.toLower ∨ d ≠ chartDifficulty l3 →
      trackAt (smParseCharts env (fuel + 1) st).2.m_song.danceTracks style d =
        trackAt st.m_song.danceTracks style d) ∧
    chartStyle l1 = (trim_copy (beforeColon l1)).map Char.toLower ∧
    (chartDifficulty l3 = DanceDifficulty.BEGINNER ↔
      (trim_copy (beforeColon l3)).map Char.toUpper = "BEGINNER".toList) ∧
    (chartDifficulty l3 = DanceDifficulty.EASY ↔
      (trim_copy (beforeColon l3)).map Char.toUpper = "EASY".toList) ∧
    (chartDifficulty l3 = DanceDifficulty.MEDIUM ↔
      (trim_copy (beforeColon l3)).map Char.toUpper = "MEDIUM".toList) ∧
    (chartDifficulty l3 = DanceDifficulty.HARD ↔
      (trim_copy (beforeColon l3)).map Char.toUpper = "HARD".toList) ∧
    (chartDifficulty l3 = DanceDifficulty.CHALLENGE ↔
      (trim_copy (beforeColon l3)).map Char.toUpper = "CHALLENGE".toList) ∧
    (chartDifficulty l3 = DanceDifficulty.DIFFICULTYCOUNT ↔
      (trim_copy (beforeColon l3)).map Char.toUpper ∉
        ["BEGINNER".toList, "EASY".toList, "MEDIUM".toList, "HARD".toList,
          "CHALLENGE".toList]) := by
  have hstyle : chartStyle l1 = (trim_copy (beforeColon l1)).map Char.toLower := by
    unfold chartStyle
    rw [preambleText_eq l1 hlen1]
    rfl
  have hround := smParseCharts_round env fuel st l1 l2 l3 l4 l5 r5 r6 notes hl hn
  refine ⟨hround, ?_, ?_, ?_, hstyle, ?_⟩
  · intro h6
    subst h6
    rw [hround, ← hstyle]
    exact smParseCharts_nil env fuel _ rfl
  · rw [← hstyle, hround]
    exact smParseCharts_keeps env fuel _ _ _ _ (trackAt_insertTrack_self _ _ _ _)
  · intro h6 style d hk
    subst h6
    rw [← hstyle] at hk
    rw [hround, smParseCharts_nil env fuel _ rfl]
    exact trackAt_insertTrack_other _ _ _ _ _ _ hk
  · have := difficultyOf_spec ((trim_copy (beforeColon l3)).map Char.toUpper)
    unfold chartDifficulty
    rw [preambleText_eq l3 hlen3]
    exact this

/-- C14 at the first chart of `dupInput`, the loop run to the end of the file:
the chart is stored under the style `dance-single`, read from the line
`     dance-single:`, and the difficulty `EASY`, read from `     Easy:`; the
loop returns without an exception and that entry is the only one of the map. -/
theorem smParseCharts_chart_keys_witness :
    trackAt (smParseCharts sampleEnv 17
        { dupState with lines := (splitLines dupInput).drop 3 }).2.m_song.danceTracks
        ((trim_copy (beforeColon "     dance-single:".toList)).map Char.toLower)
        (chartDifficulty "     Easy:".toList) = some dupFirst ∧
    (smParseCharts sampleEnv 17 { dupState with lines := (splitLines dupInput).drop 3 }).1 =
      Except.ok () ∧
    (smParseCharts sampleEnv 17
        { dupState with lines := (splitLines dupInput).drop 3 }).2.m_song.danceTracks =
      [("dance-single".toList, [(DanceDifficulty.EASY, dupFirst)])] ∧
    (trim_copy (beforeColon "     dance-single:".toList)).map Char.toLower =
      "dance-single".toList ∧
    chartDifficulty "     Easy:".toList = DanceDifficulty.EASY := by
  have h := smParseCharts_chart_keys sampleEnv 16
    { dupState with lines := (splitLines dupInput).drop 3 }
    "     dance-single:".toList "     first:".toList "     Easy:".toList "     3:".toList
    "     0,0,0,0,0:".toList ((splitLines dupInput).drop 8) ((splitLines dupInput).drop 14)
    dupFirst.notes (by decide!) (by decide!) (by decide) (by decide)
  exact ⟨h.2.2.1.trans (by decide!), by decide!, by decide!, by decide!,
    h.2.2.2.2.2.2.1.mpr (by decide!)⟩

end SongParser

namespace SongParser

/-! ## The chord of a grid row (C19) -/

theorem chordSet_append (chord : DanceChord) (i : Nat) (n : Note) (h : ∀ e ∈ chord, e.1 < i) :
    chordSet chord i n = chord ++ [(i, n)] := by
  induction chord with
  | nil => rfl
  | cons kv rest ih =>
    obtain ⟨k, v⟩ := kv
    have hk : k < i := h (k, v) (List.mem_cons_self _ _)
    have h1 : ¬ (i < k) := by omega
    have h2 : ¬ (i = k) := by omega
    simp only [chordSet, if_neg h1, if_neg h2, List.cons_append]
    rw [ih (fun e he => h e (List.mem_cons_of_mem _ he))]

/-- The row loop appends its entries in the order of the characters. -/
theorem parseRowFrom_eq (i : Nat) (line : List Char) (chord : DanceChord)
    (h : ∀ e ∈ chord, e.1 < i) : parseRowFrom i line chord = chord ++ rowEntries i line := by
  induction line generalizing i chord with
  | nil => simp [parseRowFrom, rowEntries]
  | cons c rest ih =>
    simp only [parseRowFrom, rowEntries]
    cases noteTypeOf c with
    | none =>
      exact ih (i + 1) chord (fun e he => Nat.lt_succ_of_lt (h e he))
    | some ty =>
      simp only
      rw [chordSet_append chord i _ h, ih (i + 1)]
      · simp
      · intro e he
        rcases List.mem_append.mp he with he | he
        · exact Nat.lt_succ_of_lt (h e he)
        · rw [List.mem_singleton.mp he]
          exact Nat.lt_succ_self i

theorem parseRow_eq (line : Str) : parseRow line = rowEntries 0 line := by
  unfold parseRow
  rw [parseRowFrom_eq 0 line [] (by simp)]
  rfl

theorem rowEntries_ge (i : Nat) (line : List Char) : ∀ e ∈ rowEntries i line, i ≤ e.1 := by
  induction line generalizing i with
  | nil => simp [rowEntries]
  | cons c rest ih =>
    simp only [rowEntries]
    cases noteTypeOf c with
    | none =>
      intro e he
      exact Nat.le_of_succ_le (ih (i + 1) e he)
    | some ty =>
      intro e he
      rcases List.mem_cons.mp he with he | he
      · rw [he]
      · exact Nat.le_of_succ_le (ih (i + 1) e he)

theorem mapFind_none_of_not_key {β : Type} (m : List (Nat × β)) (k : Nat)
    (h : ∀ e ∈ m, e.1 ≠ k) : mapFind m k = none := by
  induction m with
  | nil => rfl
  | cons e rest ih =>
    obtain ⟨k1, v1⟩ := e
    have hk : ¬ (k = k1) := fun x => h (k1, v1) (List.mem_cons_self _ _) x.symm
    simp only [mapFind, if_neg hk]
    exact ih (fun e he => h e (List.mem_cons_of_mem _ he))

theorem mapFind_rowEntries (i k : Nat) (row : List Char) :
    mapFind (rowEntries i row) (i + k) =
      ((row[k]?).bind noteTypeOf).map
        (fun ty => ({ begin := 0, end_ := 0, type := ty, note := i + k } : Note)) := by
  induction row generalizing i k with
  | nil => simp [rowEntries, mapFind]
  | cons c rest ih =>
    cases k with
    | zero =>
      simp only [rowEntries, Nat.add_zero, List.getElem?_cons_zero, Option.some_bind]
      cases hc : noteTypeOf c with
      | none =>
        simp only [Option.map_none']
        apply mapFind_none_of_not_key
        intro e he
        have := rowEntries_ge (i + 1) rest e he
        omega
      | some ty => simp [mapFind]
    | succ k =>
      have hrec := ih (i + 1) k
      have hidx : i + 1 + k = i + (k + 1) := by omega
      rw [hidx] at hrec
      simp only [rowEntries, List.getElem?_cons_succ]
      cases hc : noteTypeOf c with
      | none => exact hrec
      | some ty =>
        have hne : ¬ (i + (k + 1) = i) := by omega
        simp only [mapFind, if_neg hne]
        exact hrec

theorem noteTypeOf_isSome (c : Char) :
    (noteTypeOf c).isSome = true ↔ (c ∈ ['1', '2', '3', '4'] ∨ isAsciiLetter c) := by
  unfold noteTypeOf isAsciiLetter
  constructor
  · intro h
    split_ifs at h with h0 h1 h2 h3 h4 hM hL hl hu
    · simp at h
    · left; simp [h1]
    · left; simp [h2]
    · left; simp [h3]
    · left; simp [h4]
    · right; right; rw [hM]; decide
    · right; right; rw [hL]; decide
    · right; left; exact hl
    · right; right; exact hu
    · simp at h
  · intro h
    rcases h with h | h
    · simp only [List.mem_cons, List.mem_singleton, List.not_mem_nil, or_false] at h
      rcases h with h | h | h | h <;> rw [h] <;> decide
    · have h0 : ¬ (c = '0') := by
        intro e
        rw [e] at h
        revert h
        decide
      split_ifs with h1 h2 h3 h4 hM hL hl hu
      any_goals rfl
      rcases h with h | h
      · exact absurd h hl
      · exact absurd h hu

/-- C19: for every row line and every index `i`, the chord of the row has an
entry for lane `i` exactly when the character at `i` is `1`, `2`, `3`, `4` or an
ASCII letter; the entry has lane `i` and the variant of the character: `TAP`
for `1`, `HOLDBEGIN` for `2`, `HOLDEND` for `3`, `ROLL` for `4`, `MINE` for
`M`, `LIFT` for `L`, `TAP` for every other ASCII letter.  The character `0`,
every other character and an index past the end of the line give no entry. -/
theorem parseRow_spec (row : Str) (i : Nat) :
    mapFind (parseRow row) i =
      ((row[i]?).bind noteTypeOf).map
        (fun ty => ({ begin := 0, end_ := 0, type := ty, note := i } : Note)) ∧
    (∀ c : Char, (noteTypeOf c).isSome = true ↔ (c ∈ ['1', '2', '3', '4'] ∨ isAsciiLetter c)) ∧
    noteTypeOf '1' = some NoteType.TAP ∧ noteTypeOf '2' = some NoteType.HOLDBEGIN ∧
    noteTypeOf '3' = some NoteType.HOLDEND ∧ noteTypeOf '4' = some NoteType.ROLL ∧
    noteTypeOf 'M' = some NoteType.MINE ∧ noteTypeOf 'L' = some NoteType.LIFT ∧
    (∀ c : Char, isAsciiLetter c → c ≠ 'M' → c ≠ 'L' → noteTypeOf c = some NoteType.TAP) := by
  refine ⟨?_, noteTypeOf_isSome, by decide, by decide, by decide, by decide, by decide,
    by decide, ?_⟩
  · rw [parseRow_eq]
    simpa using mapFind_rowEntries 0 i row
  · intro c hc hM hL
    have hsome := (noteTypeOf_isSome c).mpr (Or.inr hc)
    have h0 : ¬ (c = '0') := by
      intro e; rw [e] at hc; revert hc; unfold isAsciiLetter; decide
    have h1 : ¬ (c = '1') := by
      intro e; rw [e] at hc; revert hc; unfold isAsciiLetter; decide
    have h2 : ¬ (c = '2') := by
      intro e; rw [e] at hc; revert hc; unfold isAsciiLetter; decide
    have h3 : ¬ (c = '3') := by
      intro e; rw [e] at hc; revert hc; unfold isAsciiLetter; decide
    have h4 : ¬ (c = '4') := by
      intro e; rw [e] at hc; revert hc; unfold isAsciiLetter; decide
    unfold noteTypeOf
    rw [if_neg h0, if_neg h1, if_neg h2, if_neg h3, if_neg h4, if_neg hM, if_neg hL]
    unfold isAsciiLetter at hc
    rcases hc with hc | hc
    · rw [if_pos hc]
    · split_ifs <;> rfl

end SongParser

namespace SongParser

/-! ## Rows after the last boundary (C20) -/

theorem smParseNotesLoop_no_boundary (tsTime : ℚ → ℚ) (body : List Str) (s : NotesState)
    (hb : ∀ l ∈ body, charAt l 0 ≠ ',' ∧ charAt l 0 ≠ ';') :
    (smParseNotesLoop tsTime body s).1 = Except.ok s.notes := by
  induction body generalizing s with
  | nil => simp [smParseNotesLoop]
  | cons l rest ih =>
    have hl := hb l (List.mem_cons_self _ _)
    have hrest : ∀ x ∈ rest, charAt x 0 ≠ ',' ∧ charAt x 0 ≠ ';' :=
      fun x hx => hb x (List.mem_cons_of_mem _ hx)
    have hnb : ¬ (charAt l 0 = ',' ∨ charAt l 0 = ';') := fun h => h.elim hl.1 hl.2
    unfold smParseNotesLoop
    split_ifs with h1 h2 h3
    · exact ih s hrest
    · exact ih s hrest
    · rfl
    · exact ih _ hrest

theorem smParseNotesLoop_trailing (tsTime : ℚ → ℚ) (trailing tail : List Str) (s : NotesState)
    (ht : ∀ l ∈ trailing, charAt l 0 ≠ '#' ∧ charAt l 0 ≠ ',' ∧ charAt l 0 ≠ ';')
    (htail : tail = [] ∨ ∃ h r, tail = h :: r ∧ charAt h 0 = '#') :
    (smParseNotesLoop tsTime (trailing ++ tail) s).1 = Except.ok s.notes := by
  induction trailing generalizing s with
  | nil =>
    rcases htail with h | ⟨h, r, ht2, hh⟩
    · rw [h]; simp [smParseNotesLoop]
    · rw [ht2]
      obtain ⟨h1, h2⟩ := hash_not_skipped h hh
      simp only [List.nil_append]
      unfold smParseNotesLoop
      rw [if_neg h1, if_neg h2, if_pos hh]
  | cons l rest ih =>
    have hl := ht l (List.mem_cons_self _ _)
    have hrest : ∀ x ∈ rest, charAt x 0 ≠ '#' ∧ charAt x 0 ≠ ',' ∧ charAt x 0 ≠ ';' :=
      fun x hx => ht x (List.mem_cons_of_mem _ hx)
    have hnb : ¬ (charAt l 0 = ',' ∨ charAt l 0 = ';') := fun h => h.elim hl.2.1 hl.2.2
    simp only [List.cons_append]
    unfold smParseNotesLoop
    rw [if_neg hl.1, if_neg hnb]
    split_ifs with h1 h2
    · exact ih s hrest
    · exact ih s hrest
    · exact ih _ hrest

theorem smParseNotesLoop_drop_trailing (tsTime : ℚ → ℚ) (pre trailing tail : List Str)
    (s : NotesState)
    (ht : ∀ l ∈ trailing, charAt l 0 ≠ '#' ∧ charAt l 0 ≠ ',' ∧ charAt l 0 ≠ ';')
    (htail : tail = [] ∨ ∃ h r, tail = h :: r ∧ charAt h 0 = '#') :
    (smParseNotesLoop tsTime (pre ++ (trailing ++ tail)) s).1 =
      (smParseNotesLoop tsTime (pre ++ tail) s).1 := by
  induction pre generalizing s with
  | nil =>
    simp only [List.nil_append]
    rw [smParseNotesLoop_trailing tsTime trailing tail s ht htail]
    have := smParseNotesLoop_trailing tsTime [] tail s (by simp) htail
    simpa using this.symm
  | cons l rest ih =>
    simp only [List.cons_append]
    unfold smParseNotesLoop
    split_ifs with h1 h2 h3 h4
    · exact ih s
    · exact ih s
    · rfl
    · simp only
      cases processRows s.begin
          ((tsTime ((s.measure : ℚ) * 16) - s.begin) / (s.chords.length : ℚ)) 0 s.chords
          s.notes s.holdMarks with
      | error e => rfl
      | ok p => exact ih _
    · exact ih _

/-- C20: rows of a measure that no boundary line closes are dropped.  If the
lines `trailing` start neither with `,` or `;` nor with `#`, and are followed
by the end of the input or by a line starting with `#`, then `smParseNotes`
returns for `pre ++ trailing ++ tail` the note list, or the exception, that it
returns for `pre ++ tail`; and a body without a line starting with `,` or `;`
gives the empty note list. -/
theorem smParseNotes_trailing_rows (tsTime : ℚ → ℚ) (pre trailing tail : List Str)
    (ht : ∀ l ∈ trailing, charAt l 0 ≠ '#' ∧ charAt l 0 ≠ ',' ∧ charAt l 0 ≠ ';')
    (htail : tail = [] ∨ ∃ h r, tail = h :: r ∧ charAt h 0 = '#') :
    (smParseNotes tsTime (pre ++ (trailing ++ tail))).1 = (smParseNotes tsTime (pre ++ tail)).1 ∧
    (∀ body : List Str, (∀ l ∈ body, charAt l 0 ≠ ',' ∧ charAt l 0 ≠ ';') →
      (smParseNotes tsTime body).1 = Except.ok []) :=
  ⟨smParseNotesLoop_drop_trailing tsTime pre trailing tail NotesState.init ht htail,
   fun body hb => smParseNotesLoop_no_boundary tsTime body NotesState.init hb⟩

/-- C20 at the measure of two taps followed by an unclosed row `0011`: the
notes are those of the two taps. -/
theorem smParseNotes_trailing_rows_witness :
    (smParseNotes ts120 (tapsBody ++ (["0011".toList] ++ []))).1 =
      Except.ok [{ begin := 0, end_ := 0, type := NoteType.TAP, note := 0 },
                 { begin := 1, end_ := 1, type := NoteType.TAP, note := 1 }] :=
  ((smParseNotes_trailing_rows ts120 tapsBody ["0011".toList] []
    (by intro l hl; rw [List.mem_singleton.mp hl]; decide) (Or.inl rfl)).1).trans (by decide!)

end SongParser

namespace SongParser

/-! ## The `BPMS` record (C13) -/

end SongParser

namespace SongParser

/-! ## Begin and end of the notes (C17) -/

theorem setEnd_mem (notes : Notes) (i : Nat) (t : ℚ) (m : Note) (h : m ∈ setEnd notes i t) :
    m ∈ notes ∨ ∃ n, notes[i]? = some n ∧ m = { n with end_ := t } := by
  induction notes generalizing i with
  | nil => simp [setEnd] at h
  | cons a rest ih =>
    cases i with
    | zero =>
      simp only [setEnd, List.mem_cons] at h
      rcases h with h | h
      · exact Or.inr ⟨a, by simp, h⟩
      · exact Or.inl (List.mem_cons_of_mem _ h)
    | succ i =>
      simp only [setEnd, List.mem_cons] at h
      rcases h with h | h
      · exact Or.inl (by rw [h]; exact List.mem_cons_self _ _)
      · rcases ih i h with h | ⟨n, hn, hm⟩
        · exact Or.inl (List.mem_cons_of_mem _ h)
        · exact Or.inr ⟨n, by simpa using hn, hm⟩

theorem notesOk_init : NotesOk [] (fun _ => 0) := by
  constructor
  · intro n hn; simp at hn
  · intro l hl; exact absurd rfl hl

theorem notesOk_step (t : ℚ) (notes : Notes) (hm : HoldMarks) (lane : Nat) (n0 : Note)
    (notes1 : Notes) (hm1 : HoldMarks) (hinv : NotesOk notes hm)
    (hle : ∀ n ∈ notes, n.begin ≤ t)
    (h : processCell t notes hm lane n0 = Except.ok (notes1, hm1)) :
    NotesOk notes1 hm1 ∧ ∀ n ∈ notes1, n.begin ≤ t := by
  obtain ⟨hnotes, hmarks⟩ := hinv
  by_cases hty : n0.type = NoteType.HOLDEND
  · by_cases h0 : hm lane = 0
    · rw [processCell_holdend_zero t notes hm lane n0 hty h0] at h
      cases h
    · rw [processCell_holdend_open t notes hm lane n0 hty h0] at h
      cases h
      obtain ⟨nb, hnb, htyb⟩ := hmarks lane h0
      have hnbmem : nb ∈ notes := List.getElem?_mem hnb
      refine ⟨⟨?_, ?_⟩, ?_⟩
      · intro m hmem
        rcases setEnd_mem notes _ t m hmem with hold | ⟨n, hn, hmn⟩
        · exact hnotes m hold
        · have hnn : n = nb := Option.some.inj (hn.symm.trans hnb)
          subst hnn
          subst hmn
          refine ⟨hle n hnbmem, ?_⟩
          intro hinst
          exfalso
          unfold NoteType.isInstant at hinst
          simp only at hinst
          rcases htyb with hb | hb <;> rw [hb] at hinst <;> revert hinst <;> decide
      · intro l hl
        by_cases hll : l = lane
        · simp [holdSet, hll] at hl
        · simp only [holdSet, hll, if_false] at hl ⊢
          obtain ⟨n, hn, hnty⟩ := hmarks l hl
          by_cases hidx : hm lane - 1 = hm l - 1
          · rw [hidx]
            exact ⟨{ n with end_ := t }, setEnd_getElem?_eq notes _ t n hn, hnty⟩
          · exact ⟨n, by rw [setEnd_getElem?_ne notes _ _ t hidx]; exact hn, hnty⟩
      · intro m hmem
        rcases setEnd_mem notes _ t m hmem with hold | ⟨n, hn, hmn⟩
        · exact hle m hold
        · subst hmn
          exact hle n (List.getElem?_mem hn)
  · rw [processCell_emit t notes hm lane n0 hty] at h
    cases h
    refine ⟨⟨?_, ?_⟩, ?_⟩
    · intro m hmem
      rcases List.mem_append.mp hmem with hold | hnew
      · exact hnotes m hold
      · rw [List.mem_singleton.mp hnew]
        exact ⟨le_refl _, fun _ => rfl⟩
    · intro l hl
      by_cases hll : l = lane
      · subst hll
        simp only [holdSet, if_true] at hl ⊢
        by_cases hb : n0.type = NoteType.HOLDBEGIN ∨ n0.type = NoteType.ROLL
        · simp only [if_pos hb, Nat.add_sub_cancel]
          refine ⟨{ n0 with begin := t, end_ := t }, ?_, hb⟩
          rw [List.getElem?_append_right (le_refl _)]
          simp
        · simp only [if_neg hb] at hl
          exact absurd rfl hl
      · simp only [holdSet, hll, if_false] at hl ⊢
        obtain ⟨n, hn, hnty⟩ := hmarks l hl
        refine ⟨n, ?_, hnty⟩
        have hlt : hm l - 1 < notes.length := (List.getElem?_eq_some.mp hn).1
        rw [List.getElem?_append_left hlt]
        exact hn
    · intro m hmem
      rcases List.mem_append.mp hmem with hold | hnew
      · exact hle m hold
      · rw [List.mem_singleton.mp hnew]

theorem notesOk_run (cells : List Cell) (notes : Notes) (hm : HoldMarks) (notes1 : Notes)
    (hm1 : HoldMarks) (hinv : NotesOk notes hm)
    (hsorted : List.Pairwise (fun c d : Cell => c.t ≤ d.t) cells)
    (hle : ∀ n ∈ notes, ∀ c ∈ cells, n.begin ≤ c.t)
    (h : runCells cells notes hm = Except.ok (notes1, hm1)) : NotesOk notes1 hm1 := by
  induction cells generalizing notes hm with
  | nil =>
    simp only [runCells] at h
    cases h
    exact hinv
  | cons c rest ih =>
    obtain ⟨n1, h1, hc, hr⟩ := runCells_cons_ok c rest notes hm (notes1, hm1) h
    obtain ⟨hinv1, hle1⟩ := notesOk_step c.t notes hm c.lane c.note n1 h1 hinv
      (fun n hn => hle n hn c (List.mem_cons_self _ _)) hc
    rw [List.pairwise_cons] at hsorted
    exact ih n1 h1 hinv1 hsorted.2
      (fun n hn d hd => le_trans (hle1 n hn) (hsorted.1 d hd)) hr

/-- C17: if `tsTime` is non-decreasing on the measure ends and
`tsTime(16) >= 0`, every note that `smParseNotes` returns for a body it accepts
has `begin <= end`, and `begin = end` if it is a `TAP`, a `MINE` or a
`LIFT`. -/
theorem smParseNotes_begin_le_end (tsTime : ℚ → ℚ)
    (hmono : ∀ j k : ℕ, 1 ≤ j → j ≤ k → tsTime ((j : ℚ) * 16) ≤ tsTime ((k : ℚ) * 16))
    (h16 : 0 ≤ tsTime 16) (body : List Str) (notes : Notes) (rest : List Str)
    (hacc : smParseNotes tsTime body = (Except.ok notes, rest)) :
    ∀ n ∈ notes, n.begin ≤ n.end_ ∧
      ((n.type = NoteType.TAP ∨ n.type = NoteType.MINE ∨ n.type = NoteType.LIFT) →
        n.begin = n.end_) := by
  obtain ⟨hm, hrun⟩ := smParseNotes_ok_run tsTime body notes rest hacc
  have hsorted := (flushedCellsFrom_sorted tsTime (fun k hk => hmono k (k + 1) hk (by omega))
    body [] 1 0 (le_refl 1) (by simpa using h16)).1
  have hok := notesOk_run (flushedCells tsTime body) [] (fun _ => 0) notes hm notesOk_init
    hsorted (by intro n hn; simp at hn) hrun
  exact hok.1

/-- C17 at the hold measure at 120 BPM: the hold begins at 0 and ends at 1
second. -/
theorem smParseNotes_begin_le_end_witness :
    smParseNotes ts120 holdBody =
      (Except.ok [{ begin := 0, end_ := 1, type := NoteType.HOLDBEGIN, note := 0 }], []) ∧
    (0 : ℚ) ≤ 1 :=
  ⟨by decide!,
   (smParseNotes_begin_le_end ts120
    (by
      intro j k _ hjk
      have h : (j : ℚ) ≤ (k : ℚ) := by exact_mod_cast hjk
      simp only [ts120]
      linarith)
    (by simp only [ts120]; norm_num) holdBody
    [{ begin := 0, end_ := 1, type := NoteType.HOLDBEGIN, note := 0 }] [] (by decide!)
    { begin := 0, end_ := 1, type := NoteType.HOLDBEGIN, note := 0 }
    (List.mem_singleton.mpr rfl)).1⟩

end SongParser

namespace SongParser

/-! ## Holds and their ends (C16) -/

theorem rowEntries_distinct (i : Nat) (row : List Char) :
    List.Pairwise (fun e f : Nat × Note => e.1 ≠ f.1) (rowEntries i row) := by
  induction row generalizing i with
  | nil => simp [rowEntries]
  | cons c rest ih =>
    simp only [rowEntries]
    cases noteTypeOf c with
    | none => exact ih (i + 1)
    | some ty =>
      rw [List.pairwise_cons]
      refine ⟨?_, ih (i + 1)⟩
      intro e he
      have := rowEntries_ge (i + 1) rest e he
      simp only
      omega

theorem rowCells_strict (measure rows : Nat) (begin step : ℚ) (hstep : 0 < step) (note : Nat)
    (chords : List DanceChord)
    (hch : ∀ ch ∈ chords, List.Pairwise (fun e f : Nat × Note => e.1 ≠ f.1) ch) :
    List.Pairwise (fun c d : Cell => c.lane = d.lane → c.t < d.t)
      (rowCells measure rows begin step note chords) := by
  induction chords generalizing note with
  | nil => simp [rowCells]
  | cons chord rest ih =>
    simp only [rowCells]
    rw [List.pairwise_append]
    refine ⟨?_, ih (note + 1) (fun ch h => hch ch (List.mem_cons_of_mem _ h)), ?_⟩
    · simp only [chordCells, List.pairwise_map]
      exact List.Pairwise.imp (fun hne heq => absurd heq hne)
        (hch chord (List.mem_cons_self _ _))
    · intro c hc d hd _
      simp only [chordCells, List.mem_map] at hc
      obtain ⟨e, _, hce⟩ := hc
      obtain ⟨_, _, h3, _, h5⟩ := rowCells_pos measure rows begin step (note + 1) rest d hd
      rw [h5, ← hce]
      have hcast : (note : ℚ) < (d.row : ℚ) := by exact_mod_cast (by omega : note < d.row)
      have := mul_lt_mul_of_pos_right hcast hstep
      simpa using this

theorem flushedCellsFrom_strict (tsTime : ℚ → ℚ)
    (hmono : ∀ k : ℕ, 1 ≤ k → tsTime ((k : ℚ) * 16) < tsTime (((k + 1 : ℕ) : ℚ) * 16))
    (lines : List Str) (chords : List DanceChord) (measure : Nat) (begin : ℚ)
    (hm : 1 ≤ measure) (hb : begin < tsTime ((measure : ℚ) * 16))
    (hch : ∀ ch ∈ chords, List.Pairwise (fun e f : Nat × Note => e.1 ≠ f.1) ch) :
    List.Pairwise (fun c d : Cell => c.lane = d.lane → c.t < d.t)
      (flushedCellsFrom tsTime lines chords measure begin) := by
  induction lines generalizing chords measure begin with
  | nil => simp [flushedCellsFrom]
  | cons line rest ih =>
    unfold flushedCellsFrom
    split_ifs with h1 h2 h3 h4
    · exact ih chords measure begin hm hb hch
    · exact ih chords measure begin hm hb hch
    · simp
    · have hlow := (flushedCellsFrom_sorted tsTime (fun k hk => le_of_lt (hmono k hk)) rest []
        (measure + 1) (tsTime ((measure : ℚ) * 16)) (by omega) (le_of_lt (hmono measure hm))).2
      rw [List.pairwise_append]
      by_cases hn : chords.length = 0
      · have hnil : chords = [] := List.length_eq_zero.mp hn
        rw [hnil]
        refine ⟨by simp [rowCells], ih [] (measure + 1) _ (by omega) (hmono measure hm)
          (by simp), by simp [rowCells]⟩
      · have hnpos : (0 : ℚ) < (chords.length : ℚ) := by
          exact_mod_cast Nat.pos_of_ne_zero hn
        have hstep : 0 < (tsTime ((measure : ℚ) * 16) - begin) / (chords.length : ℚ) :=
          div_pos (sub_pos.mpr hb) hnpos
        refine ⟨rowCells_strict _ _ _ _ hstep _ _ hch,
          ih [] (measure + 1) _ (by omega) (hmono measure hm) (by simp), ?_⟩
        intro c hc d hd _
        obtain ⟨_, _, _, h4, h5⟩ := rowCells_pos _ _ _ _ _ _ c hc
        have hr : (c.row : ℚ) < (chords.length : ℚ) := by
          exact_mod_cast (by omega : c.row < chords.length)
        have hlt := mul_lt_mul_of_pos_right hr hstep
        have hfull : (chords.length : ℚ) *
            ((tsTime ((measure : ℚ) * 16) - begin) / (chords.length : ℚ)) =
            tsTime ((measure : ℚ) * 16) - begin := by
          field_simp
        rw [hfull] at hlt
        have hd2 := hlow d hd
        rw [h5]
        linarith
    · apply ih (chords ++ [parseRow line]) measure begin hm hb
      intro ch hmem
      rcases List.mem_append.mp hmem with hmem | hmem
      · exact hch ch hmem
      · rw [List.mem_singleton.mp hmem, parseRow_eq]
        exact rowEntries_distinct 0 line

/-- A hold whose lane sees no further cell keeps `end = begin`. -/
theorem runCells_openHold (pre post : List Cell) (c1 : Cell) (notes : Notes) (hm : HoldMarks)
    (hrun : runCells (pre ++ c1 :: post) [] (fun _ => 0) = Except.ok (notes, hm))
    (h1 : c1.note.type = NoteType.HOLDBEGIN ∨ c1.note.type = NoteType.ROLL)
    (hpost : ∀ c ∈ post, c.lane ≠ c1.lane) :
    notes[(emitting pre).length]? = some c1.stamped := by
  obtain ⟨nP, hP, hpre, hrest⟩ := runCells_append_ok pre _ [] (fun _ => 0) (notes, hm) hrun
  have hinvP := marksOk_run pre [] (fun _ => 0) nP hP marksOk_init hpre
  have hlenP : nP.length = (emitting pre).length := by
    have := congrArg List.length (runCells_noteKey pre [] (fun _ => 0) nP hP hpre)
    simpa using this
  obtain ⟨n1, hm1, hc1, hrest1⟩ := runCells_cons_ok c1 _ nP hP (notes, hm) hrest
  have hne1 : c1.note.type ≠ NoteType.HOLDEND := by
    rcases h1 with h | h <;> rw [h] <;> decide
  have hinv1 := marksOk_step c1.t nP hP c1.lane c1.note n1 hm1 hinvP hc1
  rw [processCell_emit c1.t nP hP c1.lane c1.note hne1] at hc1
  cases hc1
  have hmark1 : holdSet hP c1.lane
      (if c1.note.type = NoteType.HOLDBEGIN ∨ c1.note.type = NoteType.ROLL then nP.length + 1
       else 0) c1.lane = nP.length + 1 := by
    simp [holdSet, h1]
  have hget1 : (nP ++ [{ c1.note with begin := c1.t, end_ := c1.t }])[nP.length]? =
      some { c1.note with begin := c1.t, end_ := c1.t } := by
    simp
  obtain ⟨hget2, _⟩ := marked_run post _ _ notes hm nP.length c1.lane hinv1 hmark1 hpost hrest1
  rw [← hlenP, hget2, hget1]
  rfl

/-- A hold whose next cell on its lane is not a `HOLDEND` keeps `end = begin`. -/
theorem runCells_brokenHold (pre mid post : List Cell) (c1 c2 : Cell) (notes : Notes)
    (hm : HoldMarks)
    (hrun : runCells (pre ++ c1 :: (mid ++ c2 :: post)) [] (fun _ => 0) = Except.ok (notes, hm))
    (h1 : c1.note.type = NoteType.HOLDBEGIN ∨ c1.note.type = NoteType.ROLL)
    (h2 : c2.note.type ≠ NoteType.HOLDEND) (hl : c2.lane = c1.lane)
    (hmid : ∀ c ∈ mid, c.lane ≠ c1.lane) :
    notes[(emitting pre).length]? = some c1.stamped := by
  obtain ⟨nP, hP, hpre, hrest⟩ := runCells_append_ok pre _ [] (fun _ => 0) (notes, hm) hrun
  have hinvP := marksOk_run pre [] (fun _ => 0) nP hP marksOk_init hpre
  have hlenP : nP.length = (emitting pre).length := by
    have := congrArg List.length (runCells_noteKey pre [] (fun _ => 0) nP hP hpre)
    simpa using this
  obtain ⟨n1, hm1, hc1, hrest1⟩ := runCells_cons_ok c1 _ nP hP (notes, hm) hrest
  have hne1 : c1.note.type ≠ NoteType.HOLDEND := by
    rcases h1 with h | h <;> rw [h] <;> decide
  have hinv1 := marksOk_step c1.t nP hP c1.lane c1.note n1 hm1 hinvP hc1
  rw [processCell_emit c1.t nP hP c1.lane c1.note hne1] at hc1
  cases hc1
  have hmark1 : holdSet hP c1.lane
      (if c1.note.type = NoteType.HOLDBEGIN ∨ c1.note.type = NoteType.ROLL then nP.length + 1
       else 0) c1.lane = nP.length + 1 := by
    simp [holdSet, h1]
  have hget1 : (nP ++ [{ c1.note with begin := c1.t, end_ := c1.t }])[nP.length]? =
      some { c1.note with begin := c1.t, end_ := c1.t } := by
    simp
  obtain ⟨n2, hm2, hmidrun, hrest2⟩ := runCells_append_ok mid _ _ _ (notes, hm) hrest1
  obtain ⟨hget2, hmark2⟩ := marked_run mid _ _ n2 hm2 nP.length c1.lane hinv1 hmark1 hmid hmidrun
  have hinv2 := marksOk_run mid _ _ n2 hm2 hinv1 hmidrun
  obtain ⟨n3, hm3, hc2, hpost⟩ := runCells_cons_ok c2 post n2 hm2 (notes, hm) hrest2
  have hk2 : nP.length < n2.length := by
    have := hinv2.1 c1.lane
    omega
  rw [processCell_emit c2.t n2 hm2 c2.lane c2.note h2] at hc2
  cases hc2
  have hget3 : (n2 ++ [{ c2.note with begin := c2.t, end_ := c2.t }])[nP.length]? =
      some { c1.note with begin := c1.t, end_ := c1.t } := by
    rw [List.getElem?_append_left hk2, hget2, hget1]
  have hk3 : nP.length < (n2 ++ [{ c2.note with begin := c2.t, end_ := c2.t }]).length := by
    simp only [List.length_append, List.length_singleton]
    omega
  have hno : ∀ l, holdSet hm2 c2.lane
      (if c2.note.type = NoteType.HOLDBEGIN ∨ c2.note.type = NoteType.ROLL then n2.length + 1
       else 0) l ≠ nP.length + 1 := by
    intro l
    by_cases hll : l = c2.lane
    · simp only [holdSet, hll, if_true]
      split_ifs <;> omega
    · simp only [holdSet, hll, if_false]
      intro e
      have h0 : hm2 l ≠ 0 := by omega
      have : l = c1.lane := hinv2.2 l c1.lane h0 (by rw [e, hmark2])
      exact hll (by rw [this, hl])
  rw [← hlenP, unmarked_run post _ _ notes hm nP.length hk3 hno hpost, hget3]
  rfl

end SongParser

namespace SongParser

/-- C16 (amended): let `tsTime` increase strictly on the measure ends with
`tsTime(16) > 0`, and let `smParseNotes` accept the body.  A `HOLDBEGIN` or
`ROLL` cell `c1` whose next flushed cell on its lane is the `HOLDEND` `c2` gives
the note with `begin = c1.t` and `end = c2.t`, and `end > begin`.  A
`HOLDBEGIN` or `ROLL` cell with no later flushed cell on its lane, or whose
next flushed cell on its lane is not a `HOLDEND`, gives a note that keeps
`end = begin`. -/
theorem smParseNotes_hold_end (tsTime : ℚ → ℚ)
    (hmono : ∀ j k : ℕ, 1 ≤ j → j < k → tsTime ((j : ℚ) * 16) < tsTime ((k : ℚ) * 16))
    (h16 : 0 < tsTime 16) (body : List Str) (notes : Notes) (rest : List Str)
    (hacc : smParseNotes tsTime body = (Except.ok notes, rest)) :
    (∀ (pre mid post : List Cell) (c1 c2 : Cell),
      flushedCells tsTime body = pre ++ c1 :: (mid ++ c2 :: post) →
      (c1.note.type = NoteType.HOLDBEGIN ∨ c1.note.type = NoteType.ROLL) →
      c2.note.type = NoteType.HOLDEND → c2.lane = c1.lane → (∀ c ∈ mid, c.lane ≠ c1.lane) →
      notes[(emitting pre).length]? =
          some { begin := c1.t, end_ := c2.t, type := c1.note.type, note := c1.lane } ∧
        c1.t < c2.t) ∧
    (∀ (pre post : List Cell) (c1 : Cell),
      flushedCells tsTime body = pre ++ c1 :: post →
      (c1.note.type = NoteType.HOLDBEGIN ∨ c1.note.type = NoteType.ROLL) →
      (∀ c ∈ post, c.lane ≠ c1.lane) →
      notes[(emitting pre).length]? =
        some { begin := c1.t, end_ := c1.t, type := c1.note.type, note := c1.lane }) ∧
    (∀ (pre mid post : List Cell) (c1 c2 : Cell),
      flushedCells tsTime body = pre ++ c1 :: (mid ++ c2 :: post) →
      (c1.note.type = NoteType.HOLDBEGIN ∨ c1.note.type = NoteType.ROLL) →
      c2.note.type ≠ NoteType.HOLDEND → c2.lane = c1.lane → (∀ c ∈ mid, c.lane ≠ c1.lane) →
      notes[(emitting pre).length]? =
        some { begin := c1.t, end_ := c1.t, type := c1.note.type, note := c1.lane }) := by
  obtain ⟨hm, hrun⟩ := smParseNotes_ok_run tsTime body notes rest hacc
  have hstrict := flushedCellsFrom_strict tsTime
    (fun k hk => by
      have := hmono k (k + 1) hk (by omega)
      exact this)
    body [] 1 0 (le_refl 1) (by simpa using h16) (by simp)
  refine ⟨?_, ?_, ?_⟩
  · intro pre mid post c1 c2 hcells h1 h2 hl hmid
    have hlane : c1.note.note = c1.lane :=
      flushedCells_lane tsTime body c1 (by rw [hcells]; simp)
    rw [hcells] at hrun
    have hget := runCells_holdPair pre mid post c1 c2 notes hm hrun h1 h2 hl hmid
    have hlt : c1.t < c2.t := by
      have hp : List.Pairwise (fun c d : Cell => c.lane = d.lane → c.t < d.t)
          (pre ++ c1 :: (mid ++ c2 :: post)) := by
        rw [← hcells]; exact hstrict
      have hp2 := (List.pairwise_append.mp hp).2.1
      rw [List.pairwise_cons] at hp2
      exact hp2.1 c2 (by simp) hl.symm
    refine ⟨?_, hlt⟩
    rw [hget]
    simp only [hlane]
  · intro pre post c1 hcells h1 hpost
    have hlane : c1.note.note = c1.lane :=
      flushedCells_lane tsTime body c1 (by rw [hcells]; simp)
    rw [hcells] at hrun
    rw [runCells_openHold pre post c1 notes hm hrun h1 hpost]
    simp only [Cell.stamped, hlane]
  · intro pre mid post c1 c2 hcells h1 h2 hl hmid
    have hlane : c1.note.note = c1.lane :=
      flushedCells_lane tsTime body c1 (by rw [hcells]; simp)
    rw [hcells] at hrun
    rw [runCells_brokenHold pre mid post c1 c2 notes hm hrun h1 h2 hl hmid]
    simp only [Cell.stamped, hlane]

/-- C16 (amended) at the hold measure at 120 BPM: the hold from row 0 to row 2
begins at 0 and ends at 1 second. -/
theorem smParseNotes_hold_end_witness :
    [({ begin := 0, end_ := 1, type := NoteType.HOLDBEGIN, note := 0 } : Note)][0]? =
      some { begin := 0, end_ := 1, type := NoteType.HOLDBEGIN, note := 0 } ∧
    (0 : ℚ) < 1 :=
  (smParseNotes_hold_end ts120
    (by
      intro j k _ hjk
      have h : (j : ℚ) < (k : ℚ) := by exact_mod_cast hjk
      simp only [ts120]
      linarith)
    (by simp only [ts120]; norm_num) holdBody
    [{ begin := 0, end_ := 1, type := NoteType.HOLDBEGIN, note := 0 }] [] (by decide!)).1
    [] [] []
    { measure := 1, row := 0, rows := 4, lane := 0,
      note := { begin := 0, end_ := 0, type := NoteType.HOLDBEGIN, note := 0 }, t := 0 }
    { measure := 1, row := 2, rows := 4, lane := 0,
      note := { begin := 0, end_ := 0, type := NoteType.HOLDEND, note := 0 }, t := 1 }
    (by decide!) (by decide) (by decide) (by decide) (by simp)

/-- C16 fails as stated.  At 120 BPM the body `2000`, `0000`, `;` is accepted
and its `HOLDBEGIN`, which no `HOLDEND` closes, is returned with `end = begin`.
And under `tsLate`, which increases strictly but has `tsTime(16) = -1`, the
closed hold of the hold measure is returned with `end < begin`. -/
theorem smParseNotes_hold_end_counterexample :
    (smParseNotes ts120 openHoldBody =
        (Except.ok [{ begin := 0, end_ := 0, type := NoteType.HOLDBEGIN, note := 0 }], []) ∧
      ¬ ((0 : ℚ) < 0)) ∧
    (smParseNotes tsLate holdBody =
        (Except.ok [{ begin := 0, end_ := -1 / 2, type := NoteType.HOLDBEGIN, note := 0 }], []) ∧
      ¬ ((0 : ℚ) < -1 / 2)) ∧
    (∀ j k : ℕ, 1 ≤ j → j < k → ts120 ((j : ℚ) * 16) < ts120 ((k : ℚ) * 16)) ∧
    (∀ j k : ℕ, 1 ≤ j → j < k → tsLate ((j : ℚ) * 16) < tsLate ((k : ℚ) * 16)) := by
  refine ⟨⟨by decide!, by norm_num⟩, ⟨by decide!, by norm_num⟩, ?_, ?_⟩
  · intro j k _ hjk
    have h : (j : ℚ) < (k : ℚ) := by exact_mod_cast hjk
    simp only [ts120]
    linarith
  · intro j k _ hjk
    have h : (j : ℚ) < (k : ℚ) := by exact_mod_cast hjk
    simp only [tsLate]
    linarith

end SongParser

namespace SongParser

/-! ## The `TITLE` and `ARTIST` records (C18) -/

/-- C18: the records `#TITLE::Foo;` and `#ARTIST::Foo;` set the title `Foo`
and the artist `:Foo`, but on the record `#TITLE::;`, whose value is made of a
colon only, `smParseField` throws the `std::out_of_range` of `substr` and
leaves the title as it was, instead of setting it to the empty string. -/
theorem smParseField_title_colons :
    (smParseField sampleEnv "#TITLE::;".toList (State.init [] [])).1 =
      Except.error errOutOfRange ∧
    (smParseField sampleEnv "#TITLE::;".toList (State.init [] [])).1 ≠ Except.ok true ∧
    (smParseField sampleEnv "#TITLE::;".toList
      { State.init [] [] with
        m_song := { (State.init [] []).m_song with title := "Old".toList } }).2.m_song.title =
      "Old".toList ∧
    (smParseField sampleEnv "#TITLE::Foo;".toList (State.init [] [])).2.m_song.title =
      "Foo".toList ∧
    (smParseField sampleEnv "#ARTIST::Foo;".toList (State.init [] [])).2.m_song.artist =
      ":Foo".toList := by
  decide!

end SongParser
